import Mathlib

/-!
# Lead ingestion and assignment core of Savan_Backend

A shallow embedding of `src/services/leadAssignment.js`, `src/models/Lead.js`
and the ingestion controllers of `src/controllers/leadController.js`.

Conventions of the embedding:

* a Mongo `ObjectId` is a natural number; `String(id)` is injective on
  ObjectIds, so a JS `Map` keyed by `String(id)` is keyed here by the id itself;
* a collection is the list of its documents in insertion order;
* an `await`ed call is a plain function call (one request runs at a time).
-/

namespace Savan

/-! ## Data model -/

abbrev ObjectId := Nat

/-- A JS number, an IEEE 754 double, written as a decimal: `fin neg mant exp` is
`(-1)^neg * mant / 10^exp` (every finite double has such a writing). The results of
`parseFloat` and of the multiplications are rounded by `JsNum.toDouble`. -/
inductive JsNum where
  | nan
  | inf (neg : Bool)
  | fin (neg : Bool) (mant : Nat) (exp : Nat)
deriving DecidableEq, Repr

/-- The fields of `models/User.js` that the lead core reads. -/
structure User where
  _id : ObjectId
  role : String
  companyId : Option ObjectId
  isActive : Bool
  createdAt : Nat
deriving DecidableEq, Repr

/-- A stored document of `models/Lead.js` (timestamps left out). -/
structure Lead where
  companyId : ObjectId
  assignedTo : Option ObjectId
  firstName : String
  lastName : Option String
  phone : String
  email : Option String
  location : Option String
  propertyInterest : Option String
  budgetMin : Option JsNum
  budgetMax : Option JsNum
  currency : String
  source : String
  campaign : Option String
  adset : Option String
  adId : Option String
  isBroker : Bool
  brokerName : Option String
  brokerCutPct : Option JsNum
  status : String
  projectId : Option ObjectId
  propertyId : Option ObjectId
  createdBy : Option ObjectId
  notes : Option String
  externalRef : Option String
deriving DecidableEq, Repr

/-! ## JavaScript values and string primitives -/

/-- The JS values that reach the lead core in a JSON body, a query string or a parsed
row: `undefined` (absent), `null`, booleans, numbers and strings. A number is a
non-negative integer below 10^21, which `String` prints as its decimal digits. -/
inductive JsVal where
  | undefined
  | null
  | bool (b : Bool)
  | num (n : Nat)
  | str (s : String)
deriving DecidableEq, Repr

/-- JS truthiness, as tested by `!v`, `v || w` and `v ? a : b`. -/
def JsVal.truthy : JsVal → Bool
  | .undefined => false
  | .null => false
  | .bool b => b
  | .num n => n != 0
  | .str s => s != ""

/-- The JS expression `a || b`. -/
def JsVal.or (a b : JsVal) : JsVal := if a.truthy then a else b

/-- The JS conversion `String(v)`. -/
def JsVal.toJsString : JsVal → String
  | .undefined => "undefined"
  | .null => "null"
  | .bool true => "true"
  | .bool false => "false"
  | .num n => toString n
  | .str s => s

/-- White space and line terminators, the characters removed by `String.prototype.trim`. -/
def isJsWhitespace (c : Char) : Bool :=
  let n := c.toNat
  n == 0x09 || n == 0x0A || n == 0x0B || n == 0x0C || n == 0x0D || n == 0x20 || n == 0xA0 ||
  n == 0x1680 || (0x2000 ≤ n && n ≤ 0x200A) || n == 0x2028 || n == 0x2029 || n == 0x202F ||
  n == 0x205F || n == 0x3000 || n == 0xFEFF

/-- The method `String.prototype.trim`. -/
def jsTrim (s : String) : String :=
  ⟨((s.data.dropWhile isJsWhitespace).reverse.dropWhile isJsWhitespace).reverse⟩

/-- Lower-casing of one character: `A`-`Z`, and the two characters outside ASCII whose
lower case contains an ASCII letter (the Kelvin sign and the dotted capital I). Any
other character outside ASCII is kept: its lower case lies outside ASCII as well, so
no test of the core against an ASCII keyword can tell the difference. The embedding
is therefore exact for the keyword tests and for ASCII text only: a stored e-mail
with another capital, such as `É`, keeps that capital here and not in the code. -/
def lowerChar (c : Char) : List Char :=
  if 'A' ≤ c ∧ c ≤ 'Z' then [Char.ofNat (c.toNat + 32)]
  else if c.toNat = 0x212A then ['k']
  else if c.toNat = 0x0130 then ['i', Char.ofNat 0x0307]
  else [c]

/-- The method `String.prototype.toLowerCase`. -/
def toLowerCase (s : String) : String := ⟨s.data.flatMap lowerChar⟩

/-- The method `String.prototype.includes` with a string argument. -/
def includes (s kw : String) : Bool := decide (kw.data <:+: s.data)

/-! ## controllers/leadController.js: utilities -/

/-- The function `normalizeSource` of lines 33-41. -/
def normalizeSource (s : JsVal) : String :=
  let x := toLowerCase (JsVal.toJsString (JsVal.or s (.str "")))
  if includes x "facebook" || includes x "meta" then "facebook"
  else if includes x "google" then "google"
  else if includes x "walk" then "walk_in"
  else if includes x "agent" || includes x "broker" then "agent"
  else if includes x "csv" then "csv"
  else "manual"

/-- Whether a JS number is truthy: neither `NaN` nor zero. -/
def JsNum.truthy : JsNum → Bool
  | .nan => false
  | .inf _ => true
  | .fin _ mant _ => mant != 0

/-- The integer nearest to `num / den`, the even one of the two when `num / den` lies
half-way between them (the rounding mode of IEEE 754 arithmetic). -/
def roundHalfEven (num den : Nat) : Nat :=
  let q := num / den
  let r := num % den
  if 2 * r < den then q else if den < 2 * r then q + 1 else if q % 2 = 0 then q else q + 1

/-- The number of binary digits of `n`, counted with `fuel` steps at most. -/
def bitLenCore : Nat → Nat → Nat → Nat
  | 0, _, acc => acc
  | fuel + 1, n, acc => if n = 0 then acc else bitLenCore fuel (n / 2) (acc + 1)

/-- The number of binary digits of `n`: the least `b` with `n < 2^b`. -/
def bitLen (n : Nat) : Nat := bitLenCore n n 0

/-- The scaling of a value below `2^53` to a significand: `scaled` is doubled, at most
`fuel` times, until it reaches `bound`; the result is the number of doublings and the
scaled value. -/
def fracBitsCore : Nat → Nat → Nat → Nat → Nat × Nat
  | 0, scaled, _, k => (k, scaled)
  | fuel + 1, scaled, bound, k =>
    if bound ≤ scaled then (k, scaled) else fracBitsCore fuel (2 * scaled) bound (k + 1)

/-- The decimal `mant / 10^exp` without the zeros at the end of `mant` that `exp`
allows to remove. -/
def stripZeros : Nat → Nat → Nat → Nat × Nat
  | 0, mant, exp => (mant, exp)
  | fuel + 1, mant, exp =>
    if exp = 0 then (mant, 0)
    else if mant % 10 = 0 then stripZeros fuel (mant / 10) (exp - 1) else (mant, exp)

/-- The IEEE 754 double nearest to a number (round to nearest, ties to even), infinite
when the rounded magnitude reaches `2^1024`. A finite double is `s * 2^e` with
`s < 2^53` and `-1074 ≤ e ≤ 971`. A value below `2^53` is scaled by `2^k`, `k ≤ 1074`
the least with `2^52 ≤ value * 2^k`, and rounded to an integer `s`; a value from
`2^53` on is divided by `2^k`, `k` its number of binary digits less 53, and rounded.
A number that is a double already, zero among them, is returned as it is written. -/
def JsNum.toDouble (x : JsNum) : JsNum :=
  match x with
  | .fin neg mant exp =>
    if mant = 0 then x
    else
      let den := 10 ^ exp
      let f := mant / den
      if f < 2 ^ 53 then
        let scaled := fracBitsCore 1074 mant (2 ^ 52 * den) 0
        if scaled.2 % den = 0 then x
        else
          let s := roundHalfEven scaled.2 den
          let dec := stripZeros scaled.1 (s * 5 ^ scaled.1) scaled.1
          .fin neg dec.1 dec.2
      else if 1024 < bitLen f then .inf neg
      else
        let k := bitLen f - 53
        if mant % (den * 2 ^ k) = 0 then x
        else
          let v := roundHalfEven mant (den * 2 ^ k) * 2 ^ k
          if 1024 < bitLen v then .inf neg else .fin neg v 0
  | _ => x

/-- The product `x * k` of a JS number with a positive integer constant: the exact
product, rounded to a double. -/
def JsNum.scale (x : JsNum) (k : Nat) : JsNum :=
  match x with
  | .nan => .nan
  | .inf neg => .inf neg
  | .fin neg mant exp => (JsNum.fin neg (mant * k) exp).toDouble

/-- The value of a run of decimal digits. -/
def digitsToNat (ds : List Char) : Nat :=
  ds.foldl (fun n c => 10 * n + (c.toNat - 48)) 0

/-- Whether the characters `cs` start with the characters `p`. -/
def startsWithChars (p cs : List Char) : Bool := p.isPrefixOf cs

/-- The exponent part of a decimal literal, `e` or `E`, an optional sign and at least
one digit: whether it is negative, and its magnitude. -/
def parseExponent (cs : List Char) : Option (Bool × Nat) :=
  match cs with
  | c :: rest =>
    if c = 'e' ∨ c = 'E' then
      let signed : Bool × List Char :=
        match rest with
        | '-' :: r => (true, r)
        | '+' :: r => (false, r)
        | _ => (false, rest)
      let ds := signed.2.takeWhile Char.isDigit
      if ds = [] then none else some (signed.1, digitsToNat ds)
    else none
  | [] => none

/-- The mathematical value of the prefix of `s` that `parseFloat` reads: leading white
space, an optional sign, then `Infinity` or the longest decimal literal; `NaN` when
there is none. -/
def parseDecimal (s : String) : JsNum :=
  let cs := s.data.dropWhile isJsWhitespace
  let signed : Bool × List Char :=
    match cs with
    | '-' :: r => (true, r)
    | '+' :: r => (false, r)
    | _ => (false, cs)
  let neg := signed.1
  let body := signed.2
  if startsWithChars "Infinity".data body then .inf neg
  else
    let ip := body.takeWhile Char.isDigit
    let afterInt := body.dropWhile Char.isDigit
    let frac : List Char × List Char :=
      match afterInt with
      | '.' :: r => (r.takeWhile Char.isDigit, r.dropWhile Char.isDigit)
      | _ => ([], afterInt)
    let fp := frac.1
    if ip = [] ∧ fp = [] then .nan
    else
      let mant := digitsToNat (ip ++ fp)
      match parseExponent frac.2 with
      | none => .fin neg mant fp.length
      | some (true, e) => .fin neg mant (fp.length + e)
      | some (false, e) =>
        if fp.length ≤ e then .fin neg (mant * 10 ^ (e - fp.length)) 0
        else .fin neg mant (fp.length - e)

/-- The global function `parseFloat`: the Number value of the literal read, that is,
its mathematical value rounded to a double. -/
def parseFloat (s : String) : JsNum := (parseDecimal s).toDouble

/-- The result `{ min, max }` of `parseBudgetRange`. -/
structure BudgetRange where
  min : Option JsNum
  max : Option JsNum
deriving DecidableEq, Repr

/-- The closure `toNumber` of lines 18-25, applied to a string. -/
def toNumber (val : String) : Option JsNum :=
  if val = "" then none
  else
    let s := toLowerCase (jsTrim val)
    let parsed := parseFloat ⟨s.data.filter (fun c => c.isDigit || c == '.')⟩
    let numeric := if parsed.truthy then parsed else .fin false 0 0
    if includes s "lakh" then some (numeric.scale 100000)
    else if includes s "cr" || includes s "crore" then some (numeric.scale 10000000)
    else some numeric

/-- A word character of a regular expression: `[A-Za-z0-9_]`. -/
def isWordChar (c : Char) : Bool :=
  ('a' ≤ c && c ≤ 'z') || ('A' ≤ c && c ≤ 'Z') || ('0' ≤ c && c ≤ '9') || c == '_'

/-- Whether `\bto\b` (case-insensitive) matches where `c` is the current character,
`prev` the character before it and `rest` the characters after it. -/
def matchesTo (prev : Option Char) (c : Char) (rest : List Char) : Bool :=
  match rest with
  | o :: rest2 =>
    (c == 't' || c == 'T') && (o == 'o' || o == 'O')
      && (match prev with
          | some p => !isWordChar p
          | none => true)
      && (match rest2 with
          | n :: _ => !isWordChar n
          | [] => true)
  | [] => false

/-- The call `split(/(?:-|–|\bto\b)/i)` of line 27, on a list of characters: `prev` is
the character before the current position, `skip` tells that the current character
is the second one of a matched `to`, `cur` is the piece being read, reversed. -/
def splitBudgetAux : Option Char → Bool → List Char → List Char → List (List Char)
  | _, _, [], cur => [cur.reverse]
  | _, true, c :: rest, cur => splitBudgetAux (some c) false rest cur
  | prev, false, c :: rest, cur =>
    if c = '-' ∨ c.toNat = 0x2013 then cur.reverse :: splitBudgetAux (some c) false rest []
    else if matchesTo prev c rest then cur.reverse :: splitBudgetAux (some c) true rest []
    else splitBudgetAux (some c) false rest (c :: cur)

/-- The call `cleaned.split(/(?:-|–|\bto\b)/i)` of line 27. -/
def splitBudget (cleaned : String) : List String :=
  (splitBudgetAux none false cleaned.data []).map (fun cs => (⟨cs⟩ : String))

/-- The function `parseBudgetRange` of lines 14-31. -/
def parseBudgetRange (input : JsVal) : BudgetRange :=
  if !input.truthy && input != .num 0 then ⟨none, none⟩
  else
    let cleaned := toLowerCase (jsTrim
      ⟨input.toJsString.data.filter (fun c => !(c.toNat == 0x20B9 || c == ','))⟩)
    let parts := ((splitBudget cleaned).map jsTrim).filter (fun p => p != "")
    match parts with
    | [a, b] => ⟨toNumber a, toNumber b⟩
    | _ =>
      let n := toNumber cleaned
      ⟨n.filter JsNum.truthy, n.filter JsNum.truthy⟩

/-! ## services/leadAssignment.js -/

/-- The roster query of lines 14-18:
`User.find({role: 'salesperson', companyId, isActive: true}).sort({createdAt: 1})`. -/
def findSalespersons (users : List User) (companyId : ObjectId) : List User :=
  (users.filter (fun u =>
      u.role == "salesperson" && u.companyId == some companyId && u.isActive)).insertionSort
    (fun a b => a.createdAt ≤ b.createdAt)

/-- The statuses excluded by the `$nin` of line 26. -/
def terminalStatuses : List String := ["booking_done", "dropped"]

/-- The filter of the `$match` stage of line 26:
`{ assignedTo: { $in: salespersonIds }, status: { $nin: ['booking_done', 'dropped'] } }`. -/
def matchFilter (salespersonIds : List ObjectId) (l : Lead) : Bool :=
  (match l.assignedTo with
    | some a => salespersonIds.contains a
    | none => false) && !(terminalStatuses.contains l.status)

/-- The `$match` stage of line 26. -/
def matchActive (leads : List Lead) (salespersonIds : List ObjectId) : List Lead :=
  leads.filter (matchFilter salespersonIds)

/-- The `$group` stage of line 27: one `{_id, count}` per distinct `assignedTo`
among the matched documents, `count` being the number of documents of the group. -/
def groupCount (docs : List Lead) : List (ObjectId × Nat) :=
  let keys := docs.filterMap (fun l => l.assignedTo)
  keys.dedup.map (fun k => (k, keys.count k))

/-- The aggregate of lines 25-28. -/
def aggregateActiveCounts (leads : List Lead) (salespersonIds : List ObjectId) :
    List (ObjectId × Nat) :=
  groupCount (matchActive leads salespersonIds)

/-- A JS `Map` from ids to numbers, read through `get`. -/
abbrev CountMap := ObjectId → Option Nat

/-- The constructor `new Map(entries)` of line 30: entries are set in order, a
later entry replacing an earlier one with the same key. -/
def newMap (entries : List (ObjectId × Nat)) : CountMap :=
  entries.foldl (fun m e => Function.update m e.1 (some e.2)) (fun _ => none)

/-- The expression `countMap.get(String(sp._id)) || 0` of line 36. -/
def getCount (countMap : CountMap) (id : ObjectId) : Nat :=
  match countMap id with
  | some c => if c = 0 then 0 else c
  | none => 0

/-- An element `{ id, cnt }` of the two arrays of lines 33-34. -/
structure Entry where
  id : ObjectId
  cnt : Nat
deriving DecidableEq, Repr

/-- The loop of lines 33-38: every salesperson is pushed, in roster order, onto
`underTen` (first component) or `others` (second component). -/
def partitionByLoad (salespersons : List User) (countMap : CountMap) :
    List Entry × List Entry :=
  salespersons.foldl
    (fun acc sp =>
      let cnt := getCount countMap sp._id
      if cnt < 10 then (acc.1 ++ [⟨sp._id, cnt⟩], acc.2)
      else (acc.1, acc.2 ++ [⟨sp._id, cnt⟩]))
    ([], [])

/-- The closure `pickLeast` of lines 40-41: `arr.sort((a, b) => a.cnt - b.cnt)[0]?.id || null`.
`Array.prototype.sort` is stable, as is insertion sort; an ObjectId is an
object and so never falsy. -/
def pickLeast (arr : List Entry) : Option ObjectId :=
  ((arr.insertionSort (fun a b => a.cnt ≤ b.cnt)).head?).map (fun e => e.id)

/-- The function `assignLeadToSalesperson(companyId)` of lines 12-44, reading the
`users` and `leads` collections. -/
def assignLeadToSalesperson (users : List User) (leads : List Lead)
    (companyId : ObjectId) : Option ObjectId :=
  let salespersons := findSalespersons users companyId
  if salespersons.length = 0 then none
  else
    let salespersonIds := salespersons.map (fun s => s._id)
    let activeCounts := aggregateActiveCounts leads salespersonIds
    let countMap := newMap activeCounts
    let parts := partitionByLoad salespersons countMap
    pickLeast (if parts.1.length ≠ 0 then parts.1 else if parts.2.length ≠ 0 then parts.2 else [])

/-- The `{ id, cnt }` elements in roster order, before they are split. -/
def entriesOf (salespersons : List User) (countMap : CountMap) : List Entry :=
  salespersons.map (fun sp => ⟨sp._id, getCount countMap sp._id⟩)

/-- The active count that `assignLeadToSalesperson` computes for the salesperson `id`:
the value of `cnt` at line 36. -/
def activeCount (users : List User) (leads : List Lead) (companyId : ObjectId)
    (id : ObjectId) : Nat :=
  getCount
    (newMap (aggregateActiveCounts leads ((findSalespersons users companyId).map (fun s => s._id))))
    id

/-! ## The document store: models/Company.js, models/ActivityLog.js, models/Lead.js -/

/-- The fields of `models/Company.js` that the lead core reads. The schema declares no
`pageAccessToken` path, so `company.pageAccessToken` is `undefined` on every loaded
document. -/
structure Company where
  _id : ObjectId
  companyName : String
  pageId : Option String
deriving DecidableEq, Repr

/-- A stored document of `models/ActivityLog.js`. -/
structure ActivityLog where
  userId : ObjectId
  role : String
  method : Option String
  endpoint : Option String
  action : Option String
  description : Option String
  ipAddress : Option String
  userAgent : Option String
deriving DecidableEq, Repr

/-- The argument of `ActivityLog.create`, restricted to the paths of the schema (the
schema is strict: other keys, such as `companyId` and `details`, are dropped). -/
structure ActivityLogDoc where
  userId : Option ObjectId
  role : Option String
  method : Option String
  endpoint : Option String
  action : Option String
  description : Option String
  ipAddress : Option String
  userAgent : Option String
deriving DecidableEq, Repr

/-- The argument of `Lead.create`: the keys that the controllers pass. Absent keys are
`undefined` or `none`. -/
structure LeadDoc where
  companyId : Option ObjectId
  assignedTo : Option ObjectId
  firstName : JsVal
  lastName : JsVal
  phone : JsVal
  email : JsVal
  location : JsVal
  propertyInterest : JsVal
  budgetMin : Option JsNum
  budgetMax : Option JsNum
  source : Option String
  campaign : JsVal
  adset : JsVal
  adId : JsVal
  isBroker : Option Bool
  brokerName : JsVal
  brokerCutPct : Option JsNum
  notes : JsVal
  createdBy : Option ObjectId
  externalRef : JsVal
deriving DecidableEq, Repr

/-- The errors of a `create` call: a Mongoose `ValidationError` (a failed cast
included), or the duplicate-key error of MongoDB, whose `code` is 11000. -/
inductive StoreError where
  | validation
  | duplicateKey
deriving DecidableEq, Repr

/-- The calls that a controller makes on its collaborators, recorded in call order. -/
inductive Effect where
  | assignQuery (companyId : ObjectId)
  | leadCreate (doc : LeadDoc)
  | companyFindById (id : ObjectId)
  | companyFindOne (pageId : String)
  | activityLogCreate (doc : ActivityLogDoc)
  | graphFetch (leadgenId : String) (token : String)
  | unlink (path : String)
deriving DecidableEq, Repr

/-- The collections, and the trace of the calls made so far (oldest first). -/
structure Db where
  users : List User
  companies : List Company
  leads : List Lead
  activityLogs : List ActivityLog
  trace : List Effect
deriving Repr

/-- Mongoose's cast of a value to a `String` path; `undefined` and `null` stay unset. -/
def castString : JsVal → Option String
  | .undefined => none
  | .null => none
  | v => some v.toJsString

/-- A `String` path with `trim: true`. -/
def castTrimmed (v : JsVal) : Option String := (castString v).map jsTrim

/-- The `enum` of the `source` path (line 30 of `models/Lead.js`). -/
def sourceEnum : List String :=
  ["facebook", "google", "website", "manual", "csv", "referral", "other"]

/-- The validator `min: 0` of `brokerCutPct`. -/
def JsNum.nonNegative : JsNum → Bool
  | .nan => false
  | .inf neg => !neg
  | .fin neg mant _ => !neg || mant == 0

/-- The validator `max: 100` of `brokerCutPct`. -/
def JsNum.atMostHundred : JsNum → Bool
  | .nan => false
  | .inf neg => neg
  | .fin neg mant exp => neg || mant ≤ 100 * 10 ^ exp

/-- Casting, setters, defaults and validation of `models/Lead.js` (lines 5-63): the
document that Mongoose would send to the collection, or a `ValidationError`. -/
def buildLead (doc : LeadDoc) : Except StoreError Lead :=
  if doc.budgetMin = some .nan ∨ doc.budgetMax = some .nan ∨ doc.brokerCutPct = some .nan then
    .error .validation
  else
    match doc.companyId, castTrimmed doc.firstName, castTrimmed doc.phone with
    | some companyId, some firstName, some phone =>
      let source := doc.source.getD "manual"
      if firstName = "" ∨ phone = "" then .error .validation
      else if ¬ (source ∈ sourceEnum) then .error .validation
      else if (match doc.brokerCutPct with
          | some v => !(v.nonNegative && v.atMostHundred)
          | none => false) = true then .error .validation
      else
        .ok {
          companyId := companyId
          assignedTo := doc.assignedTo
          firstName := firstName
          lastName := castTrimmed doc.lastName
          phone := phone
          email := castTrimmed doc.email
          location := castTrimmed doc.location
          propertyInterest := castTrimmed doc.propertyInterest
          budgetMin := doc.budgetMin
          budgetMax := doc.budgetMax
          currency := "INR"
          source := source
          campaign := castTrimmed doc.campaign
          adset := castTrimmed doc.adset
          adId := castTrimmed doc.adId
          isBroker := doc.isBroker.getD false
          brokerName := castTrimmed doc.brokerName
          brokerCutPct := doc.brokerCutPct
          status := "new"
          projectId := none
          propertyId := none
          createdBy := doc.createdBy
          notes := castTrimmed doc.notes
          externalRef := castString doc.externalRef }
    | _, _, _ => .error .validation

/-- The unique index `{ companyId: 1, phone: 1 }` of line 67 of `models/Lead.js`:
whether inserting `lead` would violate it. -/
def violatesUniqueIndex (leads : List Lead) (lead : Lead) : Bool :=
  leads.any (fun l => l.companyId == lead.companyId && l.phone == lead.phone)

/-- The call `Lead.create(doc)`: validation, then one atomic insert under the unique
index. Returns the new state of the database and the stored lead or the error. -/
def leadCreate (db : Db) (doc : LeadDoc) : Db × Except StoreError Lead :=
  let db1 := { db with trace := db.trace ++ [Effect.leadCreate doc] }
  match buildLead doc with
  | .error e => (db1, .error e)
  | .ok lead =>
    if violatesUniqueIndex db.leads lead then (db1, .error .duplicateKey)
    else ({ db1 with leads := db.leads ++ [lead] }, .ok lead)

/-- The `enum` of the `role` path of `models/ActivityLog.js`. -/
def activityRoleEnum : List String := ["admin", "subadmin", "salesperson", "user"]

/-- The call `ActivityLog.create(doc)`: `userId` and `role` are required. -/
def activityLogCreate (db : Db) (doc : ActivityLogDoc) : Db × Except StoreError ActivityLog :=
  let db1 := { db with trace := db.trace ++ [Effect.activityLogCreate doc] }
  match doc.userId, doc.role with
  | some userId, some role =>
    if role ∈ activityRoleEnum then
      let log : ActivityLog :=
        { userId := userId, role := role, method := doc.method, endpoint := doc.endpoint,
          action := doc.action, description := doc.description, ipAddress := doc.ipAddress,
          userAgent := doc.userAgent }
      ({ db1 with activityLogs := db.activityLogs ++ [log] }, .ok log)
    else (db1, .error .validation)
  | _, _ => (db1, .error .validation)

/-- The call `assignLeadToSalesperson(companyId)` made by a controller, recorded in
the trace. -/
def assignCall (db : Db) (companyId : ObjectId) : Db × Option ObjectId :=
  ({ db with trace := db.trace ++ [Effect.assignQuery companyId] },
    assignLeadToSalesperson db.users db.leads companyId)

/-! ## controllers/leadController.js: createLead -/

/-- A skipped or failed row of a bulk import: `{ row, reason, data }`. -/
structure SkippedRow where
  row : Nat
  reason : String
  data : List (String × JsVal)
deriving DecidableEq, Repr

/-- The `summary` of a bulk import. -/
structure ImportSummary where
  created : Nat
  skipped : Nat
  errors : Nat
  total : Nat
deriving DecidableEq, Repr

/-- The body of an HTTP response of the lead controllers. -/
inductive ResBody where
  | statusText
  | message (m : String)
  | sent (v : JsVal)
  | leadCreated (lead : Lead)
  | importReport (message : String) (summary : ImportSummary) (skippedRows : List SkippedRow)
deriving DecidableEq, Repr

/-- An HTTP response: `res.status(status).json(body)`, `res.status(status).send(v)` or
`res.sendStatus(status)`. -/
structure Response where
  status : Nat
  body : ResBody
deriving DecidableEq, Repr

/-- The authenticated caller `req.user`. -/
structure AuthUser where
  _id : ObjectId
  companyId : Option ObjectId
deriving DecidableEq, Repr

/-- The body of a manual-create request (line 53-58). Text fields are arbitrary JS
values; identifiers are well-formed ObjectIds and numeric fields are numbers. -/
structure CreateLeadBody where
  firstName : JsVal
  lastName : JsVal
  phone : JsVal
  email : JsVal
  location : JsVal
  propertyInterest : JsVal
  budget : JsVal
  budgetMin : Option JsNum
  budgetMax : Option JsNum
  isBroker : JsVal
  brokerName : JsVal
  brokerCutPct : Option JsNum
  source : JsVal
  campaign : JsVal
  adset : JsVal
  adId : JsVal
  notes : JsVal
  companyId : Option ObjectId
deriving DecidableEq, Repr

/-- A manual-create request. -/
structure CreateLeadReq where
  body : CreateLeadBody
  user : Option AuthUser
deriving DecidableEq, Repr

/-- The resolution `bodyCompanyId || req.user?.companyId` of line 60. -/
def resolveCompanyId (req : CreateLeadReq) : Option ObjectId :=
  match req.body.companyId with
  | some c => some c
  | none => req.user.bind (fun u => u.companyId)

/-- The argument of `Lead.create` built at lines 64-94. -/
def createLeadDoc (req : CreateLeadReq) (companyId : ObjectId) (assignedTo : Option ObjectId) :
    LeadDoc :=
  let b := req.body
  let phoneStr := jsTrim b.phone.toJsString
  let range : BudgetRange :=
    if b.budget.truthy then parseBudgetRange b.budget else ⟨b.budgetMin, b.budgetMax⟩
  { companyId := some companyId
    assignedTo := assignedTo
    firstName := .str (jsTrim b.firstName.toJsString)
    lastName := if b.lastName.truthy then .str (jsTrim b.lastName.toJsString) else .str ""
    phone := .str phoneStr
    email :=
      if b.email.truthy then .str (toLowerCase (jsTrim b.email.toJsString)) else .str ""
    location := b.location.or (.str "")
    propertyInterest := b.propertyInterest.or (.str "")
    budgetMin := (range.min.orElse (fun _ => b.budgetMin)).filter JsNum.truthy
    budgetMax := (range.max.orElse (fun _ => b.budgetMax)).filter JsNum.truthy
    source := some (normalizeSource b.source)
    campaign := b.campaign.or (.str "")
    adset := b.adset.or (.str "")
    adId := b.adId.or (.str "")
    isBroker := some b.isBroker.truthy
    brokerName := b.brokerName.or (.str "")
    brokerCutPct := b.brokerCutPct.filter JsNum.truthy
    notes := b.notes.or (.str "")
    createdBy := req.user.map (fun u => u._id)
    externalRef := .undefined }

/-- The controller `createLead` of lines 51-104. -/
def createLead (db : Db) (req : CreateLeadReq) : Db × Response :=
  match resolveCompanyId req with
  | none => (db, ⟨400, .message "companyId is required"⟩)
  | some companyId =>
    if !req.body.firstName.truthy || !req.body.phone.truthy then
      (db, ⟨400, .message "firstName and phone are required"⟩)
    else
      let assigned := assignCall db companyId
      let created := leadCreate assigned.1 (createLeadDoc req companyId assigned.2)
      (created.1,
        match created.2 with
        | .ok lead => ⟨201, .leadCreated lead⟩
        | .error .duplicateKey =>
          ⟨409, .message "Duplicate lead (phone already exists for company)"⟩
        | .error .validation => ⟨500, .message "Server error"⟩)

/-! ## controllers/leadController.js: importCsv -/

/-- A parsed row: the key/value record that the CSV or spreadsheet reader returns for
one line (keys are the column headers, each at most once). -/
abbrev Row := List (String × JsVal)

/-- The property read `r[key]`. -/
def Row.get (r : Row) (key : String) : JsVal := (r.lookup key).getD .undefined

/-- The uploaded file `req.file` left by the upload middleware. -/
structure UploadedFile where
  path : String
  originalname : String
deriving DecidableEq, Repr

/-- The form field `companyId` of a bulk import, a string: the text of a well-formed
ObjectId, or any other text, which Mongoose cannot cast to an ObjectId. -/
inductive IdParam where
  | valid (id : ObjectId)
  | malformed (text : String)
deriving DecidableEq, Repr

/-- JS truthiness of the form field: only the empty string is falsy. -/
def IdParam.truthy : IdParam → Bool
  | .valid _ => true
  | .malformed text => text != ""

/-- A bulk-import request. `parsed` is what the reader of the file kind returns for
the uploaded file: the rows, or a failure. -/
structure ImportReq where
  file : Option UploadedFile
  companyId : Option IdParam
  parsed : Except Unit (List Row)

/-- Node's `path.extname` (POSIX): the text from the last dot of the last path
component, empty when there is no dot, when the only dot starts the component, or
when the component is `..`. -/
def extname (p : String) : String :=
  let stripped := p.data.reverse.dropWhile (fun c => c == '/')
  let baseRev := stripped.takeWhile (fun c => c != '/')
  let extRev := baseRev.takeWhile (fun c => c != '.')
  if extRev.length = baseRev.length then ""
  else if extRev.length + 1 = baseRev.length then ""
  else if baseRev = ['.', '.'] then ""
  else ⟨(extRev ++ ['.']).reverse⟩

/-- The function `safeUnlink` of lines 43-46. -/
def safeUnlink (db : Db) (path : String) : Db :=
  if path = "" then db else { db with trace := db.trace ++ [Effect.unlink path] }

/-- The call `Company.findById(companyId)`. -/
def companyFindById (db : Db) (companyId : ObjectId) : Db × Option Company :=
  ({ db with trace := db.trace ++ [Effect.companyFindById companyId] },
    db.companies.find? (fun c => c._id == companyId))

/-- The method call `v.trim()` on a JS value: a `TypeError` (here `none`) unless the
value is a string. -/
def trimOrThrow : JsVal → Option String
  | .str s => some (jsTrim s)
  | _ => none

/-- Lower-casing of the letters `A`-`Z` only, the case folding of a regular expression
with the flag `i` on ASCII patterns. -/
def asciiLower (s : String) : String :=
  ⟨s.data.map (fun c => if 'A' ≤ c ∧ c ≤ 'Z' then Char.ofNat (c.toNat + 32) else c)⟩

/-- The call `s.replace('%', '')`: the first percent sign is removed. -/
def removeFirstPercent (s : String) : String :=
  ⟨s.data.takeWhile (fun c => c != '%') ++ (s.data.dropWhile (fun c => c != '%')).drop 1⟩

/-- The constant `phone` of lines 162-163: the first truthy cell among the headers
`Phone No`, `phone`, `Phone`, `mobile`, converted to a string and trimmed. -/
def rowPhone (r : Row) : String :=
  let phoneRaw :=
    (((r.get "Phone No").or (r.get "phone")).or (r.get "Phone")).or ((r.get "mobile").or (.str ""))
  jsTrim (phoneRaw.or (.str "")).toJsString

/-- The `payload` of lines 161-182; `none` when building it throws a `TypeError`. -/
def importPayload (companyId : ObjectId) (r : Row) : Option LeadDoc := do
  let range := parseBudgetRange
    (((r.get "Budget").or (r.get "budget")).or ((r.get "Budget Range").or (.str "")))
  let phone := rowPhone r
  let firstName ← trimOrThrow
    (((r.get "Customer First Name").or (r.get "First Name")).or ((r.get "firstName").or (.str "—")))
  let lastName ← trimOrThrow ((r.get "Last Name").or ((r.get "lastName").or (.str "")))
  let email ← trimOrThrow ((r.get "email").or ((r.get "Email").or (.str "")))
  let location ← trimOrThrow ((r.get "Location").or ((r.get "location").or (.str "")))
  let propertyInterest ← trimOrThrow
    ((r.get "Property Interest").or ((r.get "propertyInterest").or (.str "")))
  let brokerName ← trimOrThrow ((r.get "Broker's Name").or ((r.get "brokerName").or (.str "")))
  pure {
    companyId := some companyId
    assignedTo := none
    firstName := .str firstName
    lastName := .str lastName
    phone := .str phone
    email := .str (toLowerCase email)
    location := .str location
    propertyInterest := .str propertyInterest
    budgetMin := some (match range.min with
      | some v => if v.truthy then v else .fin false 0 0
      | none => .fin false 0 0)
    budgetMax := some (match range.max with
      | some v => if v.truthy then v else .fin false 0 0
      | none => .fin false 0 0)
    source := some (normalizeSource ((r.get "Source").or (.str "upload")))
    campaign := .undefined
    adset := .undefined
    adId := .undefined
    isBroker := some
      (includes (asciiLower ((r.get "Broker").or ((r.get "isBroker").or (.str ""))).toJsString)
        "yes")
    brokerName := .str brokerName
    brokerCutPct :=
      if (r.get "Broker's Cut").truthy then
        some (parseFloat (jsTrim (removeFirstPercent (r.get "Broker's Cut").toJsString)))
      else none
    notes := (r.get "Notes").or (.str "")
    createdBy := none
    externalRef := .undefined }

/-- The running totals of the loop of lines 155-209. -/
structure ImportAcc where
  created : Nat
  skipped : Nat
  errors : Nat
  skippedRows : List SkippedRow
deriving DecidableEq, Repr

/-- One iteration of the loop of lines 159-209, for the row `r` at 0-based `index`. -/
def importRow (companyId : ObjectId) (st : Db × ImportAcc) (index : Nat) (r : Row) :
    Db × ImportAcc :=
  let db := st.1
  let acc := st.2
  match importPayload companyId r with
  | none =>
    (db, { acc with
      errors := acc.errors + 1
      skippedRows := acc.skippedRows ++ [⟨index + 1, "Unexpected error", r⟩] })
  | some payload =>
    if payload.phone = .str "" then
      (db, { acc with
        skipped := acc.skipped + 1
        skippedRows := acc.skippedRows ++ [⟨index + 1, "Missing phone", r⟩] })
    else
      let assigned := assignCall db companyId
      let created := leadCreate assigned.1 { payload with assignedTo := assigned.2 }
      (created.1,
        match created.2 with
        | .ok _ => { acc with created := acc.created + 1 }
        | .error .duplicateKey =>
          { acc with
            skipped := acc.skipped + 1
            skippedRows := acc.skippedRows ++ [⟨index + 1, "Duplicate phone/email", r⟩] }
        | .error .validation =>
          { acc with
            errors := acc.errors + 1
            skippedRows := acc.skippedRows ++ [⟨index + 1, "Unexpected error", r⟩] })

/-- The loop of lines 159-209 over `results.entries()`, from the 0-based index `start`. -/
def importRows (companyId : ObjectId) (st : Db × ImportAcc) (start : Nat) :
    List Row → Db × ImportAcc
  | [] => st
  | r :: rest => importRows companyId (importRow companyId st start r) (start + 1) rest

/-- The controller `importCsv` of lines 107-224. The response is `none` when the
handler throws outside its `try` blocks: `Company.findById` (line 119) rejects with a
`CastError` on a malformed id, and the promise of the handler rejects before the
handler has answered or has removed the file. -/
def importCsv (db : Db) (req : ImportReq) : Db × Option Response :=
  match req.file with
  | none => (db, some ⟨400, .message "File is required"⟩)
  | some file =>
    match req.companyId with
    | none =>
      (safeUnlink db file.path,
        some ⟨400, .message "companyId is required (select a company first)"⟩)
    | some (.malformed text) =>
      if text = "" then
        (safeUnlink db file.path,
          some ⟨400, .message "companyId is required (select a company first)"⟩)
      else (db, none)
    | some (.valid companyId) =>
      let found := companyFindById db companyId
      match found.2 with
      | none => (safeUnlink found.1 file.path, some ⟨404, .message "Company not found"⟩)
      | some company =>
        let ext := toLowerCase (extname file.originalname)
        if ext = ".csv" ∨ ext = ".xlsx" ∨ ext = ".xls" then
          match req.parsed with
          | .error _ =>
            (safeUnlink found.1 file.path, some ⟨500, .message "File parsing failed"⟩)
          | .ok results =>
            let done := importRows companyId (found.1, ⟨0, 0, 0, []⟩) 0 results
            (safeUnlink done.1 file.path,
              some ⟨200, .importReport ("Import completed for company " ++ company.companyName)
                ⟨done.2.created, done.2.skipped, done.2.errors, results.length⟩
                done.2.skippedRows⟩)
        else
          (safeUnlink found.1 file.path,
            some ⟨400, .message "Unsupported file type. Use CSV/XLS/XLSX"⟩)

/-! ## controllers/leadController.js: metaWebhook and googleWebhook -/

/-- The call `Company.findOne({ pageId })`; the filter value is cast to a string. -/
def companyFindOne (db : Db) (pageId : JsVal) : Db × Option Company :=
  ({ db with trace := db.trace ++ [Effect.companyFindOne pageId.toJsString] },
    db.companies.find? (fun c => c.pageId == some pageId.toJsString))

/-- An element `{ name, values }` of `leadData.field_data`. -/
structure MetaField where
  name : String
  values : List String
deriving DecidableEq, Repr

/-- The ad platform seen from the webhook: the answer of
`axios.get(graph.facebook.com/v19.0/<leadgenId>?access_token=<token>)`, either the
`field_data` of the lead or a failure with its message. -/
abbrev GraphApi := String → String → Except String (List MetaField)

/-- The access token used when the company has none (line 461); a company document
never has one, see `Company`. The literal of the source is not repeated here. -/
def fallbackAccessToken : String := "fallback-page-access-token"

/-- The shared secret `VERIFY_TOKEN` of line 426. -/
def VERIFY_TOKEN : String := "realestatesavanraval"

/-- The variables `firstName`, `lastName`, `phone`, `email` of line 467. -/
structure Extracted where
  firstName : String
  lastName : String
  phone : String
  email : String
deriving DecidableEq, Repr

/-- The callback of `field_data.forEach` (lines 468-478). -/
def extractField (st : Extracted) (field : MetaField) : Extracted :=
  let v0 : String := field.values.head?.getD ""
  let st1 : Extracted :=
    if field.name = "full_name" then
      let first : String := ⟨v0.data.takeWhile (fun c => c != ' ')⟩
      let rest : String := ⟨(v0.data.dropWhile (fun c => c != ' ')).drop 1⟩
      { st with firstName := if first = "" then "—" else first, lastName := rest }
    else st
  let st2 : Extracted :=
    if field.name = "first_name" then
      { st1 with firstName := if v0 = "" then st1.firstName else v0 }
    else st1
  let st3 : Extracted :=
    if field.name = "last_name" then
      { st2 with lastName := if v0 = "" then st2.lastName else v0 }
    else st2
  let st4 : Extracted :=
    if field.name = "phone_number" then { st3 with phone := if v0 = "" then st3.phone else v0 }
    else st3
  if field.name = "email" then { st4 with email := if v0 = "" then st4.email else v0 }
  else st4

/-- An element of `entry.changes`: `change?.value?.leadgen_id`. -/
structure MetaChange where
  leadgenId : JsVal
deriving DecidableEq, Repr

/-- An element of `req.body.entry`: `entry?.id` and `entry.changes || []`. -/
structure MetaEntry where
  id : JsVal
  changes : List MetaChange
deriving DecidableEq, Repr

/-- A request on the Meta webhook: the method, the three `hub.*` query parameters, and
`req.body.entry` (`none` when it is not an array). -/
structure MetaReq where
  method : String
  hubMode : JsVal
  hubVerifyToken : JsVal
  hubChallenge : JsVal
  entry : Option (List MetaEntry)
deriving DecidableEq, Repr

/-- The argument of the two `ActivityLog.create` calls of `metaWebhook`: of the keys
passed (`companyId`, `action`, `details`) only `action` is a path of the schema. -/
def webhookLogDoc (action : String) : ActivityLogDoc :=
  { userId := none, role := none, method := none, endpoint := none, action := some action,
    description := none, ipAddress := none, userAgent := none }

/-- The argument of `Lead.create` at lines 487-496. -/
def metaLeadDoc (company : Company) (assignedTo : Option ObjectId) (x : Extracted)
    (leadgenId : JsVal) : LeadDoc :=
  { companyId := some company._id, assignedTo := assignedTo, firstName := .str x.firstName,
    lastName := .str x.lastName, phone := .str x.phone, email := .str x.email,
    location := .undefined, propertyInterest := .undefined, budgetMin := none,
    budgetMax := none, source := some "facebook", campaign := .undefined, adset := .undefined,
    adId := .undefined, isBroker := none, brokerName := .undefined, brokerCutPct := none,
    notes := .undefined, createdBy := none, externalRef := leadgenId }

/-- The `catch` block of lines 505-512: the failure is logged through
`ActivityLog.create`; the flag tells whether the handler goes on (`true`) or that call
threw in its turn, which leaves both loops (`false`). -/
def metaCatch (db : Db) : Db × Bool :=
  let logged := activityLogCreate db (webhookLogDoc "webhook:error")
  (logged.1,
    match logged.2 with
    | .ok _ => true
    | .error _ => false)

/-- The body of the inner loop (lines 455-512) for one change. The flag is `false`
when an exception leaves the loops. -/
def metaChange (graph : GraphApi) (company : Company) (db : Db) (change : MetaChange) :
    Db × Bool :=
  if !change.leadgenId.truthy then (db, true)
  else
    let token := fallbackAccessToken
    let db1 : Db :=
      { db with trace := db.trace ++ [Effect.graphFetch change.leadgenId.toJsString token] }
    match graph change.leadgenId.toJsString token with
    | .error _ => metaCatch db1
    | .ok fieldData =>
      let x := fieldData.foldl extractField ⟨"—", "", "", ""⟩
      let assigned := assignCall db1 company._id
      let created := leadCreate assigned.1 (metaLeadDoc company assigned.2 x change.leadgenId)
      match created.2 with
      | .error _ => metaCatch created.1
      | .ok _ =>
        let logged := activityLogCreate created.1 (webhookLogDoc "webhook:lead_received")
        match logged.2 with
        | .ok _ => (logged.1, true)
        | .error _ => metaCatch logged.1

/-- The inner loop `for (const change of entry.changes || [])`. -/
def metaChanges (graph : GraphApi) (company : Company) : Db → List MetaChange → Db × Bool
  | db, [] => (db, true)
  | db, change :: rest =>
    let step := metaChange graph company db change
    if step.2 then metaChanges graph company step.1 rest else (step.1, false)

/-- The outer loop `for (const entry of req.body.entry)` (lines 444-514). -/
def metaEntries (graph : GraphApi) : Db → List MetaEntry → Db × Bool
  | db, [] => (db, true)
  | db, entry :: rest =>
    if !entry.id.truthy then metaEntries graph db rest
    else
      let found := companyFindOne db entry.id
      match found.2 with
      | none => metaEntries graph found.1 rest
      | some company =>
        let step := metaChanges graph company found.1 entry.changes
        if step.2 then metaEntries graph step.1 rest else (step.1, false)

/-- The controller `metaWebhook` of lines 423-521. -/
def metaWebhook (graph : GraphApi) (db : Db) (req : MetaReq) : Db × Response :=
  if req.method = "GET" then
    if req.hubMode = .str "subscribe" ∧ req.hubVerifyToken = .str VERIFY_TOKEN then
      (db, ⟨200, .sent req.hubChallenge⟩)
    else (db, ⟨403, .statusText⟩)
  else
    match req.entry with
    | none => (db, ⟨200, .statusText⟩)
    | some entries => ((metaEntries graph db entries).1, ⟨200, .statusText⟩)

/-- A request on the Google webhook: `req.query.pageId` and the fields read from
`req.body || {}`. -/
structure GoogleReq where
  pageId : JsVal
  first_name : JsVal
  last_name : JsVal
  phone : JsVal
  email : JsVal
  campaignName : JsVal
  submissionId : JsVal
deriving DecidableEq, Repr

/-- The argument of `Lead.create` at lines 622-632. -/
def googleLeadDoc (company : Company) (assignedTo : Option ObjectId) (req : GoogleReq) :
    LeadDoc :=
  { companyId := some company._id, assignedTo := assignedTo,
    firstName := req.first_name.or (.str "—"), lastName := req.last_name.or (.str ""),
    phone := req.phone.or (.str ""), email := req.email.or (.str ""),
    location := .undefined, propertyInterest := .undefined, budgetMin := none,
    budgetMax := none, source := some "google", campaign := req.campaignName,
    adset := .undefined, adId := .undefined, isBroker := none, brokerName := .undefined,
    brokerCutPct := none, notes := .undefined, createdBy := none,
    externalRef := req.submissionId }

/-- The controller `googleWebhook` of lines 610-639. -/
def googleWebhook (db : Db) (req : GoogleReq) : Db × Response :=
  if !req.pageId.truthy then (db, ⟨400, .message "pageId is required"⟩)
  else
    let found := companyFindOne db req.pageId
    match found.2 with
    | none => (found.1, ⟨404, .message "Company not found for pageId"⟩)
    | some company =>
      let assigned := assignCall found.1 company._id
      let created := leadCreate assigned.1 (googleLeadDoc company assigned.2 req)
      (created.1, ⟨200, .statusText⟩)

/-! ## Ingestion calls -/

/-- One ingestion call on one of the four channels. -/
inductive IngestCall where
  | manual (req : CreateLeadReq)
  | bulk (req : ImportReq)
  | meta (graph : GraphApi) (req : MetaReq)
  | google (req : GoogleReq)

/-- The state of the database after an ingestion call. -/
def ingest (db : Db) : IngestCall → Db
  | .manual req => (createLead db req).1
  | .bulk req => (importCsv db req).1
  | .meta graph req => (metaWebhook graph db req).1
  | .google req => (googleWebhook db req).1

/-- The invariant of the unique index: no two stored leads share both `companyId` and
`phone`. -/
def UniquePhones (leads : List Lead) : Prop :=
  leads.Pairwise (fun a b => ¬ (a.companyId = b.companyId ∧ a.phone = b.phone))

/-- Loads are balanced when no roster member has more than one active lead above
another. -/
def Balanced (users : List User) (companyId : ObjectId) (leads : List Lead) : Prop :=
  ∀ s ∈ findSalespersons users companyId, ∀ t ∈ findSalespersons users companyId,
    activeCount users leads companyId s._id ≤ activeCount users leads companyId t._id + 1

/-- One step of the sequential scenario of the round-robin property:
`assignLeadToSalesperson(companyId)` is asked for an assignee, then the lead `doc` is
stored for the company with that assignee and status `new`. -/
def assignThenInsert (users : List User) (companyId : ObjectId) (leads : List Lead)
    (doc : Lead) : List Lead :=
  leads ++ [{ doc with
    companyId := companyId,
    assignedTo := assignLeadToSalesperson users leads companyId,
    status := "new" }]

/-- The signed mantissa of a finite JS number. -/
def signedMantissa (neg : Bool) (mant : Nat) : Int :=
  if neg then -(mant : Int) else (mant : Int)

/-- The JS comparison `a <= b`, exact on the decimal representation; every comparison
with `NaN` is false. -/
def JsNum.le : JsNum → JsNum → Bool
  | .nan, _ => false
  | _, .nan => false
  | .inf true, _ => true
  | _, .inf false => true
  | .inf false, _ => false
  | _, .inf true => false
  | .fin n1 m1 e1, .fin n2 m2 e2 =>
    decide (signedMantissa n1 m1 * (10 : Int) ^ e2 ≤ signedMantissa n2 m2 * (10 : Int) ^ e1)

/-- The constant `cleaned` of line 16. -/
def budgetCleaned (input : JsVal) : String :=
  toLowerCase (jsTrim ⟨input.toJsString.data.filter (fun c => !(c.toNat == 0x20B9 || c == ','))⟩)

/-- The constant `parts` of line 27. -/
def budgetParts (input : JsVal) : List String :=
  ((splitBudget (budgetCleaned input)).map jsTrim).filter (fun p => p != "")

/-- The ten decimal digits. -/
def digitChars : List Char := ['0', '1', '2', '3', '4', '5', '6', '7', '8', '9']

/-- The body of `String.prototype.trim` on a list of characters. -/
def trimChars (cs : List Char) : List Char :=
  ((cs.dropWhile isJsWhitespace).reverse.dropWhile isJsWhitespace).reverse

/-- A run of `k` blanks. -/
def blanks (k : Nat) : List Char := List.replicate k ' '

/-- The units that section 4.1 of the specification names, and no unit. -/
def budgetUnits : List String := ["", "lakh", "cr", "crore"]

/-- The multiplier of a unit as the specification words it: 100,000 for lakh,
10,000,000 for cr or crore, 1 without a unit. -/
def unitMultiplier (u : String) : Nat :=
  if u = "lakh" then 100000 else if u = "cr" ∨ u = "crore" then 10000000 else 1

/-- The text of one part of a range: the decimal numeral of `n`, followed, when there
is a unit, by `k` blanks and the unit. -/
def budgetPartText (n k : Nat) (u : String) : List Char :=
  (toString n).data ++ (if u = "" then [] else blanks k ++ u.data)

/-- The letters of the units. -/
def unitLetters : List Char := ['l', 'a', 'k', 'h', 'c', 'r', 'o', 'e']

/-- The characters of a part: digits, the blank and the letters of the units. -/
def partChars : List Char := digitChars ++ ' ' :: unitLetters

/-- The text of a range of two parts joined by `sep`, with `a` blanks before and `b`
blanks after the separator. -/
def budgetRangeText (n1 k1 : Nat) (u1 : String) (a : Nat) (sep : String) (b : Nat)
    (n2 k2 : Nat) (u2 : String) : List Char :=
  budgetPartText n1 k1 u1 ++ blanks a ++ sep.data ++ blanks b ++ budgetPartText n2 k2 u2

/-- The characters of a range text: those of a part, the hyphen, the en dash and
the letter `t`. -/
def rangeChars : List Char := partChars ++ ['-', Char.ofNat 0x2013, 't']

/-- What the body of the row loop (lines 160-198) can throw: a `TypeError` while the
payload is built, or the error of `Lead.create`. -/
inductive RowError where
  | typeError
  | store (e : StoreError)
deriving DecidableEq, Repr

/-- The exception, if any, that the body of the row loop raises for the row `r` when
the database is `db`. A row without a phone leaves the body with `continue` and
raises nothing. -/
def rowError (companyId : ObjectId) (db : Db) (r : Row) : Option RowError :=
  match importPayload companyId r with
  | none => some .typeError
  | some payload =>
    if payload.phone = .str "" then none
    else
      let assigned := assignCall db companyId
      match (leadCreate assigned.1 { payload with assignedTo := assigned.2 }).2 with
      | .ok _ => none
      | .error e => some (.store e)

/-- The state in which the row loop of `importCsv` starts: the company has been
looked up and the counters stand at zero. -/
def importStart (db : Db) (companyId : ObjectId) : Db × ImportAcc :=
  ((companyFindById db companyId).1, ⟨0, 0, 0, []⟩)

/-- The state of the row loop of `importCsv` after the rows `rows` have been
processed, from the first row of the file. -/
def loopAfter (db : Db) (companyId : ObjectId) (rows : List Row) : Db × ImportAcc :=
  importRows companyId (importStart db companyId) 0 rows

/-- The requests for which `importCsv` reaches its row loop: a file, a company that
exists, a supported extension and rows that the reader could parse. -/
def ReachesLoop (db : Db) (req : ImportReq) (file : UploadedFile) (companyId : ObjectId)
    (company : Company) (rows : List Row) : Prop :=
  req.file = some file ∧ req.companyId = some (.valid companyId) ∧
    (companyFindById db companyId).2 = some company ∧
    (toLowerCase (extname file.originalname) = ".csv" ∨
      toLowerCase (extname file.originalname) = ".xlsx" ∨
      toLowerCase (extname file.originalname) = ".xls") ∧
    req.parsed = .ok rows

/-- Whether the payload of a row can be built, that is, building it raises no
`TypeError`. -/
def rowBuilds (companyId : ObjectId) (r : Row) : Bool := (importPayload companyId r).isSome

/-- Whether the payload of a row can be built and passes the validation of the Lead
model. -/
def rowAccepted (companyId : ObjectId) (r : Row) : Bool :=
  match importPayload companyId r with
  | some p =>
    (match buildLead p with
      | .ok _ => true
      | .error _ => false)
  | none => false

/-- The report entries that the specification expects for the rows without a usable
phone: the 1-based row number (counted from `start`), the reason and the row. -/
def missingPhoneRows (start : Nat) : List Row → List SkippedRow
  | [] => []
  | r :: rest =>
    (if rowPhone r = "" then [⟨start + 1, "Missing phone", r⟩] else [])
      ++ missingPhoneRows (start + 1) rest

/-- A further part of a budget text: `before` blanks, the separator, `after` blanks and
the decimal numeral of `value`. -/
structure RangeTail where
  before : Nat
  sep : String
  after : Nat
  value : Nat
deriving DecidableEq, Repr

/-- The text of a run of further parts. -/
def tailsText : List RangeTail → List Char
  | [] => []
  | t :: rest =>
    blanks t.before ++ t.sep.data ++ blanks t.after ++ (toString t.value).data ++ tailsText rest

/-- The text of a budget of several parts without units: the numeral of `first`, then
the further parts. -/
def multiPartText (first : Nat) (tails : List RangeTail) : List Char :=
  (toString first).data ++ tailsText tails

/-- The digits of all the parts, one after the other. -/
def multiPartDigits (first : Nat) (tails : List RangeTail) : List Char :=
  (toString first).data ++ tails.flatMap (fun t => (toString t.value).data)

/-- The characters of a budget text of several parts without units. -/
def multiChars : List Char := digitChars ++ [' ', '-', Char.ofNat 0x2013, 't', 'o']

/-- The lines 30-43 of `assignLeadToSalesperson`, for a roster and a map of counts:
the partition into `underTen` and `others`, and `pickLeast` on the first of the two
that is not empty. -/
def chooseByLoad (salespersons : List User) (countMap : CountMap) : Option ObjectId :=
  let parts := partitionByLoad salespersons countMap
  pickLeast (if parts.1.length ≠ 0 then parts.1 else if parts.2.length ≠ 0 then parts.2 else [])

/-- The simpler policy, in the words of the claim: the first salesperson in roster order
whose active count equals the minimum over the whole roster; null for an empty roster. -/
def firstOfLeastCount (salespersons : List User) (countMap : CountMap) : Option ObjectId :=
  match (salespersons.map (fun sp => getCount countMap sp._id)).min? with
  | none => none
  | some least =>
    (salespersons.find? (fun sp => getCount countMap sp._id == least)).map (fun sp => sp._id)

/-- The field extraction of lines 467-478: the callback applied to every field of the
list, in order, from the initial values of line 467. -/
def extractFields (fieldData : List MetaField) : Extracted :=
  fieldData.foldl extractField ⟨"—", "", "", ""⟩

/-- The integer `n` is a double: rounding to the nearest double returns it. Every
integer up to `2^53` is one; `2^53 + 1` is the first that is not. -/
abbrev ExactInt (n : Nat) : Prop := (JsNum.fin false n 0).toDouble = .fin false n 0

/-- The priority list of rules of section 4.1 of the specification: the keywords of
a rule and the label it yields, in the order in which the rules are tried. -/
def sourceRules : List (List String × String) :=
  [(["facebook", "meta"], "facebook"), (["google"], "google"), (["walk"], "walk_in"),
    (["agent", "broker"], "agent"), (["csv"], "csv")]

/-- The normalizer as the specification words it: the label of the first rule one of
whose keywords is a substring of the text, read case-insensitively (that is, of the
lower-cased text); `manual` when no rule matches. -/
def normalizeSourceSpec (text : String) : String :=
  match sourceRules.find?
      (fun rule => rule.1.any (fun kw => decide (kw.data <:+: (toLowerCase text).data))) with
  | some rule => rule.2
  | none => "manual"

/-- The round-robin state after `k` leads have been handed out over the roster `R`,
all members having started with the count `c`: `k = |R| * q + r` with `r < |R|`, the
first `r` members stand at `c + q + 1` and the others at `c + q`. -/
def RoundRobinState (R : List User) (cnt : ObjectId → Nat) (c k : Nat) : Prop :=
  ∃ q r, r < R.length ∧ k = R.length * q + r ∧
    ∀ j x, R[j]? = some x → cnt x._id = c + q + (if j < r then 1 else 0)

/-- The round-robin invariant of a run of assignments for one company: `created`
lists the leads stored since the start, when the collection was `base` and every
roster member stood at the count `c`. -/
def RoundRobinRun (users : List User) (companyId : ObjectId) (base : List Lead) (c : Nat)
    (created : List Lead) : Prop :=
  RoundRobinState (findSalespersons users companyId)
      (activeCount users (base ++ created) companyId) c created.length ∧
    ∀ i l, created[i]? = some l →
      l.assignedTo
        = ((findSalespersons users companyId)[i % (findSalespersons users companyId).length]?).map
            (fun u => u._id)

/-! ## Sample data -/

/-- A user store: three active salespersons of company 1 (ids 11, 12, 13, created in
that order), an inactive one, and a salesperson of company 2. -/
def sampleUsers : List User :=
  [ ⟨12, "salesperson", some 1, true, 200⟩,
    ⟨11, "salesperson", some 1, true, 100⟩,
    ⟨14, "salesperson", some 1, false, 50⟩,
    ⟨21, "salesperson", some 2, true, 10⟩,
    ⟨13, "salesperson", some 1, true, 300⟩,
    ⟨1, "admin", none, true, 1⟩ ]

/-- A stored lead of company `c` with phone `p`, assignee `a` and status `st`. -/
def sampleLead (c : ObjectId) (p : String) (a : Option ObjectId) (st : String) : Lead :=
  { companyId := c, assignedTo := a, firstName := "Asha", lastName := some "", phone := p,
    email := some "", location := some "", propertyInterest := some "", budgetMin := none,
    budgetMax := none, currency := "INR", source := "manual", campaign := some "",
    adset := some "", adId := some "", isBroker := false, brokerName := some "",
    brokerCutPct := none, status := st, projectId := none, propertyId := none,
    createdBy := none, notes := some "", externalRef := none }

/-- A manual-create body with the given first name, phone, source and company. -/
def sampleBody (firstName phone source : JsVal) (companyId : Option ObjectId) :
    CreateLeadBody :=
  { firstName := firstName, lastName := .undefined, phone := phone, email := .undefined,
    location := .undefined, propertyInterest := .undefined, budget := .undefined,
    budgetMin := none, budgetMax := none, isBroker := .undefined, brokerName := .undefined,
    brokerCutPct := none, source := source, campaign := .undefined, adset := .undefined,
    adId := .undefined, notes := .undefined, companyId := companyId }

/-- A database with the sample users, one company, and no lead. -/
def sampleDb : Db :=
  { users := sampleUsers, companies := [⟨1, "Savan", some "page-1"⟩], leads := [],
    activityLogs := [], trace := [] }

/-- A bulk-import request for company 1 with five parsed rows: the second has no
phone, the fourth repeats the phone of the first. -/
def sampleImport : ImportReq :=
  { file := some ⟨"tmp/upload-1", "leads.csv"⟩
    companyId := some (.valid 1)
    parsed := .ok
      [ [("First Name", .str "Asha"), ("Phone No", .str "900")],
        [("First Name", .str "Binu")],
        [("First Name", .str "Chitra"), ("phone", .num 901)],
        [("First Name", .str "Dev"), ("Phone", .str " 900 ")],
        [("First Name", .str "Esha"), ("mobile", .str "902")],
        [("First Name", .str "Farid"), ("mobile", .str "903")] ] }

/-- Three parsed rows, the second of which has no phone. -/
def threeRows : List Row :=
  [ [("First Name", .str "Asha"), ("Phone No", .str "900")],
    [("First Name", .str "Binu"), ("Email", .str "binu@example.com")],
    [("First Name", .str "Chitra"), ("Phone No", .str "901")] ]

/-- A bulk-import request for company 1 with the three rows of `threeRows`. -/
def threeRowImport : ImportReq :=
  { file := some ⟨"tmp/upload-2", "three.csv"⟩
    companyId := some (.valid 1)
    parsed := .ok threeRows }

/-- Three parsed rows of a spreadsheet, the second of which has no phone and holds a
number in the column `Location`. -/
def pinCodeRows : List Row :=
  [ [("First Name", .str "Asha"), ("Phone No", .str "900")],
    [("First Name", .str "Binu"), ("Location", .num 560001)],
    [("First Name", .str "Chitra"), ("Phone No", .str "901")] ]

/-- A bulk-import request for company 1 with the three rows of `pinCodeRows`. -/
def pinCodeImport : ImportReq :=
  { file := some ⟨"tmp/upload-5", "three.xlsx"⟩
    companyId := some (.valid 1)
    parsed := .ok pinCodeRows }

/-- A bulk-import request whose `companyId` field is not the text of an ObjectId. -/
def malformedImport : ImportReq :=
  { file := some ⟨"tmp/upload-3", "leads.csv"⟩
    companyId := some (.malformed "not-an-id")
    parsed := .ok [ [("First Name", .str "Asha"), ("Phone No", .str "900")] ] }

/-- A bulk-import request for a well-formed `companyId` that no company has. -/
def unknownCompanyImport : ImportReq :=
  { file := some ⟨"tmp/upload-4", "leads.csv"⟩
    companyId := some (.valid 7)
    parsed := .ok [ [("First Name", .str "Asha"), ("Phone No", .str "900")] ] }

/-- An ad platform that knows the leads `L1` and `L2` and fails on every other
identifier. -/
def sampleGraph : GraphApi := fun leadgenId _ =>
  if leadgenId = "L1" then .ok [⟨"full_name", ["Asha Rao"]⟩, ⟨"phone_number", ["900"]⟩]
  else if leadgenId = "L2" then .ok [⟨"full_name", ["Binu Nair"]⟩, ⟨"phone_number", ["901"]⟩]
  else .error "Request failed with status code 400"

/-- A POST on the Meta webhook with the given entries. -/
def metaPost (entries : List MetaEntry) : MetaReq :=
  { method := "POST", hubMode := .undefined, hubVerifyToken := .undefined,
    hubChallenge := .undefined, entry := some entries }

/-- A POST with two entries of the known page: the first change of the first entry
names a lead that the platform cannot fetch. -/
def abortedBatch : MetaReq :=
  metaPost [⟨.str "page-1", [⟨.str "L0"⟩, ⟨.str "L1"⟩]⟩, ⟨.str "page-1", [⟨.str "L2"⟩]⟩]

/-- A POST with two entries of one change each: the page of the first is unknown, the
page of the second is that of company 1. -/
def twoEntryPost : MetaReq :=
  metaPost [⟨.str "page-9", [⟨.str "L2"⟩]⟩, ⟨.str "page-1", [⟨.str "L1"⟩]⟩]

/-- A GET on the Meta webhook with the given `hub.mode`, `hub.verify_token` and
`hub.challenge`. -/
def metaGet (mode token challenge : JsVal) : MetaReq :=
  { method := "GET", hubMode := mode, hubVerifyToken := token, hubChallenge := challenge,
    entry := none }

/-- A request on the Google webhook for the page `pageId`. -/
def googlePost (pageId : JsVal) : GoogleReq :=
  { pageId := pageId, first_name := .str "Asha", last_name := .str "Rao", phone := .str "900",
    email := .undefined, campaignName := .str "Diwali", submissionId := .str "S1" }

/-- A bulk-import request for company 1 with one row, whose phone is blank. -/
def blankPhoneImport : ImportReq :=
  { file := some ⟨"tmp/upload-6", "one.csv"⟩
    companyId := some (.valid 1)
    parsed := .ok [ [("First Name", .str "Asha"), ("Phone No", .str "   ")] ] }

/-! ## Lemmas on the assignment policy -/

theorem partitionByLoad_foldl (countMap : CountMap) (sps : List User) (a b : List Entry) :
    sps.foldl
      (fun acc sp =>
        let cnt := getCount countMap sp._id
        if cnt < 10 then (acc.1 ++ [⟨sp._id, cnt⟩], acc.2)
        else (acc.1, acc.2 ++ [(⟨sp._id, cnt⟩ : Entry)]))
      (a, b)
    = (a ++ (entriesOf sps countMap).filter (fun e => decide (e.cnt < 10)),
       b ++ (entriesOf sps countMap).filter (fun e => !decide (e.cnt < 10))) := by
  induction sps generalizing a b with
  | nil => simp [entriesOf]
  | cons sp t ih =>
    simp only [List.foldl_cons]
    by_cases h : getCount countMap sp._id < 10
    · simp only [h, if_true]
      rw [ih]
      simp [entriesOf, h]
    · simp only [h, if_false]
      rw [ih]
      simp [entriesOf, h]

theorem partitionByLoad_eq (sps : List User) (countMap : CountMap) :
    partitionByLoad sps countMap
    = ((entriesOf sps countMap).filter (fun e => decide (e.cnt < 10)),
       (entriesOf sps countMap).filter (fun e => !decide (e.cnt < 10))) := by
  unfold partitionByLoad
  rw [partitionByLoad_foldl]
  simp

/-- The head of the stably sorted array is the first entry of least count. -/
theorem head_sort_split (l : List Entry) (hl : l ≠ []) :
    ∃ pre e post, l = pre ++ e :: post ∧
      (l.insertionSort (fun a b => a.cnt ≤ b.cnt)).head? = some e ∧
      (∀ x ∈ pre, e.cnt < x.cnt) ∧ (∀ x ∈ post, e.cnt ≤ x.cnt) := by
  induction l with
  | nil => exact absurd rfl hl
  | cons a t ih =>
    by_cases ht : t = []
    · subst ht
      exact ⟨[], a, [], by simp, by simp, by simp, by simp⟩
    · obtain ⟨pre, e, post, hsplit, hhead, hpre, hpost⟩ := ih ht
      simp only [List.insertionSort]
      cases hs : t.insertionSort (fun a b => a.cnt ≤ b.cnt) with
      | nil => rw [hs] at hhead; simp at hhead
      | cons h rest =>
        rw [hs] at hhead
        simp only [List.head?_cons, Option.some.injEq] at hhead
        subst hhead
        by_cases hle : a.cnt ≤ h.cnt
        · refine ⟨[], a, t, by simp, ?_, by simp, ?_⟩
          · simp only [List.orderedInsert, if_pos hle, List.head?_cons]
          · intro x hx
            rw [hsplit] at hx
            rcases List.mem_append.mp hx with hx | hx
            · exact le_trans hle (le_of_lt (hpre x hx))
            · rcases List.mem_cons.mp hx with hx | hx
              · subst hx; exact hle
              · exact le_trans hle (hpost x hx)
        · refine ⟨a :: pre, h, post, by simp [hsplit], ?_, ?_, hpost⟩
          · simp only [List.orderedInsert, if_neg hle, List.head?_cons]
          · intro x hx
            rcases List.mem_cons.mp hx with hx | hx
            · subst hx; exact lt_of_not_le hle
            · exact hpre x hx

theorem filter_map_split {α β : Type} (f : α → β) (p : β → Bool) (l : List α)
    (pre' : List β) (e : β) (post' : List β)
    (h : (l.map f).filter p = pre' ++ e :: post') :
    ∃ pre x post, l = pre ++ x :: post ∧ f x = e ∧ p e = true ∧
      (pre.map f).filter p = pre' ∧ (post.map f).filter p = post' := by
  induction l generalizing pre' with
  | nil => simp at h
  | cons a t ih =>
    by_cases hp : p (f a) = true
    · rw [List.map_cons, List.filter_cons_of_pos hp] at h
      cases pre' with
      | nil =>
        simp only [List.nil_append, List.cons.injEq] at h
        exact ⟨[], a, t, by simp, h.1, h.1 ▸ hp, by simp, h.2⟩
      | cons b pre'' =>
        simp only [List.cons_append, List.cons.injEq] at h
        obtain ⟨pre, x, post, hl, hx, hpe, h1, h2⟩ := ih pre'' h.2
        refine ⟨a :: pre, x, post, by simp [hl], hx, hpe, ?_, h2⟩
        rw [List.map_cons, List.filter_cons_of_pos hp, h1, h.1]
    · rw [List.map_cons, List.filter_cons_of_neg hp] at h
      obtain ⟨pre, x, post, hl, hx, hpe, h1, h2⟩ := ih pre' h
      refine ⟨a :: pre, x, post, by simp [hl], hx, hpe, ?_, h2⟩
      rw [List.map_cons, List.filter_cons_of_neg hp, h1]

/-- Shape of the result on a non-empty roster: the assignee is the first entry of
least count in the selected group (under-capacity entries if any, else all). -/
theorem assign_split (users : List User) (leads : List Lead) (companyId : ObjectId)
    (hne : findSalespersons users companyId ≠ []) :
    ∃ pre sp post, findSalespersons users companyId = pre ++ sp :: post ∧
      assignLeadToSalesperson users leads companyId = some sp._id ∧
      ((∃ s ∈ findSalespersons users companyId,
            activeCount users leads companyId s._id < 10) →
          activeCount users leads companyId sp._id < 10 ∧
          (∀ x ∈ pre, activeCount users leads companyId x._id < 10 →
            activeCount users leads companyId sp._id < activeCount users leads companyId x._id) ∧
          (∀ x ∈ post, activeCount users leads companyId x._id < 10 →
            activeCount users leads companyId sp._id ≤ activeCount users leads companyId x._id)) ∧
      ((∀ s ∈ findSalespersons users companyId,
            10 ≤ activeCount users leads companyId s._id) →
          (∀ x ∈ pre,
            activeCount users leads companyId sp._id < activeCount users leads companyId x._id) ∧
          (∀ x ∈ post,
            activeCount users leads companyId sp._id ≤ activeCount users leads companyId x._id)) := by
  have hlen : (findSalespersons users companyId).length ≠ 0 := by
    simpa [List.length_eq_zero] using hne
  unfold assignLeadToSalesperson
  simp only [hlen, if_false, partitionByLoad_eq]
  unfold activeCount
  generalize findSalespersons users companyId = roster at *
  generalize newMap (aggregateActiveCounts leads (roster.map fun s => s._id)) = m
  by_cases hu : (entriesOf roster m).filter (fun e => decide (e.cnt < 10)) = []
  · -- nobody is under capacity: the selection is made among `others`
    have hall : ∀ s ∈ roster, 10 ≤ getCount m s._id := by
      intro s hs
      by_contra hlt
      have : (⟨s._id, getCount m s._id⟩ : Entry) ∈
          (entriesOf roster m).filter (fun e => decide (e.cnt < 10)) := by
        simp only [List.mem_filter, entriesOf, List.mem_map, decide_eq_true_eq]
        exact ⟨⟨s, hs, rfl⟩, lt_of_not_le hlt⟩
      rw [hu] at this
      simp at this
    have ho : (entriesOf roster m).filter (fun e => !decide (e.cnt < 10)) ≠ [] := by
      cases hr : roster with
      | nil => exact absurd hr hne
      | cons a t =>
        have ha := hall a (by rw [hr]; simp)
        intro hcontra
        have : (⟨a._id, getCount m a._id⟩ : Entry) ∈
            (entriesOf (a :: t) m).filter (fun e => !decide (e.cnt < 10)) := by
          simp only [List.mem_filter, entriesOf, List.mem_map, Bool.not_eq_true',
            decide_eq_false_iff_not, not_lt]
          exact ⟨⟨a, by simp, rfl⟩, ha⟩
        rw [hcontra] at this
        simp at this
    obtain ⟨pre', e, post', hsplit, hhead, hpre, hpost⟩ := head_sort_split _ ho
    obtain ⟨pre, sp, post, hl, hx, -, h1, h2⟩ :=
      filter_map_split (fun sp : User => (⟨sp._id, getCount m sp._id⟩ : Entry))
        (fun e => !decide (e.cnt < 10)) roster pre' e post' hsplit
    have hcnt : e.cnt = getCount m sp._id := by rw [← hx]
    have hmemf : ∀ (q : List User) (q' : List Entry),
        (q.map (fun sp : User => (⟨sp._id, getCount m sp._id⟩ : Entry))).filter
          (fun e => !decide (e.cnt < 10)) = q' →
        (∀ x ∈ q, x ∈ roster) →
        ∀ x ∈ q, (⟨x._id, getCount m x._id⟩ : Entry) ∈ q' := by
      intro q q' hq hsub x hxq
      rw [← hq]
      simp only [List.mem_filter, List.mem_map, Bool.not_eq_true', decide_eq_false_iff_not,
        not_lt]
      exact ⟨⟨x, hxq, rfl⟩, hall x (hsub x hxq)⟩
    refine ⟨pre, sp, post, hl, ?_, ?_, ?_⟩
    · simp only [hu, List.length_nil, ne_eq, not_true_eq_false, if_false]
      have ho' : ((entriesOf roster m).filter (fun e => !decide (e.cnt < 10))).length ≠ 0 := by
        simpa [List.length_eq_zero] using ho
      simp only [ne_eq, ho', not_false_eq_true, if_true, pickLeast, hhead, Option.map_some',
        ← hx]
    · rintro ⟨s, hs, hlt⟩
      exact absurd (hall s hs) (not_le.mpr hlt)
    · intro _
      constructor
      · intro x hxp
        have := hpre _ (hmemf pre pre' h1 (fun y hy => by rw [hl]; simp [hy]) x hxp)
        rw [hcnt] at this
        exact this
      · intro x hxp
        have := hpost _ (hmemf post post' h2 (fun y hy => by rw [hl]; simp [hy]) x hxp)
        rw [hcnt] at this
        exact this
  · -- somebody is under capacity: the selection is made among `underTen`
    obtain ⟨pre', e, post', hsplit, hhead, hpre, hpost⟩ := head_sort_split _ hu
    obtain ⟨pre, sp, post, hl, hx, hpe, h1, h2⟩ :=
      filter_map_split (fun sp : User => (⟨sp._id, getCount m sp._id⟩ : Entry))
        (fun e => decide (e.cnt < 10)) roster pre' e post' hsplit
    have hcnt : e.cnt = getCount m sp._id := by rw [← hx]
    have hu' : ((entriesOf roster m).filter (fun e => decide (e.cnt < 10))).length ≠ 0 := by
      simpa [List.length_eq_zero] using hu
    refine ⟨pre, sp, post, hl, ?_, ?_, ?_⟩
    · simp only [ne_eq, hu', not_false_eq_true, if_true, pickLeast, hhead, Option.map_some',
        ← hx]
    · intro _
      refine ⟨?_, ?_, ?_⟩
      · rw [← hcnt]; simpa using hpe
      · intro x hxp hlt
        have hm : (⟨x._id, getCount m x._id⟩ : Entry) ∈ pre' := by
          rw [← h1]
          simp only [List.mem_filter, List.mem_map, decide_eq_true_eq]
          exact ⟨⟨x, hxp, rfl⟩, hlt⟩
        have := hpre _ hm
        rw [hcnt] at this
        exact this
      · intro x hxp hlt
        have hm : (⟨x._id, getCount m x._id⟩ : Entry) ∈ post' := by
          rw [← h2]
          simp only [List.mem_filter, List.mem_map, decide_eq_true_eq]
          exact ⟨⟨x, hxp, rfl⟩, hlt⟩
        have := hpost _ hm
        rw [hcnt] at this
        exact this
    · intro hall
      have : 10 ≤ getCount m sp._id := hall sp (by rw [hl]; simp)
      have h10 : e.cnt < 10 := by simpa using hpe
      rw [hcnt] at h10
      omega

/-- The partition never changes the outcome: the assignee is the first entry of
least count of the whole roster. -/
theorem assign_first_min (users : List User) (leads : List Lead) (companyId : ObjectId)
    (hne : findSalespersons users companyId ≠ []) :
    ∃ pre sp post, findSalespersons users companyId = pre ++ sp :: post ∧
      assignLeadToSalesperson users leads companyId = some sp._id ∧
      (∀ x ∈ pre,
        activeCount users leads companyId sp._id < activeCount users leads companyId x._id) ∧
      (∀ x ∈ post,
        activeCount users leads companyId sp._id ≤ activeCount users leads companyId x._id) := by
  obtain ⟨pre, sp, post, hl, hres, hunder, hover⟩ := assign_split users leads companyId hne
  refine ⟨pre, sp, post, hl, hres, ?_⟩
  by_cases hex : ∃ s ∈ findSalespersons users companyId,
      activeCount users leads companyId s._id < 10
  · obtain ⟨hsp, hpre, hpost⟩ := hunder hex
    constructor
    · intro x hx
      by_cases hlt : activeCount users leads companyId x._id < 10
      · exact hpre x hx hlt
      · omega
    · intro x hx
      by_cases hlt : activeCount users leads companyId x._id < 10
      · exact hpost x hx hlt
      · omega
  · have hall : ∀ s ∈ findSalespersons users companyId,
        10 ≤ activeCount users leads companyId s._id := by
      intro s hs
      by_contra hlt
      exact hex ⟨s, hs, lt_of_not_le hlt⟩
    exact hover hall

theorem newMap_foldl_not_mem (entries : List (ObjectId × Nat)) (m : CountMap) (k : ObjectId)
    (hk : k ∉ entries.map Prod.fst) :
    entries.foldl (fun (m : CountMap) (e : ObjectId × Nat) => Function.update m e.1 (some e.2)) m k
      = m k := by
  induction entries generalizing m with
  | nil => rfl
  | cons e t ih =>
    simp only [List.map_cons, List.mem_cons, not_or] at hk
    rw [List.foldl_cons, ih _ hk.2, Function.update_noteq hk.1]

theorem newMap_foldl_mem (entries : List (ObjectId × Nat)) (m : CountMap) (k : ObjectId)
    (v : Nat) (hnd : (entries.map Prod.fst).Nodup) (hk : (k, v) ∈ entries) :
    entries.foldl (fun (m : CountMap) (e : ObjectId × Nat) => Function.update m e.1 (some e.2)) m k
      = some v := by
  induction entries generalizing m with
  | nil => simp at hk
  | cons e t ih =>
    simp only [List.map_cons, List.nodup_cons] at hnd
    rw [List.foldl_cons]
    rcases List.mem_cons.mp hk with hk | hk
    · subst hk
      rw [newMap_foldl_not_mem t _ k hnd.1]
      simp
    · exact ih _ hnd.2 hk

/-- The count read back from the map built from the `$group` output is the number
of matched documents assigned to the key. -/
theorem getCount_groupCount (docs : List Lead) (k : ObjectId) :
    getCount (newMap (groupCount docs)) k
      = (docs.filterMap (fun l => l.assignedTo)).count k := by
  unfold getCount newMap groupCount
  simp only
  generalize docs.filterMap (fun l => l.assignedTo) = keys
  by_cases hk : k ∈ keys
  · have hmem : (k, keys.count k) ∈ keys.dedup.map (fun k => (k, keys.count k)) :=
      List.mem_map.mpr ⟨k, List.mem_dedup.mpr hk, rfl⟩
    have hnd : ((keys.dedup.map (fun k => (k, keys.count k))).map Prod.fst).Nodup := by
      rw [List.map_map]
      have : (Prod.fst ∘ fun k => (k, keys.count k)) = (id : ObjectId → ObjectId) := rfl
      rw [this, List.map_id]
      exact List.nodup_dedup keys
    rw [newMap_foldl_mem _ _ k _ hnd hmem]
    have hpos : 0 < keys.count k := List.count_pos_iff.mpr hk
    simp only
    split_ifs with h0
    · omega
    · rfl
  · have hnot : k ∉ (keys.dedup.map (fun k => (k, keys.count k))).map Prod.fst := by
      rw [List.map_map]
      have : (Prod.fst ∘ fun k => (k, keys.count k)) = (id : ObjectId → ObjectId) := rfl
      rw [this, List.map_id]
      simpa using hk
    rw [newMap_foldl_not_mem _ _ k hnot]
    simp only
    exact (List.count_eq_zero_of_not_mem hk).symm

theorem terminal_contains_false (s : String) :
    terminalStatuses.contains s = false ↔ (s ≠ "booking_done" ∧ s ≠ "dropped") := by
  simp only [terminalStatuses, List.contains, List.elem]
  cases h1 : s == "booking_done" <;> cases h2 : s == "dropped" <;> simp_all

theorem count_matchActive (leads : List Lead) (ids : List ObjectId) (k : ObjectId)
    (hk : k ∈ ids) :
    ((matchActive leads ids).filterMap (fun l => l.assignedTo)).count k
      = (leads.filter
          (fun l => l.assignedTo == some k && !(terminalStatuses.contains l.status))).length := by
  unfold matchActive
  induction leads with
  | nil => rfl
  | cons l t ih =>
    rw [List.filter_cons, List.filter_cons]
    cases ha : l.assignedTo with
    | none =>
      have hp : matchFilter ids l = false := by simp [matchFilter, ha]
      simp only [hp, Bool.false_eq_true, if_false, ih]
      simp
    | some a =>
      cases hterm : terminalStatuses.contains l.status with
      | true =>
        have hp : matchFilter ids l = false := by
          simp only [matchFilter, ha, hterm, Bool.not_true, Bool.and_false]
        simp only [hp, Bool.false_eq_true, if_false, ih]
        simp
      | false =>
        by_cases hak : a = k
        · subst hak
          have hp : matchFilter ids l = true := by
            simp only [matchFilter, ha, hterm]
            simpa using hk
          simp only [hp, if_true, beq_self_eq_true, Bool.not_false, Bool.and_self,
            List.length_cons]
          rw [List.filterMap_cons_some ha, List.count_cons_self, ih]
        · have hq : (some a == some k) = false := by simpa using hak
          simp only [hq, Bool.false_and, Bool.false_eq_true, if_false]
          by_cases hp : matchFilter ids l = true
          · simp only [hp, if_true]
            rw [List.filterMap_cons_some ha, List.count_cons_of_ne (Ne.symm hak), ih]
          · simp only [Bool.not_eq_true] at hp
            simp only [hp, Bool.false_eq_true, if_false, ih]

/-- The count used for a roster member is the number of stored leads assigned to
that member whose status is not terminal. -/
theorem activeCount_eq (users : List User) (leads : List Lead) (companyId : ObjectId)
    (sp : User) (hsp : sp ∈ findSalespersons users companyId) :
    activeCount users leads companyId sp._id
      = (leads.filter
          (fun l => l.assignedTo == some sp._id
            && !(terminalStatuses.contains l.status))).length := by
  unfold activeCount aggregateActiveCounts
  rw [getCount_groupCount, count_matchActive]
  exact List.mem_map.mpr ⟨sp, hsp, rfl⟩

theorem findSalespersons_sorted (users : List User) (companyId : ObjectId) :
    (findSalespersons users companyId).Pairwise (fun a b => a.createdAt ≤ b.createdAt) := by
  haveI : IsTotal User (fun a b => a.createdAt ≤ b.createdAt) :=
    ⟨fun a b => Nat.le_total a.createdAt b.createdAt⟩
  haveI : IsTrans User (fun a b => a.createdAt ≤ b.createdAt) :=
    ⟨fun _ _ _ hab hbc => Nat.le_trans hab hbc⟩
  exact List.sorted_insertionSort _ _

theorem mem_findSalespersons (users : List User) (companyId : ObjectId) (u : User) :
    u ∈ findSalespersons users companyId ↔
      u ∈ users ∧ u.role = "salesperson" ∧ u.companyId = some companyId ∧ u.isActive = true := by
  unfold findSalespersons
  rw [List.mem_insertionSort, List.mem_filter]
  simp [and_assoc]

theorem matchActive_filter (leads : List Lead) (ids : List ObjectId) :
    matchActive (leads.filter (fun l => !(terminalStatuses.contains l.status))) ids
      = matchActive leads ids := by
  unfold matchActive
  rw [List.filter_filter]
  congr 1
  funext l
  unfold matchFilter
  cases terminalStatuses.contains l.status <;> simp

/-- Storing one more lead raises the count of its assignee by one when the lead is
active, and no other count. -/
theorem activeCount_append (users : List User) (leads : List Lead) (companyId : ObjectId)
    (l : Lead) (s : User) (hs : s ∈ findSalespersons users companyId) :
    activeCount users (leads ++ [l]) companyId s._id
      = activeCount users leads companyId s._id
        + (if l.assignedTo = some s._id ∧ terminalStatuses.contains l.status = false
            then 1 else 0) := by
  rw [activeCount_eq users _ companyId s hs, activeCount_eq users _ companyId s hs,
    List.filter_append, List.length_append]
  congr 1
  rw [List.filter_cons, List.filter_nil]
  by_cases h1 : l.assignedTo = some s._id
  · cases h2 : terminalStatuses.contains l.status
    · simp [h1]
    · simp [h1]
  · have hq : (l.assignedTo == some s._id) = false := by simpa using h1
    rw [hq]
    simp [h1]

theorem balanced_step (users : List User) (companyId : ObjectId) (leads : List Lead)
    (doc : Lead) (hb : Balanced users companyId leads) :
    Balanced users companyId (assignThenInsert users companyId leads doc) := by
  intro s hs t ht
  have hne : findSalespersons users companyId ≠ [] := List.ne_nil_of_mem hs
  obtain ⟨pre, sp, post, hl, hres, hpre, hpost⟩ :=
    assign_first_min users leads companyId hne
  have hmin : ∀ x ∈ findSalespersons users companyId,
      activeCount users leads companyId sp._id ≤ activeCount users leads companyId x._id := by
    intro x hx
    rw [hl] at hx
    rcases List.mem_append.mp hx with h | h
    · exact le_of_lt (hpre x h)
    · rcases List.mem_cons.mp h with h | h
      · subst h; exact le_refl _
      · exact hpost x h
  have hnew : terminalStatuses.contains "new" = false := by decide
  unfold assignThenInsert
  rw [activeCount_append users leads companyId _ s hs,
    activeCount_append users leads companyId _ t ht]
  simp only [hres, hnew, and_true, Option.some.injEq]
  have hst := hb s hs t ht
  have hsp_t := hmin t ht
  by_cases h1 : sp._id = s._id
  · rw [h1] at hsp_t
    split_ifs <;> omega
  · split_ifs <;> omega

theorem balanced_foldl (users : List User) (companyId : ObjectId) (docs : List Lead)
    (leads : List Lead) (hb : Balanced users companyId leads) :
    Balanced users companyId (docs.foldl (assignThenInsert users companyId) leads) := by
  induction docs generalizing leads with
  | nil => exact hb
  | cons d t ih => exact ih _ (balanced_step users companyId leads d hb)

theorem balanced_nil (users : List User) (companyId : ObjectId) :
    Balanced users companyId [] := by
  intro s hs t _
  rw [activeCount_eq users [] companyId s hs]
  simp

/-- In a round-robin state the first entry of least count stands at position
`k mod |R|`. -/
theorem roundRobin_pick (R : List User) (cnt : ObjectId → Nat) (c k : Nat)
    (pre post : List User) (sp : User) (hl : R = pre ++ sp :: post)
    (hpre : ∀ x ∈ pre, cnt sp._id < cnt x._id) (hpost : ∀ x ∈ post, cnt sp._id ≤ cnt x._id)
    (hinv : RoundRobinState R cnt c k) :
    pre.length = k % R.length ∧ R[k % R.length]? = some sp := by
  obtain ⟨q, r, hr, hk, hcount⟩ := hinv
  have hmod : k % R.length = r := by
    rw [hk, Nat.mul_add_mod]
    exact Nat.mod_eq_of_lt hr
  have hsp : R[pre.length]? = some sp := by
    rw [hl, List.getElem?_append_right (le_refl _), Nat.sub_self]
    exact List.getElem?_cons_zero
  have hcsp := hcount _ _ hsp
  have hlen : R.length = pre.length + (post.length + 1) := by
    rw [hl]; simp
  have hp : pre.length = r := by
    rcases Nat.lt_trichotomy pre.length r with hlt | heq | hgt
    · -- the entry at position r lies after `sp` and has a smaller count
      exfalso
      have hidx : R[r]? = post[r - pre.length - 1]? := by
        rw [hl, List.getElem?_append_right (by omega)]
        obtain ⟨d, hd⟩ : ∃ d, r - pre.length = d + 1 := ⟨r - pre.length - 1, by omega⟩
        rw [hd, List.getElem?_cons_succ]
        rfl
      have hbound : r - pre.length - 1 < post.length := by omega
      have hy : R[r]? = some post[r - pre.length - 1] := by
        rw [hidx, List.getElem?_eq_getElem hbound]
      have h1 := hcount _ _ hy
      have h2 := hpost _ (List.getElem_mem hbound)
      simp only [hlt, if_true, lt_irrefl, if_false] at hcsp h1
      omega
    · exact heq
    · -- the entry at position r lies before `sp` and has the same count
      exfalso
      have hy : R[r]? = some pre[r] := by
        rw [hl, List.getElem?_append_left hgt, List.getElem?_eq_getElem hgt]
      have h1 := hcount _ _ hy
      have h2 := hpre _ (List.getElem_mem hgt)
      have hnlt : ¬ pre.length < r := by omega
      simp only [hnlt, if_false, lt_irrefl] at hcsp h1
      omega
  rw [hmod]
  exact ⟨hp, hp ▸ hsp⟩

/-- Handing one more lead to the entry at position `k mod |R|` leads to the next
round-robin state. -/
theorem roundRobin_next (R : List User) (cnt cnt2 : ObjectId → Nat) (c k : Nat) (sp : User)
    (hnd : (R.map (fun u => u._id)).Nodup)
    (hsp : R[k % R.length]? = some sp)
    (hcnt : ∀ x ∈ R, cnt2 x._id = cnt x._id + (if sp._id = x._id then 1 else 0))
    (hinv : RoundRobinState R cnt c k) :
    RoundRobinState R cnt2 c (k + 1) := by
  obtain ⟨q, r, hr, hk, hcount⟩ := hinv
  have hmod : k % R.length = r := by
    rw [hk, Nat.mul_add_mod]
    exact Nat.mod_eq_of_lt hr
  rw [hmod] at hsp
  have hidx : ∀ j x, R[j]? = some x → (sp._id = x._id ↔ j = r) := by
    intro j x hx
    constructor
    · intro hid
      have hj : j < R.length := by
        by_contra hcon
        rw [List.getElem?_eq_none (by omega)] at hx
        exact Option.noConfusion hx
      have h1 : (R.map (fun u => u._id))[j]? = some x._id := by
        rw [List.getElem?_map, hx]; rfl
      have h2 : (R.map (fun u => u._id))[r]? = some x._id := by
        rw [List.getElem?_map, hsp, ← hid]; rfl
      have hjl : j < (R.map (fun u => u._id)).length := by simpa using hj
      have hrl : r < (R.map (fun u => u._id)).length := by simpa using hr
      rw [List.getElem?_eq_getElem hjl] at h1
      rw [List.getElem?_eq_getElem hrl] at h2
      have heq : (R.map (fun u => u._id))[j] = (R.map (fun u => u._id))[r] := by
        rw [Option.some.inj h1, Option.some.inj h2]
      exact (List.Nodup.getElem_inj_iff hnd).mp heq
    · intro hj
      subst hj
      rw [hsp] at hx
      rw [Option.some.inj hx]
  by_cases hwrap : r + 1 < R.length
  · refine ⟨q, r + 1, hwrap, by omega, ?_⟩
    intro j x hx
    have hmem : x ∈ R := List.getElem?_mem hx
    rw [hcnt x hmem, hcount j x hx]
    have := hidx j x hx
    by_cases hjr : j = r
    · have hid : sp._id = x._id := this.mpr hjr
      simp only [hid, if_true]
      subst hjr
      simp
    · have hid : ¬ sp._id = x._id := fun h => hjr (this.mp h)
      simp only [hid, if_false]
      by_cases hlt : j < r
      · have : j < r + 1 := by omega
        simp [hlt, this]
      · have : ¬ j < r + 1 := by omega
        simp [hlt, this]
  · refine ⟨q + 1, 0, by omega, ?_, ?_⟩
    · have : r + 1 = R.length := by omega
      rw [Nat.mul_add, Nat.mul_one]
      omega
    · intro j x hx
      have hmem : x ∈ R := List.getElem?_mem hx
      have hj : j < R.length := by
        by_contra hcon
        rw [List.getElem?_eq_none (by omega)] at hx
        exact Option.noConfusion hx
      rw [hcnt x hmem, hcount j x hx]
      have := hidx j x hx
      by_cases hjr : j = r
      · have hid : sp._id = x._id := this.mpr hjr
        simp only [hid, if_true]
        subst hjr
        simp
        omega
      · have hid : ¬ sp._id = x._id := fun h => hjr (this.mp h)
        have hlt : j < r := by omega
        simp [hid, hlt]
        omega

/-! ## Properties of the assignment policy -/

/-- C1: on a non-empty roster `assignLeadToSalesperson` returns a roster member (never
null) whose active count is least among the under-capacity members (count below 10)
when there is one, and least among the whole roster when every member is at or
above 10. -/
theorem C1_least_loaded (users : List User) (leads : List Lead) (companyId : ObjectId)
    (hne : findSalespersons users companyId ≠ []) :
    ∃ sp ∈ findSalespersons users companyId,
      assignLeadToSalesperson users leads companyId = some sp._id ∧
      ((∃ s ∈ findSalespersons users companyId,
            activeCount users leads companyId s._id < 10) →
          activeCount users leads companyId sp._id < 10 ∧
          ∀ s ∈ findSalespersons users companyId,
            activeCount users leads companyId s._id < 10 →
            activeCount users leads companyId sp._id ≤ activeCount users leads companyId s._id) ∧
      ((∀ s ∈ findSalespersons users companyId,
            10 ≤ activeCount users leads companyId s._id) →
          ∀ s ∈ findSalespersons users companyId,
            activeCount users leads companyId sp._id
              ≤ activeCount users leads companyId s._id) := by
  obtain ⟨pre, sp, post, hl, hres, hunder, hover⟩ := assign_split users leads companyId hne
  have hmem : ∀ s ∈ findSalespersons users companyId, s ∈ pre ∨ s = sp ∨ s ∈ post := by
    intro s hs
    rw [hl] at hs
    simpa using hs
  refine ⟨sp, by rw [hl]; simp, hres, ?_, ?_⟩
  · intro hex
    obtain ⟨hsp, hpre, hpost⟩ := hunder hex
    refine ⟨hsp, ?_⟩
    intro s hs hlt
    rcases hmem s hs with h | h | h
    · exact le_of_lt (hpre s h hlt)
    · subst h; exact le_refl _
    · exact hpost s h hlt
  · intro hall s hs
    obtain ⟨hpre, hpost⟩ := hover hall
    rcases hmem s hs with h | h | h
    · exact le_of_lt (hpre s h)
    · subst h; exact le_refl _
    · exact hpost s h

theorem C1_least_loaded_witness :
    findSalespersons sampleUsers 1 ≠ [] ∧
    ∃ sp ∈ findSalespersons sampleUsers 1,
      assignLeadToSalesperson sampleUsers [sampleLead 1 "1" (some 11) "new"] 1 = some sp._id ∧
      ((∃ s ∈ findSalespersons sampleUsers 1,
            activeCount sampleUsers [sampleLead 1 "1" (some 11) "new"] 1 s._id < 10) →
          activeCount sampleUsers [sampleLead 1 "1" (some 11) "new"] 1 sp._id < 10 ∧
          ∀ s ∈ findSalespersons sampleUsers 1,
            activeCount sampleUsers [sampleLead 1 "1" (some 11) "new"] 1 s._id < 10 →
            activeCount sampleUsers [sampleLead 1 "1" (some 11) "new"] 1 sp._id
              ≤ activeCount sampleUsers [sampleLead 1 "1" (some 11) "new"] 1 s._id) ∧
      ((∀ s ∈ findSalespersons sampleUsers 1,
            10 ≤ activeCount sampleUsers [sampleLead 1 "1" (some 11) "new"] 1 s._id) →
          ∀ s ∈ findSalespersons sampleUsers 1,
            activeCount sampleUsers [sampleLead 1 "1" (some 11) "new"] 1 sp._id
              ≤ activeCount sampleUsers [sampleLead 1 "1" (some 11) "new"] 1 s._id) :=
  ⟨by decide, C1_least_loaded sampleUsers [sampleLead 1 "1" (some 11) "new"] 1 (by decide)⟩

/-- C2: on a non-empty roster (which the query returns in ascending creation time) the
assignee is the first entry, in roster order, among the entries of the selected group
that are tied for the least count; hence no tied entry was created earlier. -/
theorem C2_tie_earliest_created (users : List User) (leads : List Lead)
    (companyId : ObjectId) (hne : findSalespersons users companyId ≠ []) :
    (findSalespersons users companyId).Pairwise (fun a b => a.createdAt ≤ b.createdAt) ∧
    ∃ pre sp post, findSalespersons users companyId = pre ++ sp :: post ∧
      assignLeadToSalesperson users leads companyId = some sp._id ∧
      ((∃ t ∈ findSalespersons users companyId,
          activeCount users leads companyId t._id < 10) →
        activeCount users leads companyId sp._id < 10) ∧
      (∀ x ∈ pre,
        ((∃ t ∈ findSalespersons users companyId,
            activeCount users leads companyId t._id < 10) →
          activeCount users leads companyId x._id < 10) →
        activeCount users leads companyId sp._id < activeCount users leads companyId x._id) ∧
      (∀ x ∈ post,
        ((∃ t ∈ findSalespersons users companyId,
            activeCount users leads companyId t._id < 10) →
          activeCount users leads companyId x._id < 10) →
        activeCount users leads companyId sp._id ≤ activeCount users leads companyId x._id) ∧
      (∀ s ∈ findSalespersons users companyId,
        ((∃ t ∈ findSalespersons users companyId,
            activeCount users leads companyId t._id < 10) →
          activeCount users leads companyId s._id < 10) →
        activeCount users leads companyId s._id = activeCount users leads companyId sp._id →
        sp.createdAt ≤ s.createdAt) := by
  refine ⟨findSalespersons_sorted users companyId, ?_⟩
  obtain ⟨pre, sp, post, hl, hres, hpre, hpost⟩ := assign_first_min users leads companyId hne
  obtain ⟨_, _, _, hl2, hres2, hunder, -⟩ := assign_split users leads companyId hne
  have hsorted := findSalespersons_sorted users companyId
  rw [hl] at hsorted
  refine ⟨pre, sp, post, hl, hres, ?_, ?_, ?_, ?_⟩
  · intro hex
    have h1 := (hunder hex).1
    have hid : sp._id = _ := Option.some.inj (hres.symm.trans hres2)
    rw [hid]
    exact h1
  · intro x hx _
    exact hpre x hx
  · intro x hx _
    exact hpost x hx
  · intro s hs _ heq
    rw [hl] at hs
    rcases List.mem_append.mp hs with h | h
    · have := hpre s h
      omega
    · rcases List.mem_cons.mp h with h | h
      · subst h; exact le_refl _
      · have hp := (List.pairwise_append.mp hsorted).2.1
        exact List.rel_of_pairwise_cons hp h

theorem C2_tie_earliest_created_witness :
    findSalespersons sampleUsers 1 ≠ [] ∧
    ((findSalespersons sampleUsers 1).Pairwise (fun a b => a.createdAt ≤ b.createdAt) ∧
    ∃ pre sp post, findSalespersons sampleUsers 1 = pre ++ sp :: post ∧
      assignLeadToSalesperson sampleUsers [] 1 = some sp._id ∧
      ((∃ t ∈ findSalespersons sampleUsers 1, activeCount sampleUsers [] 1 t._id < 10) →
        activeCount sampleUsers [] 1 sp._id < 10) ∧
      (∀ x ∈ pre,
        ((∃ t ∈ findSalespersons sampleUsers 1, activeCount sampleUsers [] 1 t._id < 10) →
          activeCount sampleUsers [] 1 x._id < 10) →
        activeCount sampleUsers [] 1 sp._id < activeCount sampleUsers [] 1 x._id) ∧
      (∀ x ∈ post,
        ((∃ t ∈ findSalespersons sampleUsers 1, activeCount sampleUsers [] 1 t._id < 10) →
          activeCount sampleUsers [] 1 x._id < 10) →
        activeCount sampleUsers [] 1 sp._id ≤ activeCount sampleUsers [] 1 x._id) ∧
      (∀ s ∈ findSalespersons sampleUsers 1,
        ((∃ t ∈ findSalespersons sampleUsers 1, activeCount sampleUsers [] 1 t._id < 10) →
          activeCount sampleUsers [] 1 s._id < 10) →
        activeCount sampleUsers [] 1 s._id = activeCount sampleUsers [] 1 sp._id →
        sp.createdAt ≤ s.createdAt)) :=
  ⟨by decide, C2_tie_earliest_created sampleUsers [] 1 (by decide)⟩

/-- C3: `assignLeadToSalesperson` returns null exactly when the company has no active
salesperson; the embedding is a total function, so on a non-empty roster it returns
an assignee. -/
theorem C3_null_iff_no_active_salesperson (users : List User) (leads : List Lead)
    (companyId : ObjectId) :
    assignLeadToSalesperson users leads companyId = none ↔
      ∀ u ∈ users,
        ¬(u.role = "salesperson" ∧ u.companyId = some companyId ∧ u.isActive = true) := by
  constructor
  · intro hnone u hu hcond
    have hmem : u ∈ findSalespersons users companyId :=
      (mem_findSalespersons users companyId u).mpr ⟨hu, hcond⟩
    have hne : findSalespersons users companyId ≠ [] := List.ne_nil_of_mem hmem
    obtain ⟨_, sp, _, _, hres, _⟩ := assign_split users leads companyId hne
    rw [hnone] at hres
    exact Option.noConfusion hres
  · intro hall
    have hnil : findSalespersons users companyId = [] := by
      apply List.eq_nil_iff_forall_not_mem.mpr
      intro u hu
      have := (mem_findSalespersons users companyId u).mp hu
      exact hall u this.1 this.2
    unfold assignLeadToSalesperson
    simp [hnil]

/-- C4: the count used for a roster member is the number of stored leads assigned to
that member whose status is neither `booking_done` nor `dropped` (0 when there are
none); and two lead stores that differ only in leads with a terminal status (added,
removed, or changed while staying terminal) give the same assignee. -/
theorem C4_active_count_ignores_terminal (users : List User) (leads leads2 : List Lead)
    (companyId : ObjectId) (sp : User) (hsp : sp ∈ findSalespersons users companyId)
    (hsame :
      leads.filter (fun l => decide (l.status ≠ "booking_done" ∧ l.status ≠ "dropped"))
        = leads2.filter
            (fun l => decide (l.status ≠ "booking_done" ∧ l.status ≠ "dropped"))) :
    activeCount users leads companyId sp._id
      = (leads.filter (fun l => decide (l.assignedTo = some sp._id ∧
            l.status ≠ "booking_done" ∧ l.status ≠ "dropped"))).length ∧
    assignLeadToSalesperson users leads companyId
      = assignLeadToSalesperson users leads2 companyId := by
  have hpred : (fun l : Lead => !(terminalStatuses.contains l.status))
      = (fun l : Lead => decide (l.status ≠ "booking_done" ∧ l.status ≠ "dropped")) := by
    funext l
    cases h : terminalStatuses.contains l.status with
    | false =>
      have := (terminal_contains_false l.status).mp h
      simp [this]
    | true =>
      have hn : ¬(l.status ≠ "booking_done" ∧ l.status ≠ "dropped") := fun hc =>
        Bool.noConfusion (h.symm.trans ((terminal_contains_false l.status).mpr hc))
      simp only [Bool.not_true]
      exact (decide_eq_false hn).symm
  constructor
  · rw [activeCount_eq users leads companyId sp hsp]
    congr 2
    funext l
    have := congrFun hpred l
    rw [this]
    by_cases h1 : l.assignedTo = some sp._id <;>
      by_cases h2 : (l.status ≠ "booking_done" ∧ l.status ≠ "dropped") <;> simp [h1, h2]
  · have hagg : ∀ ids, aggregateActiveCounts leads ids = aggregateActiveCounts leads2 ids := by
      intro ids
      unfold aggregateActiveCounts
      rw [← matchActive_filter leads ids, ← matchActive_filter leads2 ids, hpred, hsame]
    unfold assignLeadToSalesperson
    simp only [hagg]

theorem C4_active_count_ignores_terminal_witness :
    (⟨11, "salesperson", some 1, true, 100⟩ : User) ∈ findSalespersons sampleUsers 1 ∧
    ([sampleLead 1 "1" (some 11) "new", sampleLead 1 "2" (some 12) "dropped"].filter
        (fun l => decide (l.status ≠ "booking_done" ∧ l.status ≠ "dropped"))
      = [sampleLead 1 "3" (some 11) "booking_done", sampleLead 1 "1" (some 11) "new"].filter
        (fun l => decide (l.status ≠ "booking_done" ∧ l.status ≠ "dropped"))) ∧
    activeCount sampleUsers
        [sampleLead 1 "1" (some 11) "new", sampleLead 1 "2" (some 12) "dropped"] 1 11
      = ([sampleLead 1 "1" (some 11) "new", sampleLead 1 "2" (some 12) "dropped"].filter
          (fun l => decide (l.assignedTo = some 11 ∧
            l.status ≠ "booking_done" ∧ l.status ≠ "dropped"))).length ∧
    assignLeadToSalesperson sampleUsers
        [sampleLead 1 "1" (some 11) "new", sampleLead 1 "2" (some 12) "dropped"] 1
      = assignLeadToSalesperson sampleUsers
        [sampleLead 1 "3" (some 11) "booking_done", sampleLead 1 "1" (some 11) "new"] 1 :=
  ⟨by decide, by decide,
    C4_active_count_ignores_terminal sampleUsers
      [sampleLead 1 "1" (some 11) "new", sampleLead 1 "2" (some 12) "dropped"]
      [sampleLead 1 "3" (some 11) "booking_done", sampleLead 1 "1" (some 11) "new"]
      1 ⟨11, "salesperson", some 1, true, 100⟩ (by decide) (by decide)⟩

/-- C5: for every N >= 1, starting from a company with N active salespersons and an
empty lead store, after N + 1 sequential steps of assign-then-insert (status `new`)
every salesperson's active count exceeds any other's, so also the least one, by at
most ceil((N + 1) / N). -/
theorem C5_round_robin_balance (N : Nat) (hN : 1 ≤ N) (users : List User)
    (companyId : ObjectId) (docs : List Lead)
    (hroster : (findSalespersons users companyId).length = N)
    (hdocs : docs.length = N + 1) :
    ∀ s ∈ findSalespersons users companyId, ∀ t ∈ findSalespersons users companyId,
      activeCount users (docs.foldl (assignThenInsert users companyId) []) companyId s._id
        ≤ activeCount users (docs.foldl (assignThenInsert users companyId) []) companyId t._id
          + ⌈((N : ℚ) + 1) / (N : ℚ)⌉₊ := by
  intro s hs t ht
  have hb := balanced_foldl users companyId docs [] (balanced_nil users companyId) s hs t ht
  have hpos : (0 : ℚ) < ((N : ℚ) + 1) / (N : ℚ) := by
    have hN' : (0 : ℚ) < (N : ℚ) := by exact_mod_cast hN
    positivity
  have hceil : 1 ≤ ⌈((N : ℚ) + 1) / (N : ℚ)⌉₊ := Nat.one_le_ceil_iff.mpr hpos
  omega

theorem C5_round_robin_balance_witness :
    1 ≤ 3 ∧ (findSalespersons sampleUsers 1).length = 3 ∧
    [sampleLead 1 "1" none "", sampleLead 1 "2" none "", sampleLead 1 "3" none "",
      sampleLead 1 "4" none ""].length = 3 + 1 ∧
    ∀ s ∈ findSalespersons sampleUsers 1, ∀ t ∈ findSalespersons sampleUsers 1,
      activeCount sampleUsers
          ([sampleLead 1 "1" none "", sampleLead 1 "2" none "", sampleLead 1 "3" none "",
            sampleLead 1 "4" none ""].foldl (assignThenInsert sampleUsers 1) []) 1 s._id
        ≤ activeCount sampleUsers
          ([sampleLead 1 "1" none "", sampleLead 1 "2" none "", sampleLead 1 "3" none "",
            sampleLead 1 "4" none ""].foldl (assignThenInsert sampleUsers 1) []) 1 t._id
          + ⌈(((3 : Nat) : ℚ) + 1) / ((3 : Nat) : ℚ)⌉₊ :=
  ⟨by decide, by decide, by decide,
    C5_round_robin_balance 3 (by decide) sampleUsers 1
      [sampleLead 1 "1" none "", sampleLead 1 "2" none "", sampleLead 1 "3" none "",
        sampleLead 1 "4" none ""] (by decide) (by decide)⟩

/-! ## Lemmas on the store and the controllers -/

theorem assignCall_leads (db : Db) (companyId : ObjectId) :
    (assignCall db companyId).1.leads = db.leads := rfl

theorem assignCall_users (db : Db) (companyId : ObjectId) :
    (assignCall db companyId).1.users = db.users := rfl

theorem safeUnlink_leads (db : Db) (path : String) : (safeUnlink db path).leads = db.leads := by
  unfold safeUnlink
  split <;> rfl

theorem safeUnlink_users (db : Db) (path : String) : (safeUnlink db path).users = db.users := by
  unfold safeUnlink
  split <;> rfl

/-- What `Lead.create` does to the lead collection: nothing on an error; on success
the new lead is appended, and it clashed with no stored lead. -/
theorem leadCreate_cases (db : Db) (doc : LeadDoc) :
    ((leadCreate db doc).1.leads = db.leads ∧ (leadCreate db doc).1.users = db.users ∧
      ∃ e, (leadCreate db doc).2 = .error e) ∨
    (∃ lead, buildLead doc = .ok lead ∧ violatesUniqueIndex db.leads lead = false ∧
      (leadCreate db doc).2 = .ok lead ∧ (leadCreate db doc).1.leads = db.leads ++ [lead] ∧
      (leadCreate db doc).1.users = db.users) := by
  unfold leadCreate
  cases hb : buildLead doc with
  | error e => exact Or.inl ⟨rfl, rfl, e, rfl⟩
  | ok lead =>
    cases hv : violatesUniqueIndex db.leads lead with
    | true => exact Or.inl ⟨by simp [hv], by simp [hv], .duplicateKey, by simp [hv]⟩
    | false => exact Or.inr ⟨lead, rfl, hv, by simp [hv], by simp [hv], by simp [hv]⟩

theorem unique_append (leads : List Lead) (lead : Lead) (hu : UniquePhones leads)
    (hv : violatesUniqueIndex leads lead = false) : UniquePhones (leads ++ [lead]) := by
  unfold UniquePhones at *
  rw [List.pairwise_append]
  refine ⟨hu, List.pairwise_singleton _ _, ?_⟩
  intro a ha b hb hab
  rw [List.mem_singleton] at hb
  subst hb
  unfold violatesUniqueIndex at hv
  rw [List.any_eq_false] at hv
  have := hv a ha
  simp only [Bool.and_eq_true, beq_iff_eq, not_and] at this
  exact this hab.1 hab.2

theorem leadCreate_unique (db : Db) (doc : LeadDoc) (hu : UniquePhones db.leads) :
    UniquePhones (leadCreate db doc).1.leads := by
  rcases leadCreate_cases db doc with ⟨h, -, -⟩ | ⟨lead, -, hv, -, h, -⟩
  · rw [h]; exact hu
  · rw [h]; exact unique_append db.leads lead hu hv

theorem activityLogCreate_leads (db : Db) (doc : ActivityLogDoc) :
    (activityLogCreate db doc).1.leads = db.leads := by
  unfold activityLogCreate
  split
  · split <;> rfl
  · rfl

theorem createLead_unique (db : Db) (req : CreateLeadReq) (hu : UniquePhones db.leads) :
    UniquePhones (createLead db req).1.leads := by
  unfold createLead
  cases hc : resolveCompanyId req with
  | none => exact hu
  | some c =>
    by_cases hf : (!req.body.firstName.truthy || !req.body.phone.truthy) = true
    · simp only [hf, if_true]; exact hu
    · simp only [hf]
      exact leadCreate_unique _ _ (by rw [assignCall_leads]; exact hu)

theorem importRow_unique (companyId : ObjectId) (st : Db × ImportAcc) (index : Nat) (r : Row)
    (hu : UniquePhones st.1.leads) : UniquePhones (importRow companyId st index r).1.leads := by
  unfold importRow
  cases hp : importPayload companyId r with
  | none => exact hu
  | some payload =>
    by_cases hf : payload.phone = .str ""
    · simp only [hf, if_true]; exact hu
    · simp only [hf, if_false]
      exact leadCreate_unique _ _ (by rw [assignCall_leads]; exact hu)

theorem importRows_unique (companyId : ObjectId) (rows : List Row) (st : Db × ImportAcc)
    (start : Nat) (hu : UniquePhones st.1.leads) :
    UniquePhones (importRows companyId st start rows).1.leads := by
  induction rows generalizing st start with
  | nil => exact hu
  | cons r rest ih => exact ih _ _ (importRow_unique companyId st start r hu)

theorem companyFindById_leads (db : Db) (companyId : ObjectId) :
    (companyFindById db companyId).1.leads = db.leads := rfl

theorem companyFindOne_leads (db : Db) (pageId : JsVal) :
    (companyFindOne db pageId).1.leads = db.leads := rfl

theorem importCsv_unique (db : Db) (req : ImportReq) (hu : UniquePhones db.leads) :
    UniquePhones (importCsv db req).1.leads := by
  unfold importCsv
  cases hfile : req.file with
  | none => exact hu
  | some file =>
    cases hcid : req.companyId with
    | none => simp only [safeUnlink_leads]; exact hu
    | some param =>
      cases param with
      | malformed text =>
        dsimp only
        by_cases ht : text = ""
        · rw [if_pos ht, safeUnlink_leads]; exact hu
        · rw [if_neg ht]; exact hu
      | valid companyId =>
        cases hfound : (companyFindById db companyId).2 with
        | none => simp only [hfound, safeUnlink_leads]; exact hu
        | some company =>
          simp only [hfound]
          by_cases hext : toLowerCase (extname file.originalname) = ".csv" ∨
              toLowerCase (extname file.originalname) = ".xlsx" ∨
              toLowerCase (extname file.originalname) = ".xls"
          · simp only [hext, if_true]
            cases hparsed : req.parsed with
            | error e => simp only [safeUnlink_leads]; exact hu
            | ok results =>
              simp only [safeUnlink_leads]
              exact importRows_unique _ _ _ _ hu
          · simp only [hext, if_false, safeUnlink_leads]; exact hu

theorem metaCatch_leads (db : Db) : (metaCatch db).1.leads = db.leads := by
  exact activityLogCreate_leads db _

theorem metaChange_unique (graph : GraphApi) (company : Company) (db : Db)
    (change : MetaChange) (hu : UniquePhones db.leads) :
    UniquePhones (metaChange graph company db change).1.leads := by
  unfold metaChange
  by_cases hl : (!change.leadgenId.truthy) = true
  · simp only [hl, if_true]; exact hu
  · simp only [hl]
    cases hg : graph change.leadgenId.toJsString fallbackAccessToken with
    | error e => simp only [metaCatch_leads]; exact hu
    | ok fieldData =>
      simp only
      have h := leadCreate_unique (assignCall
          { db with trace := db.trace ++
            [Effect.graphFetch change.leadgenId.toJsString fallbackAccessToken] }
          company._id).1
        (metaLeadDoc company (assignCall
          { db with trace := db.trace ++
            [Effect.graphFetch change.leadgenId.toJsString fallbackAccessToken] }
          company._id).2 (List.foldl extractField ⟨"—", "", "", ""⟩ fieldData) change.leadgenId)
        (by rw [assignCall_leads]; exact hu)
      cases hcr : (leadCreate (assignCall
          { db with trace := db.trace ++
            [Effect.graphFetch change.leadgenId.toJsString fallbackAccessToken] }
          company._id).1
        (metaLeadDoc company (assignCall
          { db with trace := db.trace ++
            [Effect.graphFetch change.leadgenId.toJsString fallbackAccessToken] }
          company._id).2 (List.foldl extractField ⟨"—", "", "", ""⟩ fieldData)
          change.leadgenId)).2 with
      | error e => simp only [metaCatch_leads]; exact h
      | ok lead =>
        simp only
        cases hlog : (activityLogCreate (leadCreate (assignCall
            { db with trace := db.trace ++
              [Effect.graphFetch change.leadgenId.toJsString fallbackAccessToken] }
            company._id).1
          (metaLeadDoc company (assignCall
            { db with trace := db.trace ++
              [Effect.graphFetch change.leadgenId.toJsString fallbackAccessToken] }
            company._id).2 (List.foldl extractField ⟨"—", "", "", ""⟩ fieldData)
            change.leadgenId)).1 (webhookLogDoc "webhook:lead_received")).2 with
        | error e => simp only [metaCatch_leads, activityLogCreate_leads]; exact h
        | ok lg => simp only [activityLogCreate_leads]; exact h

theorem metaChanges_unique (graph : GraphApi) (company : Company) (changes : List MetaChange)
    (db : Db) (hu : UniquePhones db.leads) :
    UniquePhones (metaChanges graph company db changes).1.leads := by
  induction changes generalizing db with
  | nil => exact hu
  | cons c rest ih =>
    unfold metaChanges
    have h := metaChange_unique graph company db c hu
    by_cases hs : (metaChange graph company db c).2 = true
    · simp only [hs, if_true]; exact ih _ h
    · simp only [hs, if_false]; exact h

theorem metaEntries_unique (graph : GraphApi) (entries : List MetaEntry) (db : Db)
    (hu : UniquePhones db.leads) : UniquePhones (metaEntries graph db entries).1.leads := by
  induction entries generalizing db with
  | nil => exact hu
  | cons e rest ih =>
    unfold metaEntries
    by_cases hid : (!e.id.truthy) = true
    · simp only [hid, if_true]; exact ih db hu
    · simp only [hid]
      cases hfound : (companyFindOne db e.id).2 with
      | none => exact ih _ hu
      | some company =>
        simp only
        have h := metaChanges_unique graph company e.changes (companyFindOne db e.id).1 hu
        by_cases hs : (metaChanges graph company (companyFindOne db e.id).1 e.changes).2 = true
        · simp only [hs, if_true]; exact ih _ h
        · simp only [hs, if_false]; exact h

theorem metaWebhook_unique (graph : GraphApi) (db : Db) (req : MetaReq)
    (hu : UniquePhones db.leads) : UniquePhones (metaWebhook graph db req).1.leads := by
  unfold metaWebhook
  by_cases hm : req.method = "GET"
  · simp only [hm, if_true]
    split <;> exact hu
  · simp only [hm, if_false]
    cases he : req.entry with
    | none => exact hu
    | some entries => exact metaEntries_unique graph _ db hu

theorem googleWebhook_unique (db : Db) (req : GoogleReq) (hu : UniquePhones db.leads) :
    UniquePhones (googleWebhook db req).1.leads := by
  unfold googleWebhook
  by_cases hp : (!req.pageId.truthy) = true
  · simp only [hp, if_true]; exact hu
  · simp only [hp]
    cases hfound : (companyFindOne db req.pageId).2 with
    | none => exact hu
    | some company =>
      exact leadCreate_unique _ _ (by rw [assignCall_leads]; exact hu)

theorem ingest_unique (db : Db) (call : IngestCall) (hu : UniquePhones db.leads) :
    UniquePhones (ingest db call).leads := by
  cases call with
  | manual req => exact createLead_unique db req hu
  | bulk req => exact importCsv_unique db req hu
  | meta graph req => exact metaWebhook_unique graph db req hu
  | google req => exact googleWebhook_unique db req hu

theorem ingest_foldl_unique (calls : List IngestCall) (db : Db) (hu : UniquePhones db.leads) :
    UniquePhones (calls.foldl ingest db).leads := by
  induction calls generalizing db with
  | nil => exact hu
  | cons c rest ih => exact ih _ (ingest_unique db c hu)

/-- The rule table read with an arbitrary keyword test `p`. -/
theorem find_sourceRules (p : String → Bool) :
    (match sourceRules.find? (fun rule => rule.1.any p) with
      | some rule => rule.2
      | none => "manual")
    = (if p "facebook" || p "meta" then "facebook"
        else if p "google" then "google"
        else if p "walk" then "walk_in"
        else if p "agent" || p "broker" then "agent"
        else if p "csv" then "csv"
        else "manual") := by
  simp only [sourceRules, List.find?, List.any, Bool.or_false]
  cases p "facebook" <;> cases p "meta" <;> cases p "google" <;> cases p "walk" <;>
    cases p "agent" <;> cases p "broker" <;> cases p "csv" <;> rfl

/-- What a validated lead records of the document it was built from. -/
theorem buildLead_ok (doc : LeadDoc) (lead : Lead) (h : buildLead doc = .ok lead) :
    doc.companyId = some lead.companyId ∧ castTrimmed doc.phone = some lead.phone ∧
      lead.status = "new" ∧ lead.assignedTo = doc.assignedTo := by
  unfold buildLead at h
  split at h
  · cases h
  · split at h
    · rename_i c f ph hc hf hph
      simp only at h
      split at h
      · cases h
      · split at h
        · cases h
        · split at h
          · cases h
          · injection h with h
            subst h
            exact ⟨hc, hph, rfl, rfl⟩
    · cases h

/-- Validation does not look at the assignee. -/
theorem buildLead_assignedTo (doc : LeadDoc) (a : Option ObjectId) :
    buildLead { doc with assignedTo := a }
      = (buildLead doc).map (fun l => { l with assignedTo := a }) := by
  unfold buildLead
  simp only
  split
  · rfl
  · split
    · split
      · rfl
      · split
        · rfl
        · split
          · rfl
          · rfl
    · rfl

theorem createLeadDoc_assignedTo (req : CreateLeadReq) (c : ObjectId) (a : Option ObjectId) :
    createLeadDoc req c a = { createLeadDoc req c none with assignedTo := a } := rfl

theorem createLeadDoc_phone (req : CreateLeadReq) (c : ObjectId) (a : Option ObjectId) :
    (createLeadDoc req c a).phone = .str (jsTrim req.body.phone.toJsString) ∧
      (createLeadDoc req c a).companyId = some c := ⟨rfl, rfl⟩

/-- A request that passes the two guards of lines 61-62 goes on to the assignment
query and to `Lead.create`; the response follows the outcome of the latter. -/
theorem createLead_valid (db : Db) (req : CreateLeadReq) (c : ObjectId)
    (hc : resolveCompanyId req = some c)
    (hv : (!req.body.firstName.truthy || !req.body.phone.truthy) = false) :
    createLead db req
      = ((leadCreate (assignCall db c).1 (createLeadDoc req c (assignCall db c).2)).1,
          match (leadCreate (assignCall db c).1 (createLeadDoc req c (assignCall db c).2)).2 with
          | .ok lead => ⟨201, .leadCreated lead⟩
          | .error .duplicateKey =>
            ⟨409, .message "Duplicate lead (phone already exists for company)"⟩
          | .error .validation => ⟨500, .message "Server error"⟩) := by
  unfold createLead
  simp only [hc, hv]
  rfl

theorem leadCreate_duplicate (db : Db) (doc : LeadDoc) (lead : Lead)
    (hb : buildLead doc = .ok lead) (hv : violatesUniqueIndex db.leads lead = true) :
    (leadCreate db doc).2 = .error .duplicateKey ∧ (leadCreate db doc).1.leads = db.leads := by
  unfold leadCreate
  simp [hb, hv]

/-- What a 201 answer of `createLead` tells. -/
theorem createLead_created (db : Db) (req : CreateLeadReq)
    (h201 : (createLead db req).2.status = 201) :
    ∃ c lead, resolveCompanyId req = some c ∧
      (!req.body.firstName.truthy || !req.body.phone.truthy) = false ∧
      buildLead (createLeadDoc req c (assignCall db c).2) = .ok lead ∧
      violatesUniqueIndex db.leads lead = false ∧
      (createLead db req).2.body = .leadCreated lead ∧
      (createLead db req).1.leads = db.leads ++ [lead] ∧
      (createLead db req).1.users = db.users := by
  cases hc : resolveCompanyId req with
  | none =>
    exfalso
    unfold createLead at h201
    simp [hc] at h201
  | some c =>
    cases hv : (!req.body.firstName.truthy || !req.body.phone.truthy) with
    | true =>
      exfalso
      unfold createLead at h201
      simp [hc, hv] at h201
    | false =>
      rw [createLead_valid db req c hc hv] at h201 ⊢
      rcases leadCreate_cases (assignCall db c).1 (createLeadDoc req c (assignCall db c).2)
        with ⟨-, -, e, he⟩ | ⟨lead, hb, hviol, hok, hleads, husers⟩
      · exfalso
        rw [he] at h201
        cases e <;> simp at h201
      · refine ⟨c, lead, rfl, rfl, hb, ?_, ?_, ?_, ?_⟩
        · rw [assignCall_leads] at hviol; exact hviol
        · simp only [hok]
        · simp only [hleads, assignCall_leads]
        · simp only [husers, assignCall_users]

theorem findSalespersons_nodup (users : List User) (companyId : ObjectId)
    (hnd : (users.map (fun u => u._id)).Nodup) :
    ((findSalespersons users companyId).map (fun u => u._id)).Nodup := by
  unfold findSalespersons
  have hperm := (List.perm_insertionSort (fun a b : User => a.createdAt ≤ b.createdAt)
    (users.filter (fun u =>
      u.role == "salesperson" && u.companyId == some companyId && u.isActive))).map
    (fun u => u._id)
  rw [hperm.nodup_iff]
  exact hnd.sublist ((List.filter_sublist _).map _)

theorem roundRobinRun_nil (users : List User) (companyId : ObjectId) (base : List Lead)
    (c : Nat) (hne : findSalespersons users companyId ≠ [])
    (hsame : ∀ s ∈ findSalespersons users companyId,
      activeCount users base companyId s._id = c) :
    RoundRobinRun users companyId base c [] := by
  refine ⟨⟨0, 0, List.length_pos.mpr hne, by simp, ?_⟩, ?_⟩
  · intro j x hx
    rw [List.append_nil, hsame x (List.getElem?_mem hx)]
    simp
  · intro i l hl
    simp at hl

/-- One more lead, assigned by the policy and stored with status `new`, keeps the
round-robin invariant. -/
theorem roundRobinRun_step (users : List User) (companyId : ObjectId) (base : List Lead)
    (c : Nat) (created : List Lead) (lead : Lead)
    (hne : findSalespersons users companyId ≠ [])
    (hnd : (users.map (fun u => u._id)).Nodup)
    (hassign : lead.assignedTo = assignLeadToSalesperson users (base ++ created) companyId)
    (hstatus : lead.status = "new")
    (hinv : RoundRobinRun users companyId base c created) :
    RoundRobinRun users companyId base c (created ++ [lead]) := by
  obtain ⟨hstate, hpos⟩ := hinv
  obtain ⟨pre, sp, post, hl, hres, hpre, hpost⟩ :=
    assign_first_min users (base ++ created) companyId hne
  obtain ⟨-, hsp⟩ := roundRobin_pick _ _ c created.length pre post sp hl hpre hpost hstate
  have hlead : lead.assignedTo = some sp._id := by rw [hassign, hres]
  constructor
  · rw [List.length_append, List.length_singleton, ← List.append_assoc]
    refine roundRobin_next _ _ _ c created.length sp
      (findSalespersons_nodup users companyId hnd) hsp ?_ hstate
    intro x hx
    rw [activeCount_append users (base ++ created) companyId lead x hx, hlead, hstatus]
    have hnew : terminalStatuses.contains "new" = false := by decide
    simp only [hnew, and_true, Option.some.injEq]
  · intro i l hil
    by_cases hi : i < created.length
    · rw [List.getElem?_append_left hi] at hil
      exact hpos i l hil
    · rw [List.getElem?_append_right (by omega)] at hil
      have hi0 : i - created.length = 0 := by
        by_contra hcon
        obtain ⟨d, hd⟩ : ∃ d, i - created.length = d + 1 :=
          ⟨i - created.length - 1, by omega⟩
        rw [hd] at hil
        simp at hil
      rw [hi0] at hil
      have hl2 : lead = l := by simpa using hil
      have hik : i = created.length := by omega
      rw [← hl2, hlead, hik, hsp]
      rfl

/-- What one iteration of the import loop does to the collections: the users are
untouched, and either the leads are untouched or one lead is appended, assigned by
the policy and stored with status `new`. -/
theorem importRow_shape (companyId : ObjectId) (st : Db × ImportAcc) (index : Nat) (r : Row) :
    (importRow companyId st index r).1.users = st.1.users ∧
    ((importRow companyId st index r).1.leads = st.1.leads ∨
      ∃ lead, (importRow companyId st index r).1.leads = st.1.leads ++ [lead] ∧
        lead.assignedTo = assignLeadToSalesperson st.1.users st.1.leads companyId ∧
        lead.status = "new") := by
  unfold importRow
  cases hp : importPayload companyId r with
  | none => exact ⟨rfl, Or.inl rfl⟩
  | some payload =>
    dsimp only
    by_cases hf : payload.phone = .str ""
    · rw [if_pos hf]
      exact ⟨rfl, Or.inl rfl⟩
    · rw [if_neg hf]
      rcases leadCreate_cases (assignCall st.1 companyId).1
          { payload with assignedTo := (assignCall st.1 companyId).2 }
        with ⟨hl, hu, -⟩ | ⟨lead, hb, -, -, hl, hu⟩
      · exact ⟨by rw [hu, assignCall_users], Or.inl (by rw [hl, assignCall_leads])⟩
      · obtain ⟨-, -, hst, hasg⟩ := buildLead_ok _ _ hb
        refine ⟨by rw [hu, assignCall_users], Or.inr ⟨lead, by rw [hl, assignCall_leads], ?_, hst⟩⟩
        rw [hasg]
        rfl

theorem importRows_roundRobin (users : List User) (companyId : ObjectId) (base : List Lead)
    (c : Nat) (hne : findSalespersons users companyId ≠ [])
    (hnd : (users.map (fun u => u._id)).Nodup) (rows : List Row) (st : Db × ImportAcc)
    (start : Nat) (created : List Lead) (husers : st.1.users = users)
    (hleads : st.1.leads = base ++ created)
    (hinv : RoundRobinRun users companyId base c created) :
    ∃ created2, (importRows companyId st start rows).1.leads = base ++ created2 ∧
      RoundRobinRun users companyId base c created2 := by
  induction rows generalizing st start created with
  | nil => exact ⟨created, hleads, hinv⟩
  | cons r rest ih =>
    obtain ⟨hu, hshape⟩ := importRow_shape companyId st start r
    rcases hshape with hsame | ⟨lead, happ, hasg, hst⟩
    · exact ih (importRow companyId st start r) (start + 1) created (by rw [hu, husers])
        (by rw [hsame, hleads]) hinv
    · refine ih (importRow companyId st start r) (start + 1) (created ++ [lead])
        (by rw [hu, husers]) (by rw [happ, hleads, List.append_assoc]) ?_
      refine roundRobinRun_step users companyId base c created lead hne hnd ?_ hst hinv
      rw [hasg, husers, hleads]

/-! ## Properties of the store and the controllers -/

/-- C6: a bulk import hands its leads out round-robin. For a company with N >= 1
active salespersons (distinct user ids) who all start with the same active count,
the leads that `importCsv` adds to the collection are, in order of creation, assigned
to the roster positions 0, 1, ..., N - 1, 0, 1, ...: the lead number i + 1 goes to the
position i mod N, however many leads are created. -/
theorem C6_import_round_robin (db : Db) (req : ImportReq) (companyId : ObjectId) (c : Nat)
    (hcid : req.companyId = some (.valid companyId))
    (hN : 1 ≤ (findSalespersons db.users companyId).length)
    (hnd : (db.users.map (fun u => u._id)).Nodup)
    (hsame : ∀ s ∈ findSalespersons db.users companyId,
      activeCount db.users db.leads companyId s._id = c) :
    ∃ created, (importCsv db req).1.leads = db.leads ++ created ∧
      ∀ i l, created[i]? = some l →
        l.assignedTo
          = ((findSalespersons db.users companyId)[
              i % (findSalespersons db.users companyId).length]?).map (fun u => u._id) := by
  have hne : findSalespersons db.users companyId ≠ [] := by
    intro h
    rw [h] at hN
    simp at hN
  have hnil : ∃ created : List Lead, db.leads = db.leads ++ created ∧
      ∀ i l, created[i]? = some l →
        l.assignedTo
          = ((findSalespersons db.users companyId)[
              i % (findSalespersons db.users companyId).length]?).map (fun u => u._id) :=
    ⟨[], by simp, by intro i l h; simp at h⟩
  unfold importCsv
  cases hfile : req.file with
  | none => exact hnil
  | some file =>
    rw [hcid]
    dsimp only
    cases hfound : (companyFindById db companyId).2 with
    | none => simp only [safeUnlink_leads]; exact hnil
    | some company =>
      dsimp only
      by_cases hext : toLowerCase (extname file.originalname) = ".csv" ∨
          toLowerCase (extname file.originalname) = ".xlsx" ∨
          toLowerCase (extname file.originalname) = ".xls"
      · rw [if_pos hext]
        cases hparsed : req.parsed with
        | error e => simp only [safeUnlink_leads]; exact hnil
        | ok results =>
          dsimp only
          rw [safeUnlink_leads]
          obtain ⟨created, hleads, hinv⟩ := importRows_roundRobin db.users companyId db.leads c
            hne hnd results ((companyFindById db companyId).1, ⟨0, 0, 0, []⟩) 0 [] rfl
            (by simp [companyFindById_leads])
            (roundRobinRun_nil db.users companyId db.leads c hne hsame)
          exact ⟨created, hleads, hinv.2⟩
      · rw [if_neg hext]
        simp only [safeUnlink_leads]; exact hnil

theorem C6_import_round_robin_witness :
    sampleImport.companyId = some (.valid 1) ∧
    1 ≤ (findSalespersons sampleDb.users 1).length ∧
    (sampleDb.users.map (fun u => u._id)).Nodup ∧
    (∀ s ∈ findSalespersons sampleDb.users 1,
      activeCount sampleDb.users sampleDb.leads 1 s._id = 0) ∧
    ∃ created, (importCsv sampleDb sampleImport).1.leads = sampleDb.leads ++ created ∧
      ∀ i l, created[i]? = some l →
        l.assignedTo
          = ((findSalespersons sampleDb.users 1)[
              i % (findSalespersons sampleDb.users 1).length]?).map (fun u => u._id) :=
  ⟨rfl, by decide, by decide, by decide,
    C6_import_round_robin sampleDb sampleImport 1 0 rfl (by decide) (by decide) (by decide)⟩

/-- C7: after any sequence of ingestion calls (createLead, importCsv, metaWebhook,
googleWebhook) that starts from an empty lead collection, no two stored leads have
both the same companyId and the same phone. -/
theorem C7_unique_company_phone (calls : List IngestCall) (users : List User)
    (companies : List Company) (activityLogs : List ActivityLog) (trace : List Effect) :
    (calls.foldl ingest ⟨users, companies, [], activityLogs, trace⟩).leads.Pairwise
      (fun a b => ¬ (a.companyId = b.companyId ∧ a.phone = b.phone)) :=
  ingest_foldl_unique calls _ List.Pairwise.nil

/-- C8, as stated, fails: after a successful manual create, a second request with the
same companyId and the same phone but without a firstName is answered 400, not 409. -/
theorem C8_second_request_not_always_409 :
    (createLead sampleDb ⟨sampleBody (.str "Asha") (.str "98") .undefined (some 1), none⟩).2.status
      = 201 ∧
    resolveCompanyId ⟨sampleBody .undefined (.str "98") .undefined (some 1), none⟩
      = resolveCompanyId ⟨sampleBody (.str "Asha") (.str "98") .undefined (some 1), none⟩ ∧
    (sampleBody .undefined (.str "98") .undefined (some 1)).phone
      = (sampleBody (.str "Asha") (.str "98") .undefined (some 1)).phone ∧
    (createLead
        (createLead sampleDb
          ⟨sampleBody (.str "Asha") (.str "98") .undefined (some 1), none⟩).1
        ⟨sampleBody .undefined (.str "98") .undefined (some 1), none⟩).2.status = 400 := by
  decide

/-- C8, amended: after a manual create answered 201, a second manual create with the
same companyId and the same phone never changes the lead collection, which holds
exactly one lead for that (companyId, phone); the answer is 409 whenever the second
request passes validation (a truthy firstName and a document that the Lead model
accepts), in particular when the first request is submitted again. -/
theorem C8_duplicate_manual_create (db : Db) (req1 req2 : CreateLeadReq)
    (h201 : (createLead db req1).2.status = 201)
    (hc : resolveCompanyId req2 = resolveCompanyId req1)
    (hp : req2.body.phone = req1.body.phone) :
    (createLead (createLead db req1).1 req2).1.leads = (createLead db req1).1.leads ∧
    (∃ lead, (createLead db req1).2.body = .leadCreated lead ∧
      (createLead db req1).1.leads.filter
          (fun l => decide (l.companyId = lead.companyId ∧ l.phone = lead.phone)) = [lead]) ∧
    ((req2.body.firstName.truthy = true ∧
        ∃ c l, resolveCompanyId req2 = some c ∧ buildLead (createLeadDoc req2 c none) = .ok l) →
      (createLead (createLead db req1).1 req2).2.status = 409) ∧
    (createLead (createLead db req1).1 req1).2.status = 409 := by
  obtain ⟨c, lead1, hc1, hv1, hb1, hviol1, hbody1, hleads1, -⟩ :=
    createLead_created db req1 h201
  have hc2 : resolveCompanyId req2 = some c := by rw [hc, hc1]
  obtain ⟨hcid1, hph1, -, -⟩ := buildLead_ok _ _ hb1
  rw [(createLeadDoc_phone req1 c _).2] at hcid1
  rw [(createLeadDoc_phone req1 c _).1] at hph1
  have hcid1 : lead1.companyId = c := (Option.some.inj hcid1).symm
  have hphone1 : req1.body.phone.truthy = true := by
    cases h : req1.body.phone.truthy with
    | true => rfl
    | false => rw [h] at hv1; simp at hv1
  -- a lead built from a request with the same company and phone clashes with `lead1`
  have hclash : ∀ (req : CreateLeadReq) (a : Option ObjectId) (l : Lead),
      req.body.phone = req1.body.phone → buildLead (createLeadDoc req c a) = .ok l →
      violatesUniqueIndex (createLead db req1).1.leads l = true := by
    intro req a l hphone hb
    obtain ⟨hcid, hph, -, -⟩ := buildLead_ok _ _ hb
    rw [(createLeadDoc_phone req c _).2] at hcid
    rw [(createLeadDoc_phone req c _).1, hphone, hph1] at hph
    have hcid : l.companyId = c := (Option.some.inj hcid).symm
    have hph : lead1.phone = l.phone := Option.some.inj hph
    unfold violatesUniqueIndex
    rw [hleads1, List.any_append]
    simp [hcid, hcid1, hph]
  -- the second call, whatever its other fields
  have hsecond : ∀ req : CreateLeadReq, resolveCompanyId req = some c →
      req.body.phone = req1.body.phone →
      (createLead (createLead db req1).1 req).1.leads = (createLead db req1).1.leads ∧
      ((req.body.firstName.truthy = true ∧
          ∃ l, buildLead (createLeadDoc req c none) = .ok l) →
        (createLead (createLead db req1).1 req).2.status = 409) := by
    intro req hcr hphone
    cases hv : (!req.body.firstName.truthy || !req.body.phone.truthy) with
    | true =>
      constructor
      · unfold createLead
        simp [hcr, hv]
      · rintro ⟨hf, -⟩
        rw [hphone, hphone1, hf] at hv
        simp at hv
    | false =>
      rw [createLead_valid _ req c hcr hv]
      rcases leadCreate_cases (assignCall (createLead db req1).1 c).1
          (createLeadDoc req c (assignCall (createLead db req1).1 c).2)
        with ⟨hl, -, e, he⟩ | ⟨l, hb, hviol, -, -, -⟩
      · constructor
        · simp only [hl, assignCall_leads]
        · rintro ⟨-, l, hbl⟩
          have hb : buildLead (createLeadDoc req c (assignCall (createLead db req1).1 c).2)
              = .ok { l with assignedTo := (assignCall (createLead db req1).1 c).2 } := by
            rw [createLeadDoc_assignedTo, buildLead_assignedTo, hbl]
            rfl
          have hdup := leadCreate_duplicate (assignCall (createLead db req1).1 c).1 _ _ hb
            (by rw [assignCall_leads]; exact hclash req _ _ hphone hb)
          simp only [hdup.1]
      · exfalso
        rw [assignCall_leads, hclash req _ l hphone hb] at hviol
        exact Bool.noConfusion hviol
  refine ⟨(hsecond req2 hc2 hp).1, ⟨lead1, hbody1, ?_⟩, ?_, ?_⟩
  · rw [hleads1, List.filter_append]
    have hnone : db.leads.filter
        (fun l => decide (l.companyId = lead1.companyId ∧ l.phone = lead1.phone)) = [] := by
      rw [List.filter_eq_nil_iff]
      intro l hl
      unfold violatesUniqueIndex at hviol1
      rw [List.any_eq_false] at hviol1
      have := hviol1 l hl
      simpa using this
    rw [hnone]
    simp
  · rintro ⟨hf, c2, l, hc2', hbl⟩
    have : c2 = c := Option.some.inj (hc2'.symm.trans hc2)
    subst this
    exact (hsecond req2 hc2 hp).2 ⟨hf, l, hbl⟩
  · have hf1 : req1.body.firstName.truthy = true := by
      cases h : req1.body.firstName.truthy with
      | true => rfl
      | false => rw [h] at hv1; simp at hv1
    rw [createLeadDoc_assignedTo, buildLead_assignedTo] at hb1
    cases hbn : buildLead (createLeadDoc req1 c none) with
    | error e => rw [hbn] at hb1; cases hb1
    | ok l0 => exact (hsecond req1 hc1 rfl).2 ⟨hf1, l0, hbn⟩

theorem C8_duplicate_manual_create_witness :
    (createLead sampleDb ⟨sampleBody (.str "Asha") (.str "98") .undefined (some 1), none⟩).2.status
      = 201 ∧
    resolveCompanyId ⟨sampleBody (.str "Ravi") (.str "98") (.str "csv") (some 1), none⟩
      = resolveCompanyId ⟨sampleBody (.str "Asha") (.str "98") .undefined (some 1), none⟩ ∧
    (sampleBody (.str "Ravi") (.str "98") (.str "csv") (some 1)).phone
      = (sampleBody (.str "Asha") (.str "98") .undefined (some 1)).phone ∧
    (createLead
        (createLead sampleDb
          ⟨sampleBody (.str "Asha") (.str "98") .undefined (some 1), none⟩).1
        ⟨sampleBody (.str "Ravi") (.str "98") (.str "csv") (some 1), none⟩).2.status = 409 ∧
    (createLead
        (createLead sampleDb
          ⟨sampleBody (.str "Asha") (.str "98") .undefined (some 1), none⟩).1
        ⟨sampleBody (.str "Ravi") (.str "98") (.str "csv") (some 1), none⟩).1.leads
      = (createLead sampleDb
          ⟨sampleBody (.str "Asha") (.str "98") .undefined (some 1), none⟩).1.leads :=
  ⟨by decide, by decide, by decide,
    (C8_duplicate_manual_create sampleDb
      ⟨sampleBody (.str "Asha") (.str "98") .undefined (some 1), none⟩
      ⟨sampleBody (.str "Ravi") (.str "98") (.str "csv") (some 1), none⟩
      (by decide) (by decide) (by decide)).2.2.1 ⟨by decide, 1, _, by decide, rfl⟩,
    (C8_duplicate_manual_create sampleDb
      ⟨sampleBody (.str "Asha") (.str "98") .undefined (some 1), none⟩
      ⟨sampleBody (.str "Ravi") (.str "98") (.str "csv") (some 1), none⟩
      (by decide) (by decide) (by decide)).1⟩

/-- C9: when the companyId is absent from both the body and the caller context, or
the firstName is absent or empty, or the phone is absent or empty, `createLead`
answers 400 and leaves the database as it was: the trace gains no assignment query
and no lead write, and the lead collection is unchanged. -/
theorem C9_create_rejects_missing_fields (db : Db) (req : CreateLeadReq)
    (h : (req.body.companyId = none ∧ ∀ u, req.user = some u → u.companyId = none) ∨
      (req.body.firstName = .undefined ∨ req.body.firstName = .null ∨
        req.body.firstName = .str "") ∨
      (req.body.phone = .undefined ∨ req.body.phone = .null ∨ req.body.phone = .str "")) :
    (createLead db req).2.status = 400 ∧ (createLead db req).1 = db ∧
    (createLead db req).1.trace = db.trace ∧ (createLead db req).1.leads = db.leads := by
  have key : (createLead db req).2.status = 400 ∧ (createLead db req).1 = db := by
    unfold createLead
    cases hc : resolveCompanyId req with
    | none => exact ⟨rfl, rfl⟩
    | some c =>
      have hfalsy : (!req.body.firstName.truthy || !req.body.phone.truthy) = true := by
        rcases h with ⟨hb, hu⟩ | h | h
        · exfalso
          unfold resolveCompanyId at hc
          rw [hb] at hc
          cases hus : req.user with
          | none => rw [hus] at hc; simp at hc
          | some u =>
            rw [hus] at hc
            have := hu u hus
            simp [this] at hc
        · rcases h with h | h | h <;> rw [h] <;> simp [JsVal.truthy]
        · rcases h with h | h | h <;> rw [h] <;> simp [JsVal.truthy]
      simp [hfalsy]
  exact ⟨key.1, key.2, by rw [key.2], by rw [key.2]⟩

theorem C9_create_rejects_missing_fields_witness :
    (((sampleBody (.str "") (.str "98") .undefined (some 1)).companyId = none ∧
        ∀ u, (none : Option AuthUser) = some u → u.companyId = none) ∨
      ((sampleBody (.str "") (.str "98") .undefined (some 1)).firstName = .undefined ∨
        (sampleBody (.str "") (.str "98") .undefined (some 1)).firstName = .null ∨
        (sampleBody (.str "") (.str "98") .undefined (some 1)).firstName = .str "") ∨
      ((sampleBody (.str "") (.str "98") .undefined (some 1)).phone = .undefined ∨
        (sampleBody (.str "") (.str "98") .undefined (some 1)).phone = .null ∨
        (sampleBody (.str "") (.str "98") .undefined (some 1)).phone = .str "")) ∧
    ((createLead sampleDb ⟨sampleBody (.str "") (.str "98") .undefined (some 1), none⟩).2.status
        = 400 ∧
      (createLead sampleDb ⟨sampleBody (.str "") (.str "98") .undefined (some 1), none⟩).1
        = sampleDb ∧
      (createLead sampleDb ⟨sampleBody (.str "") (.str "98") .undefined (some 1), none⟩).1.trace
        = sampleDb.trace ∧
      (createLead sampleDb ⟨sampleBody (.str "") (.str "98") .undefined (some 1), none⟩).1.leads
        = sampleDb.leads) :=
  ⟨Or.inr (Or.inl (Or.inr (Or.inr rfl))),
    C9_create_rejects_missing_fields sampleDb
      ⟨sampleBody (.str "") (.str "98") .undefined (some 1), none⟩
      (Or.inr (Or.inl (Or.inr (Or.inr rfl))))⟩

/-- C10: for every raw input `normalizeSource` returns the label of the first rule of
the priority list (facebook or meta, google, walk, agent or broker, csv) one of whose
keywords occurs, case-insensitively, in `String(raw || '')`, and `manual` when none
does, in particular for null, undefined and the empty string; `Facebook Lead Ads`
gives facebook, `Walk-in visit` gives walk_in, `unknown-thing` gives manual. -/
theorem C10_normalizeSource_first_rule :
    (∀ raw : JsVal,
      normalizeSource raw = normalizeSourceSpec (JsVal.or raw (.str "")).toJsString) ∧
    (∀ s : String, normalizeSource (.str s) = normalizeSourceSpec s) ∧
    normalizeSource .null = "manual" ∧ normalizeSource .undefined = "manual" ∧
    normalizeSource (.str "") = "manual" ∧
    normalizeSource (.str "Facebook Lead Ads") = "facebook" ∧
    normalizeSource (.str "Walk-in visit") = "walk_in" ∧
    normalizeSource (.str "unknown-thing") = "manual" := by
  have hall : ∀ raw : JsVal,
      normalizeSource raw = normalizeSourceSpec (JsVal.or raw (.str "")).toJsString := by
    intro raw
    unfold normalizeSourceSpec
    rw [find_sourceRules]
    rfl
  refine ⟨hall, ?_, by decide, by decide, by decide, by decide, by decide, by decide⟩
  intro s
  rw [hall]
  by_cases hs : s = ""
  · subst hs; rfl
  · have : JsVal.or (.str s) (.str "") = .str s := by
      simp [JsVal.or, JsVal.truthy, hs]
    rw [this]
    rfl

/-! ## Properties of the normalizer -/

theorem digitChar_mem (d : Nat) (h : d < 10) :
    Nat.digitChar d ∈ digitChars ∧ (Nat.digitChar d).toNat - 48 = d := by
  interval_cases d <;> decide

theorem toDigitsCore_value (fuel n : Nat) (ds : List Char) (h : n < fuel) :
    List.foldl (fun (a : Nat) (c : Char) => 10 * a + (c.toNat - 48)) 0
        (Nat.toDigitsCore 10 fuel n ds)
      = List.foldl (fun (a : Nat) (c : Char) => 10 * a + (c.toNat - 48)) n ds := by
  induction fuel generalizing n ds with
  | zero => omega
  | succ fuel ih =>
    unfold Nat.toDigitsCore
    dsimp only
    by_cases h0 : n / 10 = 0
    · rw [if_pos h0, List.foldl_cons]
      have hlt : n < 10 := by omega
      rw [(digitChar_mem (n % 10) (Nat.mod_lt _ (by decide))).2, Nat.mod_eq_of_lt hlt]
      simp
    · rw [if_neg h0, ih (n / 10) _ (by omega), List.foldl_cons,
        (digitChar_mem (n % 10) (Nat.mod_lt _ (by decide))).2]
      have : 10 * (n / 10) + n % 10 = n := Nat.div_add_mod n 10
      rw [this]

theorem toDigitsCore_mem (fuel n : Nat) (ds : List Char) :
    ∀ c ∈ Nat.toDigitsCore 10 fuel n ds, c ∈ digitChars ∨ c ∈ ds := by
  induction fuel generalizing n ds with
  | zero => intro c hc; exact Or.inr hc
  | succ fuel ih =>
    intro c hc
    unfold Nat.toDigitsCore at hc
    dsimp only at hc
    have hd := (digitChar_mem (n % 10) (Nat.mod_lt _ (by decide))).1
    by_cases h0 : n / 10 = 0
    · rw [if_pos h0] at hc
      rcases List.mem_cons.mp hc with h | h
      · exact Or.inl (h ▸ hd)
      · exact Or.inr h
    · rw [if_neg h0] at hc
      rcases ih _ _ c hc with h | h
      · exact Or.inl h
      · rcases List.mem_cons.mp h with h | h
        · exact Or.inl (h ▸ hd)
        · exact Or.inr h

theorem toDigitsCore_ne_nil (fuel n : Nat) (ds : List Char) :
    Nat.toDigitsCore 10 (fuel + 1) n ds ≠ [] := by
  induction fuel generalizing n ds with
  | zero =>
    unfold Nat.toDigitsCore
    dsimp only
    split
    · simp
    · unfold Nat.toDigitsCore; simp
  | succ fuel ih =>
    unfold Nat.toDigitsCore
    dsimp only
    split
    · simp
    · exact ih _ _

/-- The decimal numeral that `toString` prints for a natural number: a non-empty run
of digits whose value is the number. -/
theorem numeral_spec (n : Nat) :
    (toString n).data ≠ [] ∧ (∀ c ∈ (toString n).data, c ∈ digitChars) ∧
      digitsToNat (toString n).data = n := by
  have hdata : (toString n).data = Nat.toDigitsCore 10 (n + 1) n [] := rfl
  rw [hdata]
  refine ⟨toDigitsCore_ne_nil n n [], ?_, ?_⟩
  · intro c hc
    rcases toDigitsCore_mem _ _ _ c hc with h | h
    · exact h
    · simp at h
  · unfold digitsToNat
    rw [toDigitsCore_value (n + 1) n [] (by omega)]
    rfl

theorem parseBudgetRange_eq (input : JsVal) :
    parseBudgetRange input
      = if !input.truthy && input != .num 0 then ⟨none, none⟩
        else
          match budgetParts input with
          | [a, b] => ⟨toNumber a, toNumber b⟩
          | _ =>
            ⟨(toNumber (budgetCleaned input)).filter JsNum.truthy,
              (toNumber (budgetCleaned input)).filter JsNum.truthy⟩ := rfl

theorem JsNum.le_refl_of_truthy (x : JsNum) (hx : x.truthy = true) : x.le x = true := by
  cases x with
  | nan => simp [JsNum.truthy] at hx
  | inf neg => cases neg <;> rfl
  | fin neg mant exp => simp [JsNum.le]

theorem jsTrim_eq (s : String) : jsTrim s = ⟨trimChars s.data⟩ := rfl

theorem dropWhile_append_pos (p : Char → Bool) (l1 l2 : List Char)
    (h : ∀ c ∈ l1, p c = true) : (l1 ++ l2).dropWhile p = l2.dropWhile p := by
  induction l1 with
  | nil => rfl
  | cons a t ih =>
    rw [List.cons_append, List.dropWhile_cons_of_pos (h a (by simp))]
    exact ih (fun c hc => h c (by simp [hc]))

/-- Trimming removes the white space around a core that starts and ends with a
character that is not white space. -/
theorem trimChars_core (wsL core wsR : List Char) (a b : Char) (m m2 : List Char)
    (hL : ∀ c ∈ wsL, isJsWhitespace c = true) (hR : ∀ c ∈ wsR, isJsWhitespace c = true)
    (hhead : core = a :: m) (ha : isJsWhitespace a = false)
    (hlast : core.reverse = b :: m2) (hb : isJsWhitespace b = false) :
    trimChars (wsL ++ core ++ wsR) = core := by
  unfold trimChars
  rw [List.append_assoc, dropWhile_append_pos _ _ _ hL]
  have h1 : (core ++ wsR).dropWhile isJsWhitespace = core ++ wsR := by
    rw [hhead, List.cons_append, List.dropWhile_cons_of_neg (by simp [ha])]
  rw [h1, List.reverse_append,
    dropWhile_append_pos _ _ _ (fun c hc => hR c (List.mem_reverse.mp hc))]
  have h2 : core.reverse.dropWhile isJsWhitespace = core.reverse := by
    rw [hlast, List.dropWhile_cons_of_neg (by simp [hb])]
  rw [h2, List.reverse_reverse]

theorem flatMap_lowerChar_id (cs : List Char) (h : ∀ c ∈ cs, lowerChar c = [c]) :
    cs.flatMap lowerChar = cs := by
  induction cs with
  | nil => rfl
  | cons a t ih =>
    rw [List.flatMap_cons, h a (by simp), ih (fun c hc => h c (by simp [hc]))]
    rfl

theorem matchesTo_false (prev : Option Char) (c : Char) (rest : List Char)
    (h1 : c ≠ 't') (h2 : c ≠ 'T') : matchesTo prev c rest = false := by
  unfold matchesTo
  cases rest with
  | nil => rfl
  | cons o rest2 => simp [h1, h2]

/-- Characters that are neither a hyphen, an en dash nor a letter `t` never end a
piece of the split. -/
theorem splitBudgetAux_plain (xs rest : List Char) (prev : Option Char) (cur : List Char)
    (h : ∀ c ∈ xs, c ≠ '-' ∧ c.toNat ≠ 0x2013 ∧ c ≠ 't' ∧ c ≠ 'T') :
    ∃ prev2, splitBudgetAux prev false (xs ++ rest) cur
      = splitBudgetAux prev2 false rest (xs.reverse ++ cur) := by
  induction xs generalizing prev cur with
  | nil => exact ⟨prev, rfl⟩
  | cons a t ih =>
    obtain ⟨h1, h2, h3, h4⟩ := h a (by simp)
    obtain ⟨prev2, hp⟩ := ih (some a) (a :: cur) (fun c hc => h c (by simp [hc]))
    refine ⟨prev2, ?_⟩
    rw [List.cons_append, splitBudgetAux]
    rw [if_neg (by simp [h1, h2]), matchesTo_false _ _ _ h3 h4]
    simp only [Bool.false_eq_true, if_false]
    rw [hp, List.reverse_cons, List.append_assoc]
    rfl

theorem splitBudgetAux_end (prev : Option Char) (cur : List Char) :
    splitBudgetAux prev false [] cur = [cur.reverse] := by
  unfold splitBudgetAux
  rfl

theorem infix_append_of_head_not_mem (k0 : Char) (kw xs u : List Char) (h : k0 ∉ xs) :
    (k0 :: kw) <:+: xs ++ u ↔ (k0 :: kw) <:+: u := by
  induction xs with
  | nil => rfl
  | cons a t ih =>
    rw [List.cons_append, List.infix_cons_iff]
    have hne : k0 ≠ a := fun he => h (by simp [he])
    constructor
    · rintro (hp | hi)
      · exfalso
        obtain ⟨r, hr⟩ := hp
        rw [List.cons_append] at hr
        exact hne (List.cons.inj hr).1
      · exact (ih (fun hm => h (by simp [hm]))).mp hi
    · intro hi
      exact Or.inr ((ih (fun hm => h (by simp [hm]))).mpr hi)

theorem digit_props : ∀ c ∈ digitChars,
    isJsWhitespace c = false ∧ c.isDigit = true ∧ c ≠ '-' ∧ c ≠ '+' ∧ c ≠ 'I' ∧
      lowerChar c = [c] ∧ c.toNat ≠ 0x2013 ∧ c ≠ 't' ∧ c ≠ 'T' ∧
      (!(c.toNat == 0x20B9 || c == ',')) = true ∧ c ≠ 'l' ∧ c ≠ 'c' ∧
      (c.isDigit || c == '.') = true := by
  decide

theorem signed_of_digit (c : Char) (r : List Char) (h1 : c ≠ '-') (h2 : c ≠ '+') :
    (match c :: r with
      | '-' :: r => (true, r)
      | '+' :: r => (false, r)
      | _ => (false, c :: r)) = (false, c :: r) := by
  split
  · rename_i heq
    exact absurd (List.cons.inj heq).1 h1
  · rename_i heq
    exact absurd (List.cons.inj heq).1 h2
  · rfl

/-- `parseFloat` on a non-empty run of digits gives its value. -/
theorem parseDecimal_digits (ds : List Char) (hne : ds ≠ []) (hd : ∀ c ∈ ds, c ∈ digitChars) :
    parseDecimal ⟨ds⟩ = .fin false (digitsToNat ds) 0 := by
  obtain ⟨d, t, hdt⟩ := List.exists_cons_of_ne_nil hne
  have hp := digit_props d (hd d (by rw [hdt]; simp))
  have hdrop : ds.dropWhile isJsWhitespace = ds := by
    rw [hdt, List.dropWhile_cons_of_neg (by simp [hp.1])]
  have htake : ds.takeWhile Char.isDigit = ds := by
    rw [List.takeWhile_eq_self_iff]
    intro c hc
    exact (digit_props c (hd c hc)).2.1
  have hdropd : ds.dropWhile Char.isDigit = [] := by
    rw [List.dropWhile_eq_nil_iff]
    intro c hc
    exact (digit_props c (hd c hc)).2.1
  have hinf : startsWithChars "Infinity".data ds = false := by
    rw [hdt]
    unfold startsWithChars
    have : ("Infinity".data) = 'I' :: "nfinity".data := rfl
    rw [this, List.isPrefixOf]
    have hI : ('I' == d) = false := by
      simpa using (Ne.symm hp.2.2.2.2.1)
    rw [hI]
    rfl
  unfold parseDecimal
  dsimp only
  rw [hdrop]
  have hsigned := signed_of_digit d t hp.2.2.1 hp.2.2.2.1
  rw [← hdt] at hsigned
  rw [hsigned]
  dsimp only
  rw [hinf, htake, hdropd]
  simp [hne, parseExponent]

theorem parseFloat_digits (ds : List Char) (hne : ds ≠ []) (hd : ∀ c ∈ ds, c ∈ digitChars) :
    parseFloat ⟨ds⟩ = (JsNum.fin false (digitsToNat ds) 0).toDouble := by
  unfold parseFloat
  rw [parseDecimal_digits ds hne hd]

/-- An integer below `2^53` is a double: rounding returns it as it is. -/
theorem toDouble_small (neg : Bool) (n : Nat) (h : n < 2 ^ 53) :
    (JsNum.fin neg n 0).toDouble = .fin neg n 0 := by
  unfold JsNum.toDouble
  by_cases h0 : n = 0
  · simp only [if_pos h0]
  · simp only [if_neg h0, pow_zero, Nat.div_one, Nat.mod_one, if_pos h, if_true]

theorem partChars_props : ∀ c ∈ partChars,
    c ≠ '-' ∧ c.toNat ≠ 0x2013 ∧ c ≠ 't' ∧ c ≠ 'T' ∧ lowerChar c = [c] ∧
      (!(c.toNat == 0x20B9 || c == ',')) = true := by
  decide

theorem tailChars_props : ∀ c ∈ ' ' :: unitLetters, (c.isDigit || c == '.') = false := by
  decide

theorem unit_data_mem (u : String) (hu : u ∈ budgetUnits) : ∀ c ∈ u.data, c ∈ unitLetters := by
  simp only [budgetUnits, List.mem_cons, List.mem_singleton, List.not_mem_nil, or_false] at hu
  rcases hu with h | h | h | h <;> subst h <;> decide

theorem mem_blanks (k : Nat) (c : Char) (h : c ∈ blanks k) : c = ' ' :=
  List.eq_of_mem_replicate h

theorem mem_partTail (k : Nat) (u : String) (hu : u ∈ budgetUnits) :
    ∀ c ∈ (if u = "" then [] else blanks k ++ u.data), c ∈ ' ' :: unitLetters := by
  intro c hc
  by_cases h : u = ""
  · rw [if_pos h] at hc; simp at hc
  · rw [if_neg h] at hc
    rcases List.mem_append.mp hc with hb | hu2
    · rw [mem_blanks k c hb]; simp
    · exact List.mem_cons_of_mem _ (unit_data_mem u hu c hu2)

theorem mem_budgetPartText (n k : Nat) (u : String) (hu : u ∈ budgetUnits) :
    ∀ c ∈ budgetPartText n k u, c ∈ partChars := by
  intro c hc
  unfold budgetPartText at hc
  unfold partChars
  rcases List.mem_append.mp hc with h | h
  · exact List.mem_append_left _ ((numeral_spec n).2.1 c h)
  · exact List.mem_append_right _ (mem_partTail k u hu c h)

theorem budgetPartText_filter (n k : Nat) (u : String) (hu : u ∈ budgetUnits) :
    (budgetPartText n k u).filter (fun c => c.isDigit || c == '.') = (toString n).data := by
  unfold budgetPartText
  rw [List.filter_append]
  have h1 : (toString n).data.filter (fun c => c.isDigit || c == '.') = (toString n).data := by
    rw [List.filter_eq_self]
    intro c hc
    exact (digit_props c ((numeral_spec n).2.1 c hc)).2.2.2.2.2.2.2.2.2.2.2.2
  have h2 : (if u = "" then [] else blanks k ++ u.data).filter
      (fun c => c.isDigit || c == '.') = [] := by
    rw [List.filter_eq_nil_iff]
    intro c hc
    rw [tailChars_props c (mem_partTail k u hu c hc)]
    simp
  rw [h1, h2, List.append_nil]

/-- A part starts with a digit and ends with a digit or a letter. -/
theorem budgetPartText_ends (n k : Nat) (u : String) (hu : u ∈ budgetUnits) :
    (∃ a m, budgetPartText n k u = a :: m ∧ isJsWhitespace a = false) ∧
    (∃ b m, (budgetPartText n k u).reverse = b :: m ∧ isJsWhitespace b = false) := by
  obtain ⟨hne, hdig, -⟩ := numeral_spec n
  obtain ⟨d, t, hdt⟩ := List.exists_cons_of_ne_nil hne
  have hdws : ∀ c ∈ (toString n).data, isJsWhitespace c = false :=
    fun c hc => (digit_props c (hdig c hc)).1
  constructor
  · refine ⟨d, t ++ (if u = "" then [] else blanks k ++ u.data), ?_, hdws d (by rw [hdt]; simp)⟩
    unfold budgetPartText
    rw [hdt]
    rfl
  · unfold budgetPartText
    by_cases h : u = ""
    · rw [if_pos h, List.append_nil]
      have hr : (toString n).data.reverse ≠ [] := by simpa using hne
      obtain ⟨b, m, hbm⟩ := List.exists_cons_of_ne_nil hr
      exact ⟨b, m, hbm, hdws b (List.mem_reverse.mp (by rw [hbm]; simp))⟩
    · rw [if_neg h, List.reverse_append, List.reverse_append]
      simp only [budgetUnits, List.mem_cons, List.mem_singleton, List.not_mem_nil,
        or_false] at hu
      rcases hu with h0 | h0 | h0 | h0
      · exact absurd h0 h
      · subst h0; exact ⟨'h', _, rfl, by decide⟩
      · subst h0; exact ⟨'r', _, rfl, by decide⟩
      · subst h0; exact ⟨'e', _, rfl, by decide⟩

/-- White space around a part is trimmed away, and nothing else. -/
theorem trimChars_part (wsL wsR : List Char) (n k : Nat) (u : String) (hu : u ∈ budgetUnits)
    (hL : ∀ c ∈ wsL, isJsWhitespace c = true) (hR : ∀ c ∈ wsR, isJsWhitespace c = true) :
    trimChars (wsL ++ budgetPartText n k u ++ wsR) = budgetPartText n k u := by
  obtain ⟨⟨a, m, h1, ha⟩, ⟨b, m2, h2, hb⟩⟩ := budgetPartText_ends n k u hu
  exact trimChars_core wsL _ wsR a b m m2 hL hR h1 ha h2 hb

theorem lower_part (n k : Nat) (u : String) (hu : u ∈ budgetUnits) :
    (budgetPartText n k u).flatMap lowerChar = budgetPartText n k u :=
  flatMap_lowerChar_id _ (fun c hc => (partChars_props c (mem_budgetPartText n k u hu c hc)).2.2.2.2.1)

/-- A keyword that starts with `l` or `c` occurs in a part exactly when it occurs in
the unit of the part. -/
theorem infix_part (k0 : Char) (kw : List Char) (n k : Nat) (u : String)
    (hk : k0 = 'l' ∨ k0 = 'c') :
    (k0 :: kw) <:+: budgetPartText n k u ↔ (k0 :: kw) <:+: u.data := by
  have hnd : k0 ∉ (toString n).data := by
    intro hm
    have hp := digit_props k0 ((numeral_spec n).2.1 k0 hm)
    rcases hk with h | h
    · exact hp.2.2.2.2.2.2.2.2.2.2.1 h
    · exact hp.2.2.2.2.2.2.2.2.2.2.2.1 h
  unfold budgetPartText
  rw [infix_append_of_head_not_mem k0 kw _ _ hnd]
  by_cases h : u = ""
  · rw [if_pos h, h]
  · rw [if_neg h]
    have hnb : k0 ∉ blanks k := by
      intro hm
      have := mem_blanks k k0 hm
      rcases hk with h | h <;> rw [h] at this <;> exact absurd this (by decide)
    exact infix_append_of_head_not_mem k0 kw _ _ hnb

/-- The value of a part: its numeral times the multiplier of its unit, when the
numeral and the product are doubles. -/
theorem toNumber_part (n k : Nat) (u : String) (hu : u ∈ budgetUnits)
    (hexact : ExactInt n) (hprod : ExactInt (n * unitMultiplier u)) :
    toNumber ⟨budgetPartText n k u⟩ = some (.fin false (n * unitMultiplier u) 0) := by
  obtain ⟨hne, hdig, hval⟩ := numeral_spec n
  have hnonempty : (⟨budgetPartText n k u⟩ : String) ≠ "" := by
    intro h
    have hd : budgetPartText n k u = [] := congrArg String.data h
    obtain ⟨⟨a, m, h1, -⟩, -⟩ := budgetPartText_ends n k u hu
    rw [h1] at hd
    exact List.cons_ne_nil _ _ hd
  have hs : toLowerCase (jsTrim ⟨budgetPartText n k u⟩) = ⟨budgetPartText n k u⟩ := by
    rw [jsTrim_eq]
    have := trimChars_part [] [] n k u hu (by simp) (by simp)
    rw [List.nil_append, List.append_nil] at this
    unfold toLowerCase
    rw [this, lower_part n k u hu]
  unfold toNumber
  rw [if_neg hnonempty]
  dsimp only
  rw [hs]
  dsimp only
  rw [budgetPartText_filter n k u hu, parseFloat_digits _ hne hdig, hval,
    show (JsNum.fin false n 0).toDouble = .fin false n 0 from hexact]
  have hnum : (if (JsNum.fin false n 0).truthy = true then JsNum.fin false n 0
      else JsNum.fin false 0 0) = JsNum.fin false n 0 := by
    by_cases h0 : n = 0
    · subst h0; rfl
    · rw [if_pos (by simp [JsNum.truthy, h0])]
  rw [hnum]
  have hinc : ∀ (k0 : Char) (kw : List Char), (k0 = 'l' ∨ k0 = 'c') →
      includes ⟨budgetPartText n k u⟩ ⟨k0 :: kw⟩ = decide ((k0 :: kw) <:+: u.data) := by
    intro k0 kw hk
    unfold includes
    exact decide_eq_decide.mpr (infix_part k0 kw n k u hk)
  have hlakh := hinc 'l' "akh".data (Or.inl rfl)
  have hcr := hinc 'c' "r".data (Or.inr rfl)
  have hcrore := hinc 'c' "rore".data (Or.inr rfl)
  have e1 : (⟨'l' :: "akh".data⟩ : String) = "lakh" := rfl
  have e2 : (⟨'c' :: "r".data⟩ : String) = "cr" := rfl
  have e3 : (⟨'c' :: "rore".data⟩ : String) = "crore" := rfl
  rw [e1] at hlakh
  rw [e2] at hcr
  rw [e3] at hcrore
  rw [hlakh, hcr, hcrore]
  simp only [budgetUnits, List.mem_cons, List.mem_singleton, List.not_mem_nil, or_false] at hu
  rcases hu with h | h | h | h <;> subst h
  · have b1 : decide ('l' :: "akh".data <:+: "".data) = false := by decide
    have b2 : decide ('c' :: "r".data <:+: "".data) = false := by decide
    have b3 : decide ('c' :: "rore".data <:+: "".data) = false := by decide
    rw [b1, b2, b3]
    simp [unitMultiplier]
  · have b1 : decide ('l' :: "akh".data <:+: "lakh".data) = true := by decide
    rw [b1]
    have hp : (JsNum.fin false (n * 100000) 0).toDouble = .fin false (n * 100000) 0 := hprod
    simp [unitMultiplier, JsNum.scale, hp]
  · have b1 : decide ('l' :: "akh".data <:+: "cr".data) = false := by decide
    have b2 : decide ('c' :: "r".data <:+: "cr".data) = true := by decide
    rw [b1, b2]
    have hp : (JsNum.fin false (n * 10000000) 0).toDouble = .fin false (n * 10000000) 0 := hprod
    simp [unitMultiplier, JsNum.scale, hp]
  · have b1 : decide ('l' :: "akh".data <:+: "crore".data) = false := by decide
    have b2 : decide ('c' :: "r".data <:+: "crore".data) = true := by decide
    rw [b1, b2]
    have hp : (JsNum.fin false (n * 10000000) 0).toDouble = .fin false (n * 10000000) 0 := hprod
    simp [unitMultiplier, JsNum.scale, hp]

theorem blanks_partChars (k : Nat) : ∀ c ∈ blanks k, c ∈ partChars := by
  intro c hc
  rw [mem_blanks k c hc]
  decide

theorem blanks_ws (k : Nat) : ∀ c ∈ blanks k, isJsWhitespace c = true := by
  intro c hc
  rw [mem_blanks k c hc]
  decide

theorem splitBudgetAux_plain_end (xs : List Char) (prev : Option Char)
    (h : ∀ c ∈ xs, c ∈ partChars) : splitBudgetAux prev false xs [] = [xs] := by
  obtain ⟨prev2, hp⟩ := splitBudgetAux_plain xs [] prev []
    (fun c hc => ⟨(partChars_props c (h c hc)).1, (partChars_props c (h c hc)).2.1,
      (partChars_props c (h c hc)).2.2.1, (partChars_props c (h c hc)).2.2.2.1⟩)
  rw [List.append_nil] at hp
  rw [hp, splitBudgetAux_end, List.append_nil, List.reverse_reverse]

/-- The split of a range text: the text before and the text after the separator. -/
theorem splitBudgetAux_range (X Y : List Char) (a b : Nat) (sep : String)
    (hX : ∀ c ∈ X, c ∈ partChars) (hY : ∀ c ∈ Y, c ∈ partChars)
    (hsep : sep = "-" ∨ sep = "–" ∨ (sep = "to" ∧ 1 ≤ a ∧ 1 ≤ b)) :
    splitBudgetAux none false (X ++ blanks a ++ sep.data ++ blanks b ++ Y) []
      = [X ++ blanks a, blanks b ++ Y] := by
  have hplain : ∀ (l : List Char), (∀ c ∈ l, c ∈ partChars) →
      ∀ c ∈ l, c ≠ '-' ∧ c.toNat ≠ 0x2013 ∧ c ≠ 't' ∧ c ≠ 'T' :=
    fun l hl c hc => ⟨(partChars_props c (hl c hc)).1, (partChars_props c (hl c hc)).2.1,
      (partChars_props c (hl c hc)).2.2.1, (partChars_props c (hl c hc)).2.2.2.1⟩
  have hXa : ∀ c ∈ X ++ blanks a, c ∈ partChars := by
    intro c hc
    rcases List.mem_append.mp hc with h | h
    · exact hX c h
    · exact blanks_partChars a c h
  have hbY : ∀ c ∈ blanks b ++ Y, c ∈ partChars := by
    intro c hc
    rcases List.mem_append.mp hc with h | h
    · exact blanks_partChars b c h
    · exact hY c h
  rcases hsep with h | h | ⟨h, ha, hb⟩
  · subst h
    have hT : X ++ blanks a ++ "-".data ++ blanks b ++ Y
        = (X ++ blanks a) ++ ('-' :: (blanks b ++ Y)) := by
      simp [List.append_assoc]
    obtain ⟨prev2, hp⟩ := splitBudgetAux_plain (X ++ blanks a) ('-' :: (blanks b ++ Y)) none []
      (hplain _ hXa)
    rw [hT, hp, splitBudgetAux, if_pos (Or.inl rfl), splitBudgetAux_plain_end _ _ hbY,
      List.append_nil, List.reverse_reverse]
  · subst h
    have hT : X ++ blanks a ++ "–".data ++ blanks b ++ Y
        = (X ++ blanks a) ++ (Char.ofNat 0x2013 :: (blanks b ++ Y)) := by
      simp [List.append_assoc]
    obtain ⟨prev2, hp⟩ := splitBudgetAux_plain (X ++ blanks a)
      (Char.ofNat 0x2013 :: (blanks b ++ Y)) none [] (hplain _ hXa)
    rw [hT, hp, splitBudgetAux, if_pos (Or.inr (by decide)), splitBudgetAux_plain_end _ _ hbY,
      List.append_nil, List.reverse_reverse]
  · subst h
    obtain ⟨a2, rfl⟩ : ∃ a2, a = a2 + 1 := ⟨a - 1, by omega⟩
    obtain ⟨b2, rfl⟩ : ∃ b2, b = b2 + 1 := ⟨b - 1, by omega⟩
    have hba : blanks (a2 + 1) = blanks a2 ++ [' '] := List.replicate_succ' a2 ' '
    have hbb : blanks (b2 + 1) = ' ' :: blanks b2 := List.replicate_succ ' ' b2
    have hX2 : ∀ c ∈ X ++ blanks a2, c ∈ partChars := by
      intro c hc
      rcases List.mem_append.mp hc with h | h
      · exact hX c h
      · exact blanks_partChars a2 c h
    have hT : X ++ blanks (a2 + 1) ++ "to".data ++ blanks (b2 + 1) ++ Y
        = (X ++ blanks a2) ++ (' ' :: 't' :: 'o' :: ' ' :: (blanks b2 ++ Y)) := by
      rw [hba, hbb]
      simp [List.append_assoc]
    obtain ⟨prev2, hp⟩ := splitBudgetAux_plain (X ++ blanks a2)
      (' ' :: 't' :: 'o' :: ' ' :: (blanks b2 ++ Y)) none [] (hplain _ hX2)
    have hY2 : ∀ c ∈ ' ' :: (blanks b2 ++ Y), c ∈ partChars := by
      rw [← List.cons_append, ← hbb]
      exact hbY
    rw [hT, hp, splitBudgetAux, if_neg (by decide),
      matchesTo_false _ _ _ (by decide) (by decide)]
    simp only [Bool.false_eq_true, if_false]
    rw [splitBudgetAux, if_neg (by decide)]
    have hm : matchesTo (some ' ') 't' ('o' :: ' ' :: (blanks b2 ++ Y)) = true := by
      simp [matchesTo, isWordChar]
    rw [hm]
    simp only [if_true]
    rw [splitBudgetAux, splitBudgetAux_plain_end _ _ hY2]
    simp [hba, hbb, List.append_assoc]

theorem rangeChars_props : ∀ c ∈ rangeChars,
    lowerChar c = [c] ∧ (!(c.toNat == 0x20B9 || c == ',')) = true := by
  decide

/-- Trimming and lower-casing leave a text unchanged when it starts and ends with a
character that is not white space and all its characters are their own lower case. -/
theorem clean_id (T : List Char) (a b : Char) (m m2 : List Char)
    (hhead : T = a :: m) (ha : isJsWhitespace a = false)
    (hlast : T.reverse = b :: m2) (hb : isJsWhitespace b = false)
    (hl : ∀ c ∈ T, lowerChar c = [c]) :
    toLowerCase (jsTrim ⟨T⟩) = ⟨T⟩ := by
  rw [jsTrim_eq]
  have := trimChars_core [] T [] a b m m2 (by simp) (by simp) hhead ha hlast hb
  rw [List.nil_append, List.append_nil] at this
  unfold toLowerCase
  rw [this, flatMap_lowerChar_id T hl]

theorem string_ne_empty (T : List Char) (a : Char) (m : List Char) (h : T = a :: m) :
    (⟨T⟩ : String) ≠ "" := by
  intro he
  have hd : T = [] := congrArg String.data he
  rw [h] at hd
  exact List.cons_ne_nil _ _ hd

theorem rupee_filter_eq :
    (fun c : Char => !(c.toNat == 0x20B9 || c == ','))
      = (fun c : Char => decide (c ≠ '₹' ∧ c ≠ ',')) := by
  funext c
  by_cases h1 : c = '₹'
  · subst h1; decide
  · have h2 : ¬ c.toNat = 0x20B9 := by
      intro h
      apply h1
      rw [← Char.ofNat_toNat c, h]
    by_cases h3 : c = ','
    · subst h3; decide
    · simp [h1, h2, h3]

/-- Every integer up to `2^53` is a double. -/
theorem exactInt_of_le (n : Nat) (h : n ≤ 2 ^ 53) : ExactInt n := by
  rcases Nat.lt_or_eq_of_le h with hlt | heq
  · exact toDouble_small false n hlt
  · subst heq
    decide

/-- C13, as stated, fails: `9007199254740993` is the numeral of the positive integer
`2^53 + 1`, which is not a double; `parseBudgetRange` returns min = max =
9007199254740992, the nearest double. -/
theorem C13_large_integer_rounded :
    (9007199254740993 : Nat) = 2 ^ 53 + 1 ∧
    parseBudgetRange (.str "9007199254740993")
      = ⟨some (.fin false 9007199254740992 0), some (.fin false 9007199254740992 0)⟩ := by
  decide

/-- C13, amended: a single value populates both min and max. For every input string
whose text, once the rupee sign and the commas are removed, is the decimal numeral of
a positive integer n that is a double (as every integer up to `2^53` is),
`parseBudgetRange` returns min = max = n. -/
theorem C13_single_value (s : String) (n : Nat) (hn : 0 < n) (hexact : ExactInt n)
    (hs : s.data.filter (fun c => decide (c ≠ '₹' ∧ c ≠ ',')) = (toString n).data) :
    parseBudgetRange (.str s) = ⟨some (.fin false n 0), some (.fin false n 0)⟩ := by
  obtain ⟨hne, hdig, -⟩ := numeral_spec n
  have hpart : budgetPartText n 0 "" = (toString n).data := by
    simp [budgetPartText]
  have hu : "" ∈ budgetUnits := by decide
  obtain ⟨⟨a, m, h1, ha⟩, ⟨b, m2, h2, hb⟩⟩ := budgetPartText_ends n 0 "" hu
  rw [hpart] at h1 h2
  have hclean : budgetCleaned (.str s) = ⟨(toString n).data⟩ := by
    unfold budgetCleaned
    rw [rupee_filter_eq]
    show toLowerCase (jsTrim ⟨s.data.filter _⟩) = _
    rw [hs]
    exact clean_id _ a b m m2 h1 ha h2 hb
      (fun c hc => (digit_props c (hdig c hc)).2.2.2.2.2.1)
  have hparts : budgetParts (.str s) = [⟨(toString n).data⟩] := by
    unfold budgetParts splitBudget
    rw [hclean]
    dsimp only
    rw [splitBudgetAux_plain_end _ _
      (fun c hc => List.mem_append_left _ (hdig c hc))]
    simp only [List.map_cons, List.map_nil, jsTrim_eq]
    have ht := trimChars_core [] _ [] a b m m2 (by simp) (by simp) h1 ha h2 hb
    rw [List.nil_append, List.append_nil] at ht
    rw [ht, List.filter_cons_of_pos (by
      have := string_ne_empty _ a m h1
      simpa using this)]
    rfl
  have htruthy : (!(JsVal.str s).truthy && JsVal.str s != .num 0) = false := by
    have hsne : s ≠ "" := by
      intro h
      rw [h] at hs
      exact hne hs.symm
    simp [JsVal.truthy, hsne]
  have hnum := toNumber_part n 0 "" hu hexact
    (by rw [show unitMultiplier "" = 1 from rfl, Nat.mul_one]; exact hexact)
  rw [hpart] at hnum
  rw [parseBudgetRange_eq, htruthy, hparts, hclean]
  simp only [Bool.false_eq_true, if_false, hnum]
  have hv : (JsNum.fin false (n * unitMultiplier "") 0) = .fin false n 0 := by
    simp [unitMultiplier]
  rw [hv]
  have ht : (JsNum.fin false n 0).truthy = true := by
    simp [JsNum.truthy]; omega
  simp [Option.filter, ht]

theorem C13_single_value_witness :
    0 < 1200000 ∧ ExactInt 1200000 ∧
    "₹12,00,000".data.filter (fun c => decide (c ≠ '₹' ∧ c ≠ ','))
      = (toString 1200000).data ∧
    parseBudgetRange (.str "₹12,00,000")
      = ⟨some (.fin false 1200000 0), some (.fin false 1200000 0)⟩ :=
  ⟨by decide, by decide, by decide,
    C13_single_value "₹12,00,000" 1200000 (by decide) (by decide) (by decide)⟩

/-- C14, as stated, fails: in `9007199254740993 lakh - 1 cr` the first integer is not a
double. It is read as 9007199254740992, and min is 900719925474099200000, not the
product of the integer with 100000. -/
theorem C14_large_part_rounded :
    (⟨budgetRangeText 9007199254740993 1 "lakh" 1 "-" 1 1 1 "cr"⟩ : String)
      = "9007199254740993 lakh - 1 cr" ∧
    parseBudgetRange (.str "9007199254740993 lakh - 1 cr")
      = ⟨some (.fin false 900719925474099200000 0), some (.fin false 10000000 0)⟩ ∧
    9007199254740993 * unitMultiplier "lakh" ≠ 900719925474099200000 := by
  decide

/-- C14, amended: a range of two parts. For every text made of two parts joined by a
hyphen, an en dash or the word `to` (blanks may surround the separator and must
surround the word `to`), each part being the decimal numeral of an integer, optionally
followed by blanks and one of the units lakh, cr, crore, where each integer and each
product below is a double (as every integer up to `2^53` is), `parseBudgetRange`
returns min = the first integer times the multiplier of the first unit and max = the
second integer times the multiplier of the second unit (100000 for lakh, 10000000 for
cr and crore, 1 without a unit). -/
theorem C14_range_of_two_parts (n1 k1 : Nat) (u1 : String) (a : Nat) (sep : String) (b : Nat)
    (n2 k2 : Nat) (u2 : String) (hu1 : u1 ∈ budgetUnits) (hu2 : u2 ∈ budgetUnits)
    (hsep : sep = "-" ∨ sep = "–" ∨ (sep = "to" ∧ 1 ≤ a ∧ 1 ≤ b))
    (hexact1 : ExactInt n1) (hprod1 : ExactInt (n1 * unitMultiplier u1))
    (hexact2 : ExactInt n2) (hprod2 : ExactInt (n2 * unitMultiplier u2)) :
    parseBudgetRange (.str ⟨budgetRangeText n1 k1 u1 a sep b n2 k2 u2⟩)
      = ⟨some (.fin false (n1 * unitMultiplier u1) 0),
          some (.fin false (n2 * unitMultiplier u2) 0)⟩ := by
  obtain ⟨⟨a1, m1, hh1, ha1⟩, -⟩ := budgetPartText_ends n1 k1 u1 hu1
  obtain ⟨⟨a2, m2, hh2, ha2⟩, ⟨b2, r2, hl2, hb2⟩⟩ := budgetPartText_ends n2 k2 u2 hu2
  have hsepchars : ∀ c ∈ sep.data, c ∈ rangeChars := by
    rcases hsep with h | h | ⟨h, -, -⟩ <;> subst h <;> decide
  have hchars : ∀ c ∈ budgetRangeText n1 k1 u1 a sep b n2 k2 u2, c ∈ rangeChars := by
    intro c hc
    unfold budgetRangeText at hc
    simp only [List.mem_append] at hc
    rcases hc with (((h | h) | h) | h) | h
    · exact List.mem_append_left _ (mem_budgetPartText n1 k1 u1 hu1 c h)
    · exact List.mem_append_left _ (blanks_partChars a c h)
    · exact hsepchars c h
    · exact List.mem_append_left _ (blanks_partChars b c h)
    · exact List.mem_append_left _ (mem_budgetPartText n2 k2 u2 hu2 c h)
  have hhead : budgetRangeText n1 k1 u1 a sep b n2 k2 u2
      = a1 :: (m1 ++ blanks a ++ sep.data ++ blanks b ++ budgetPartText n2 k2 u2) := by
    unfold budgetRangeText
    rw [hh1]
    simp [List.append_assoc]
  have hlast : (budgetRangeText n1 k1 u1 a sep b n2 k2 u2).reverse
      = b2 :: (r2 ++ (budgetPartText n1 k1 u1 ++ blanks a ++ sep.data ++ blanks b).reverse) := by
    unfold budgetRangeText
    rw [List.reverse_append, hl2]
    rfl
  have hfilter : (budgetRangeText n1 k1 u1 a sep b n2 k2 u2).filter
      (fun c => !(c.toNat == 0x20B9 || c == ',')) = budgetRangeText n1 k1 u1 a sep b n2 k2 u2 := by
    rw [List.filter_eq_self]
    intro c hc
    exact (rangeChars_props c (hchars c hc)).2
  have hclean : budgetCleaned (.str ⟨budgetRangeText n1 k1 u1 a sep b n2 k2 u2⟩)
      = ⟨budgetRangeText n1 k1 u1 a sep b n2 k2 u2⟩ := by
    unfold budgetCleaned
    show toLowerCase (jsTrim ⟨(budgetRangeText n1 k1 u1 a sep b n2 k2 u2).filter _⟩) = _
    rw [hfilter]
    exact clean_id _ a1 b2 _ _ hhead ha1 hlast hb2
      (fun c hc => (rangeChars_props c (hchars c hc)).1)
  have hparts : budgetParts (.str ⟨budgetRangeText n1 k1 u1 a sep b n2 k2 u2⟩)
      = [⟨budgetPartText n1 k1 u1⟩, ⟨budgetPartText n2 k2 u2⟩] := by
    unfold budgetParts splitBudget
    rw [hclean]
    dsimp only
    unfold budgetRangeText
    rw [splitBudgetAux_range _ _ a b sep (mem_budgetPartText n1 k1 u1 hu1)
      (mem_budgetPartText n2 k2 u2 hu2) hsep]
    simp only [List.map_cons, List.map_nil, jsTrim_eq]
    have t1 := trimChars_part [] (blanks a) n1 k1 u1 hu1 (by simp) (blanks_ws a)
    have t2 := trimChars_part (blanks b) [] n2 k2 u2 hu2 (blanks_ws b) (by simp)
    rw [List.nil_append] at t1
    rw [List.append_nil] at t2
    rw [t1, t2]
    rw [List.filter_cons_of_pos (by
        have := string_ne_empty _ a1 m1 hh1
        simpa using this),
      List.filter_cons_of_pos (by
        have := string_ne_empty _ a2 m2 hh2
        simpa using this)]
    rfl
  have htruthy : (!(JsVal.str ⟨budgetRangeText n1 k1 u1 a sep b n2 k2 u2⟩).truthy
      && JsVal.str ⟨budgetRangeText n1 k1 u1 a sep b n2 k2 u2⟩ != .num 0) = false := by
    have := string_ne_empty _ a1 _ hhead
    simp [JsVal.truthy, this]
  rw [parseBudgetRange_eq, htruthy, hparts]
  simp only [Bool.false_eq_true, if_false]
  rw [toNumber_part n1 k1 u1 hu1 hexact1 hprod1, toNumber_part n2 k2 u2 hu2 hexact2 hprod2]

theorem C14_range_of_two_parts_witness :
    "lakh" ∈ budgetUnits ∧ "cr" ∈ budgetUnits ∧
    ("-" = "-" ∨ "-" = "–" ∨ ("-" = "to" ∧ 1 ≤ 1 ∧ 1 ≤ 1)) ∧
    ExactInt 50 ∧ ExactInt (50 * unitMultiplier "lakh") ∧
    ExactInt 1 ∧ ExactInt (1 * unitMultiplier "cr") ∧
    (⟨budgetRangeText 50 1 "lakh" 1 "-" 1 1 1 "cr"⟩ : String) = "50 lakh - 1 cr" ∧
    parseBudgetRange (.str ⟨budgetRangeText 50 1 "lakh" 1 "-" 1 1 1 "cr"⟩)
      = ⟨some (.fin false (50 * unitMultiplier "lakh") 0),
          some (.fin false (1 * unitMultiplier "cr") 0)⟩ ∧
    50 * unitMultiplier "lakh" = 5000000 ∧ 1 * unitMultiplier "cr" = 10000000 :=
  ⟨by decide, by decide, Or.inl rfl, by decide, by decide, by decide, by decide, by decide,
    C14_range_of_two_parts 50 1 "lakh" 1 "-" 1 1 1 "cr" (by decide) (by decide) (Or.inl rfl)
      (by decide) (by decide) (by decide) (by decide),
    by decide, by decide⟩

/-- The six labels that `normalizeSource` can return. -/
theorem normalizeSource_range (raw : JsVal) :
    normalizeSource raw = "facebook" ∨ normalizeSource raw = "google" ∨
      normalizeSource raw = "walk_in" ∨ normalizeSource raw = "agent" ∨
      normalizeSource raw = "csv" ∨ normalizeSource raw = "manual" := by
  unfold normalizeSource
  dsimp only
  split_ifs <;> simp

/-- C11: `normalizeSource` does not always return a member of the `source` enum of the
Lead model. It returns `walk_in` for `Walk-in visit` and `agent` for `Broker referral`;
neither is in the enum, the model rejects the lead, and a manual create with that
source is answered 500 and stores nothing. The result is in the enum exactly when it
is neither of these two labels. -/
theorem C11_normalizeSource_leaves_enum :
    normalizeSource (.str "Walk-in visit") = "walk_in" ∧ "walk_in" ∉ sourceEnum ∧
    normalizeSource (.str "Broker referral") = "agent" ∧ "agent" ∉ sourceEnum ∧
    (createLead sampleDb
      ⟨sampleBody (.str "Asha") (.str "98") (.str "Walk-in visit") (some 1), none⟩).2.status
        = 500 ∧
    (createLead sampleDb
      ⟨sampleBody (.str "Asha") (.str "98") (.str "Walk-in visit") (some 1), none⟩).1.leads
        = [] ∧
    (createLead sampleDb
      ⟨sampleBody (.str "Asha") (.str "98") (.str "Website") (some 1), none⟩).2.status = 201 ∧
    ∀ raw : JsVal, normalizeSource raw ∈ sourceEnum ↔
      (normalizeSource raw ≠ "walk_in" ∧ normalizeSource raw ≠ "agent") := by
  refine ⟨by decide, by decide, by decide, by decide, by decide, by decide, by decide, ?_⟩
  intro raw
  rcases normalizeSource_range raw with h | h | h | h | h | h <;> rw [h] <;> decide

/-- C12, as stated, fails: `20-10` parses to min = 20 and max = 10, both defined, and
20 is not at most 10. -/
theorem C12_range_not_ordered :
    parseBudgetRange (.str "20-10") = ⟨some (.fin false 20 0), some (.fin false 10 0)⟩ ∧
    JsNum.le (.fin false 20 0) (.fin false 10 0) = false := by
  decide

/-- C12, amended: whenever both min and max of the result are defined, they are equal
(so min is at most max) for every input that does not split into exactly two parts;
for an input of two parts they are the values of the first and of the second part, in
the order of the input. -/
theorem C12_min_max_of_parts (input : JsVal) (x y : JsNum)
    (hmin : (parseBudgetRange input).min = some x)
    (hmax : (parseBudgetRange input).max = some y) :
    ((budgetParts input).length ≠ 2 → x = y ∧ x.le y = true) ∧
    (∀ a b, budgetParts input = [a, b] → toNumber a = some x ∧ toNumber b = some y) := by
  rw [parseBudgetRange_eq] at hmin hmax
  by_cases hfalsy : (!input.truthy && input != .num 0) = true
  · rw [if_pos hfalsy] at hmin
    cases hmin
  · rw [if_neg hfalsy] at hmin hmax
    constructor
    · intro hlen
      have hsingle : ∀ (parts : List String), parts.length ≠ 2 →
          (match parts with
            | [a, b] => (⟨toNumber a, toNumber b⟩ : BudgetRange)
            | _ =>
              ⟨(toNumber (budgetCleaned input)).filter JsNum.truthy,
                (toNumber (budgetCleaned input)).filter JsNum.truthy⟩)
          = ⟨(toNumber (budgetCleaned input)).filter JsNum.truthy,
              (toNumber (budgetCleaned input)).filter JsNum.truthy⟩ := by
        intro parts hp
        match parts, hp with
        | [], _ => rfl
        | [_], _ => rfl
        | [_, _], hp => exact absurd rfl hp
        | _ :: _ :: _ :: _, _ => rfl
      rw [hsingle _ hlen] at hmin hmax
      dsimp only at hmin hmax
      have hxy : x = y := Option.some.inj (hmin.symm.trans hmax)
      have hx : x.truthy = true := by
        cases hn : toNumber (budgetCleaned input) with
        | none => rw [hn] at hmin; cases hmin
        | some v =>
          rw [hn] at hmin
          by_cases hv : v.truthy = true
          · rw [Option.filter, if_pos hv] at hmin
            rw [← Option.some.inj hmin]; exact hv
          · rw [Option.filter, if_neg hv] at hmin
            cases hmin
      exact ⟨hxy, hxy ▸ JsNum.le_refl_of_truthy x hx⟩
    · intro a b hab
      rw [hab] at hmin hmax
      exact ⟨hmin, hmax⟩

theorem C12_min_max_of_parts_witness :
    (parseBudgetRange (.str "₹12,00,000")).min = some (.fin false 1200000 0) ∧
    (parseBudgetRange (.str "₹12,00,000")).max = some (.fin false 1200000 0) ∧
    (((budgetParts (.str "₹12,00,000")).length ≠ 2 →
        JsNum.fin false 1200000 0 = JsNum.fin false 1200000 0 ∧
          JsNum.le (.fin false 1200000 0) (.fin false 1200000 0) = true) ∧
      (∀ a b, budgetParts (.str "₹12,00,000") = [a, b] →
        toNumber a = some (.fin false 1200000 0) ∧ toNumber b = some (.fin false 1200000 0))) :=
  ⟨by decide, by decide,
    C12_min_max_of_parts (.str "₹12,00,000") (.fin false 1200000 0) (.fin false 1200000 0)
      (by decide) (by decide)⟩

/-- C15: for the inputs undefined, null and the empty string `parseBudgetRange` returns
min = undefined and max = undefined. -/
theorem C15_empty_input_gives_undefined :
    parseBudgetRange .undefined = ⟨none, none⟩ ∧ parseBudgetRange .null = ⟨none, none⟩ ∧
    parseBudgetRange (.str "") = ⟨none, none⟩ := by
  decide

/-! ## Lemmas on the bulk import -/

theorem head_dropWhile (p : Char → Bool) (l : List Char) (x : Char) (rest : List Char)
    (h : l.dropWhile p = x :: rest) : p x = false := by
  induction l with
  | nil => simp at h
  | cons a t ih =>
    by_cases hp : p a = true
    · rw [List.dropWhile_cons_of_pos hp] at h
      exact ih h
    · rw [List.dropWhile_cons_of_neg hp] at h
      rw [← (List.cons.inj h).1]
      simpa using hp

/-- Trimming twice is trimming once. -/
theorem trimChars_idem (cs : List Char) : trimChars (trimChars cs) = trimChars cs := by
  cases ht : trimChars cs with
  | nil => rfl
  | cons a m =>
    have hv : ((cs.dropWhile isJsWhitespace).reverse.dropWhile isJsWhitespace)
        = (a :: m).reverse := by
      have : trimChars cs = ((cs.dropWhile isJsWhitespace).reverse.dropWhile
        isJsWhitespace).reverse := rfl
      rw [this] at ht
      rw [← ht, List.reverse_reverse]
    have hvne : (a :: m).reverse ≠ [] := by simp
    obtain ⟨b, m2, hbm⟩ := List.exists_cons_of_ne_nil hvne
    have hb : isJsWhitespace b = false := by
      rw [hbm] at hv
      exact head_dropWhile _ _ b m2 hv
    have ha : isJsWhitespace a = false := by
      have hsplit := List.takeWhile_append_dropWhile isJsWhitespace
        (cs.dropWhile isJsWhitespace).reverse
      rw [hv] at hsplit
      have hu : cs.dropWhile isJsWhitespace
          = (a :: m) ++ ((cs.dropWhile isJsWhitespace).reverse.takeWhile
              isJsWhitespace).reverse := by
        have := congrArg List.reverse hsplit
        rw [List.reverse_append, List.reverse_reverse, List.reverse_reverse] at this
        exact this.symm
      rw [List.cons_append] at hu
      exact head_dropWhile _ _ a _ hu
    have := trimChars_core [] (a :: m) [] a b m m2 (by simp) (by simp) rfl ha hbm hb
    rw [List.nil_append, List.append_nil] at this
    exact this

theorem jsTrim_idem (s : String) : jsTrim (jsTrim s) = jsTrim s := by
  rw [jsTrim_eq, jsTrim_eq]
  show (⟨trimChars (trimChars s.data)⟩ : String) = _
  rw [trimChars_idem]

theorem rowPhone_trimmed (r : Row) : jsTrim (rowPhone r) = rowPhone r := by
  unfold rowPhone
  exact jsTrim_idem _

/-- The payload of a row carries the company of the import and the trimmed phone of
the row. -/
theorem importPayload_fields (companyId : ObjectId) (r : Row) (p : LeadDoc)
    (h : importPayload companyId r = some p) :
    p.companyId = some companyId ∧ p.phone = .str (rowPhone r) := by
  unfold importPayload at h
  simp only [Option.bind_eq_bind, Option.bind_eq_some, Option.pure_def, Option.some.injEq] at h
  obtain ⟨_, _, _, _, _, _, _, _, _, _, _, _, hp⟩ := h
  rw [← hp]
  exact ⟨rfl, rfl⟩

theorem importCsv_loop (db : Db) (req : ImportReq) (file : UploadedFile)
    (companyId : ObjectId) (company : Company) (rows : List Row)
    (hreach : ReachesLoop db req file companyId company rows) :
    importCsv db req
      = (safeUnlink (importRows companyId (importStart db companyId) 0 rows).1 file.path,
          some ⟨200, .importReport ("Import completed for company " ++ company.companyName)
            ⟨(importRows companyId (importStart db companyId) 0 rows).2.created,
              (importRows companyId (importStart db companyId) 0 rows).2.skipped,
              (importRows companyId (importStart db companyId) 0 rows).2.errors,
              rows.length⟩
            (importRows companyId (importStart db companyId) 0 rows).2.skippedRows⟩) := by
  obtain ⟨hfile, hcid, hfound, hext, hparsed⟩ := hreach
  unfold importCsv
  rw [hfile, hcid]
  dsimp only
  rw [hfound]
  dsimp only
  rw [if_pos hext, hparsed]
  rfl

theorem importRows_append (companyId : ObjectId) (pre post : List Row) (st : Db × ImportAcc)
    (start : Nat) :
    importRows companyId st start (pre ++ post)
      = importRows companyId (importRows companyId st start pre) (start + pre.length) post := by
  induction pre generalizing st start with
  | nil => rfl
  | cons r rest ih =>
    show importRows companyId (importRow companyId st start r) (start + 1) (rest ++ post)
      = importRows companyId (importRows companyId (importRow companyId st start r)
          (start + 1) rest) (start + (rest.length + 1)) post
    rw [ih]
    have : start + 1 + rest.length = start + (rest.length + 1) := by omega
    rw [this]

/-- The outcome of one iteration, by what the body of the loop raises. -/
theorem importRow_outcome (companyId : ObjectId) (st : Db × ImportAcc) (index : Nat) (r : Row) :
    match rowError companyId st.1 r with
    | some err =>
      (importRow companyId st index r).1.leads = st.1.leads ∧
      (importRow companyId st index r).2
        = (match err with
          | .store .duplicateKey =>
            { st.2 with
              skipped := st.2.skipped + 1
              skippedRows := st.2.skippedRows ++ [⟨index + 1, "Duplicate phone/email", r⟩] }
          | _ =>
            { st.2 with
              errors := st.2.errors + 1
              skippedRows := st.2.skippedRows ++ [⟨index + 1, "Unexpected error", r⟩] })
    | none =>
      ((importRow companyId st index r).1.leads = st.1.leads ∧
        (importRow companyId st index r).2
          = { st.2 with
              skipped := st.2.skipped + 1
              skippedRows := st.2.skippedRows ++ [⟨index + 1, "Missing phone", r⟩] }) ∨
      (∃ lead, (importRow companyId st index r).1.leads = st.1.leads ++ [lead] ∧
        (importRow companyId st index r).2 = { st.2 with created := st.2.created + 1 }) := by
  unfold rowError importRow
  cases hp : importPayload companyId r with
  | none => exact ⟨rfl, rfl⟩
  | some payload =>
    dsimp only
    by_cases hf : payload.phone = .str ""
    · rw [if_pos hf, if_pos hf]
      exact Or.inl ⟨rfl, rfl⟩
    · rw [if_neg hf, if_neg hf]
      rcases leadCreate_cases (assignCall st.1 companyId).1
          { payload with assignedTo := (assignCall st.1 companyId).2 }
        with ⟨hl, -, e, he⟩ | ⟨lead, -, -, hok, hl, -⟩
      · rw [he]
        dsimp only
        refine ⟨by rw [hl, assignCall_leads], ?_⟩
        cases e <;> rfl
      · rw [hok]
        dsimp only
        exact Or.inr ⟨lead, by rw [hl, assignCall_leads], rfl⟩

/-- One iteration either writes one lead and counts it as created, or writes nothing
and appends one record with the 1-based number of the row. -/
theorem importRow_step (companyId : ObjectId) (st : Db × ImportAcc) (index : Nat) (r : Row) :
    ((importRow companyId st index r).1.leads = st.1.leads ∧
      (importRow companyId st index r).2.created = st.2.created ∧
      (importRow companyId st index r).2.skipped + (importRow companyId st index r).2.errors
        = st.2.skipped + st.2.errors + 1 ∧
      ∃ reason, (importRow companyId st index r).2.skippedRows
        = st.2.skippedRows ++ [⟨index + 1, reason, r⟩]) ∨
    (∃ lead, (importRow companyId st index r).1.leads = st.1.leads ++ [lead] ∧
      (importRow companyId st index r).2 = { st.2 with created := st.2.created + 1 }) := by
  have h := importRow_outcome companyId st index r
  cases he : rowError companyId st.1 r with
  | some err =>
    rw [he] at h
    obtain ⟨hl, ha⟩ := h
    left
    refine ⟨hl, ?_⟩
    rw [ha]
    rcases err with _ | e
    · exact ⟨rfl, by dsimp only; omega, _, rfl⟩
    · cases e
      · exact ⟨rfl, by dsimp only; omega, _, rfl⟩
      · exact ⟨rfl, by dsimp only; omega, _, rfl⟩
  | none =>
    rw [he] at h
    rcases h with ⟨hl, ha⟩ | h
    · left
      refine ⟨hl, ?_⟩
      rw [ha]
      exact ⟨rfl, by dsimp only; omega, _, rfl⟩
    · exact Or.inr h

theorem append_singleton_ne {α : Type} (l : List α) (a : α) : l ++ [a] ≠ l := by
  intro h
  have := congrArg List.length h
  simp at this

/-- The invariant of the row loop. -/
theorem importRows_report (companyId : ObjectId) (rows : List Row) (st : Db × ImportAcc)
    (start : Nat) :
    ∃ entries, (importRows companyId st start rows).2.skippedRows = st.2.skippedRows ++ entries ∧
      (importRows companyId st start rows).2.created
          + (importRows companyId st start rows).2.skipped
          + (importRows companyId st start rows).2.errors
        = st.2.created + st.2.skipped + st.2.errors + rows.length ∧
      (importRows companyId st start rows).2.skipped
          + (importRows companyId st start rows).2.errors
        = st.2.skipped + st.2.errors + entries.length ∧
      (importRows companyId st start rows).1.leads.length + st.2.created
        = st.1.leads.length + (importRows companyId st start rows).2.created ∧
      List.Sublist (entries.map (fun x => (x.row, x.data))) (rows.enumFrom (start + 1)) ∧
      (∀ x ∈ entries, start < x.row) ∧
      (∀ i r, rows[i]? = some r →
        (start + i + 1 ∈ entries.map (fun x => x.row) ↔
          (importRow companyId (importRows companyId st start (rows.take i)) (start + i) r).1.leads
            = (importRows companyId st start (rows.take i)).1.leads)) := by
  induction rows generalizing st start with
  | nil =>
    refine ⟨[], by simp [importRows], by simp [importRows], by simp [importRows],
      by simp [importRows], by simp, by simp, ?_⟩
    intro i r h
    simp at h
  | cons r rest ih =>
    obtain ⟨entries, hsk, hsum, hlen, hleads, hsub, hlow, hiff⟩ :=
      ih (importRow companyId st start r) (start + 1)
    have hrun : importRows companyId st start (r :: rest)
        = importRows companyId (importRow companyId st start r) (start + 1) rest := rfl
    rw [hrun]
    rcases importRow_step companyId st start r with ⟨hl, hc, hse, reason, hrec⟩ | ⟨lead, hl, ha⟩
    · refine ⟨⟨start + 1, reason, r⟩ :: entries, ?_, ?_, ?_, ?_, ?_, ?_, ?_⟩
      · rw [hsk, hrec, List.append_assoc]
        rfl
      · rw [hsum, hc, List.length_cons]
        omega
      · rw [hlen, List.length_cons]
        omega
      · rw [hc, hl] at hleads
        exact hleads
      · rw [List.enumFrom_cons, List.map_cons]
        exact hsub.cons₂ _
      · intro x hx
        rcases List.mem_cons.1 hx with rfl | hx
        · exact Nat.lt_succ_self _
        · exact Nat.lt_of_succ_lt (hlow x hx)
      · intro i r2 hi
        cases i with
        | zero =>
          have hr : r2 = r := by simpa using hi.symm
          subst hr
          simp only [List.take_zero, importRows, Nat.add_zero]
          constructor
          · intro _
            exact hl
          · intro _
            simp
        | succ j =>
          have hj : rest[j]? = some r2 := by simpa using hi
          have := hiff j r2 hj
          have htake : importRows companyId st start ((r :: rest).take (j + 1))
              = importRows companyId (importRow companyId st start r) (start + 1)
                  (rest.take j) := rfl
          rw [htake]
          have hidx : start + (j + 1) = start + 1 + j := by omega
          rw [hidx, ← this]
          simp only [List.map_cons, List.mem_cons]
          constructor
          · rintro (h | h)
            · omega
            · exact h
          · exact Or.inr
    · refine ⟨entries, ?_, ?_, ?_, ?_, ?_, ?_, ?_⟩
      · rw [hsk, ha]
      · rw [hsum, ha, List.length_cons]
        dsimp only
        omega
      · rw [hlen, ha]
      · rw [ha, hl, List.length_append] at hleads
        simp only [List.length_singleton] at hleads
        omega
      · rw [List.enumFrom_cons]
        exact hsub.cons _
      · intro x hx
        exact Nat.lt_of_succ_lt (hlow x hx)
      · intro i r2 hi
        cases i with
        | zero =>
          have hr : r2 = r := by simpa using hi.symm
          subst hr
          simp only [List.take_zero, importRows, Nat.add_zero]
          constructor
          · intro hmem
            obtain ⟨x, hx, hxr⟩ := List.mem_map.1 hmem
            have := hlow x hx
            omega
          · intro hsame
            rw [hl] at hsame
            exact absurd hsame (append_singleton_ne _ _)
        | succ j =>
          have hj : rest[j]? = some r2 := by simpa using hi
          have := hiff j r2 hj
          have htake : importRows companyId st start ((r :: rest).take (j + 1))
              = importRows companyId (importRow companyId st start r) (start + 1)
                  (rest.take j) := rfl
          rw [htake]
          have hidx : start + (j + 1) = start + 1 + j := by omega
          rw [hidx, ← this]

theorem loopAfter_snoc (db : Db) (companyId : ObjectId) (pre post : List Row) (r : Row) :
    loopAfter db companyId (pre ++ r :: post)
      = importRows companyId (importRow companyId (loopAfter db companyId pre) pre.length r)
          (pre.length + 1) post := by
  unfold loopAfter
  rw [importRows_append, Nat.zero_add]
  rfl

/-- The three rejections of `importCsv` that are answered: a missing `companyId`, a
well-formed `companyId` that no company has, and an unsupported extension. Each is
answered 400 or 404, leaves the leads as they were, and adds to the trace at most the
company lookup and the removal of the file. -/
theorem importCsv_rejections (db : Db) (req : ImportReq) (file : UploadedFile)
    (hfile : req.file = some file)
    (h : req.companyId = none ∨ req.companyId = some (.malformed "") ∨
      ∃ companyId, req.companyId = some (.valid companyId) ∧
        ((companyFindById db companyId).2 = none ∨
          ¬ (toLowerCase (extname file.originalname) = ".csv" ∨
            toLowerCase (extname file.originalname) = ".xlsx" ∨
            toLowerCase (extname file.originalname) = ".xls"))) :
    ∃ resp added, (importCsv db req).2 = some resp ∧ (resp.status = 400 ∨ resp.status = 404) ∧
      (importCsv db req).1.leads = db.leads ∧
      (importCsv db req).1.trace = db.trace ++ added ∧
      ∀ e ∈ added, (∃ companyId, e = Effect.companyFindById companyId) ∨
        e = Effect.unlink file.path := by
  have hun : ∀ d : Db, ∃ added, (safeUnlink d file.path).trace = d.trace ++ added ∧
      ∀ e ∈ added, e = Effect.unlink file.path := by
    intro d
    unfold safeUnlink
    by_cases hp : file.path = ""
    · rw [if_pos hp]
      exact ⟨[], by simp, by simp⟩
    · rw [if_neg hp]
      exact ⟨[Effect.unlink file.path], rfl, by simp⟩
  unfold importCsv
  rw [hfile]
  dsimp only
  rcases h with h | h | ⟨companyId, hc, h⟩
  · rw [h]
    dsimp only
    obtain ⟨added, ha, hall⟩ := hun db
    exact ⟨_, added, rfl, Or.inl rfl, safeUnlink_leads _ _, ha, fun e he => Or.inr (hall e he)⟩
  · rw [h]
    dsimp only
    rw [if_pos rfl]
    obtain ⟨added, ha, hall⟩ := hun db
    exact ⟨_, added, rfl, Or.inl rfl, safeUnlink_leads _ _, ha, fun e he => Or.inr (hall e he)⟩
  · rw [hc]
    dsimp only
    obtain ⟨added, ha, hall⟩ := hun (companyFindById db companyId).1
    have htr : (safeUnlink (companyFindById db companyId).1 file.path).trace
        = db.trace ++ (Effect.companyFindById companyId :: added) := by
      rw [ha]
      show (db.trace ++ [Effect.companyFindById companyId]) ++ added = _
      rw [List.append_assoc]
      rfl
    have hmem : ∀ e ∈ Effect.companyFindById companyId :: added,
        (∃ c, e = Effect.companyFindById c) ∨ e = Effect.unlink file.path := by
      intro e he
      rcases List.mem_cons.1 he with rfl | he
      · exact Or.inl ⟨companyId, rfl⟩
      · exact Or.inr (hall e he)
    cases hfound : (companyFindById db companyId).2 with
    | none =>
      dsimp only
      exact ⟨_, _, rfl, Or.inr rfl, by rw [safeUnlink_leads, companyFindById_leads], htr, hmem⟩
    | some company =>
      rcases h with h | h
      · rw [hfound] at h
        cases h
      · dsimp only
        rw [if_neg h]
        exact ⟨_, _, rfl, Or.inl rfl, by rw [safeUnlink_leads, companyFindById_leads], htr, hmem⟩

/-- Whenever `importCsv` answers a request that carries a file, the removal of the
file has been invoked. -/
theorem importCsv_answered_unlinks (db : Db) (req : ImportReq) (file : UploadedFile)
    (resp : Response) (hfile : req.file = some file) (hpath : file.path ≠ "")
    (hresp : (importCsv db req).2 = some resp) :
    Effect.unlink file.path ∈ (importCsv db req).1.trace := by
  have hun : ∀ d : Db, Effect.unlink file.path ∈ (safeUnlink d file.path).trace := by
    intro d
    unfold safeUnlink
    rw [if_neg hpath]
    simp
  unfold importCsv at hresp ⊢
  rw [hfile] at hresp ⊢
  dsimp only at hresp ⊢
  cases hc : req.companyId with
  | none => exact hun _
  | some param =>
    rw [hc] at hresp
    cases param with
    | malformed text =>
      dsimp only at hresp ⊢
      by_cases ht : text = ""
      · rw [if_pos ht]
        exact hun _
      · rw [if_neg ht] at hresp
        cases hresp
    | valid companyId =>
      dsimp only
      cases hfound : (companyFindById db companyId).2 with
      | none => exact hun _
      | some company =>
        dsimp only
        by_cases hext : toLowerCase (extname file.originalname) = ".csv" ∨
            toLowerCase (extname file.originalname) = ".xlsx" ∨
            toLowerCase (extname file.originalname) = ".xls"
        · rw [if_pos hext]
          cases hparsed : req.parsed with
          | error _ => exact hun _
          | ok results => exact hun _
        · rw [if_neg hext]
          exact hun _

/-- A row without a usable phone whose payload builds is skipped. -/
theorem importRow_missing_phone (companyId : ObjectId) (st : Db × ImportAcc) (index : Nat)
    (r : Row) (hb : rowBuilds companyId r = true) (hp : rowPhone r = "") :
    importRow companyId st index r
      = (st.1, { st.2 with
          skipped := st.2.skipped + 1
          skippedRows := st.2.skippedRows ++ [⟨index + 1, "Missing phone", r⟩] }) := by
  unfold rowBuilds at hb
  obtain ⟨p, hpay⟩ := Option.isSome_iff_exists.1 hb
  have hph := (importPayload_fields companyId r p hpay).2
  unfold importRow
  rw [hpay]
  dsimp only
  rw [if_pos (by rw [hph, hp])]

/-- A row with a phone that no stored lead of the company has, and whose payload the
model accepts, creates one lead with that phone. -/
theorem importRow_creates (companyId : ObjectId) (st : Db × ImportAcc) (index : Nat)
    (r : Row) (hacc : rowAccepted companyId r = true) (hp : rowPhone r ≠ "")
    (hfresh : ∀ l ∈ st.1.leads, ¬ (l.companyId = companyId ∧ l.phone = rowPhone r)) :
    ∃ lead, (importRow companyId st index r).1.leads = st.1.leads ++ [lead] ∧
      lead.companyId = companyId ∧ lead.phone = rowPhone r ∧
      (importRow companyId st index r).2 = { st.2 with created := st.2.created + 1 } := by
  unfold rowAccepted at hacc
  cases hpay : importPayload companyId r with
  | none => rw [hpay] at hacc; cases hacc
  | some p =>
    rw [hpay] at hacc
    dsimp only at hacc
    cases hbuild : buildLead p with
    | error e => rw [hbuild] at hacc; cases hacc
    | ok lead0 =>
      obtain ⟨hcid, hph⟩ := importPayload_fields companyId r p hpay
      have hb2 : buildLead { p with assignedTo := (assignCall st.1 companyId).2 }
          = .ok { lead0 with assignedTo := (assignCall st.1 companyId).2 } := by
        rw [buildLead_assignedTo, hbuild]
        rfl
      obtain ⟨hc0, hp0, -, -⟩ := buildLead_ok _ _ hb2
      have hc1 : lead0.companyId = companyId := by
        have : some companyId = some lead0.companyId := by rw [← hcid]; exact hc0
        exact (Option.some.inj this).symm
      have hp1 : lead0.phone = rowPhone r := by
        have h1 : castTrimmed p.phone = some lead0.phone := hp0
        rw [hph] at h1
        have h2 : castTrimmed (.str (rowPhone r)) = some (jsTrim (rowPhone r)) := rfl
        rw [h2, rowPhone_trimmed] at h1
        exact (Option.some.inj h1).symm
      have hv : violatesUniqueIndex (assignCall st.1 companyId).1.leads
          { lead0 with assignedTo := (assignCall st.1 companyId).2 } = false := by
        rw [assignCall_leads]
        unfold violatesUniqueIndex
        rw [List.any_eq_false]
        intro l hl
        have := hfresh l hl
        simp only [Bool.and_eq_true, beq_iff_eq, hc1, hp1]
        exact this
      have hne : p.phone ≠ .str "" := by
        rw [hph]
        intro h
        exact hp (JsVal.str.inj h)
      refine ⟨{ lead0 with assignedTo := (assignCall st.1 companyId).2 }, ?_, hc1, hp1, ?_⟩
      · unfold importRow
        rw [hpay]
        dsimp only
        rw [if_neg hne]
        dsimp only
        unfold leadCreate
        rw [hb2]
        dsimp only
        rw [hv]
        simp only [Bool.false_eq_true, if_false]
        rw [assignCall_leads]
      · unfold importRow
        rw [hpay]
        dsimp only
        rw [if_neg hne]
        dsimp only
        unfold leadCreate
        rw [hb2]
        dsimp only
        rw [hv]
        simp only [Bool.false_eq_true, if_false]

/-- The row loop over rows that build, whose phones are pairwise distinct and not yet
stored for the company, and which the model accepts when they carry a phone. -/
theorem importRows_valid (companyId : ObjectId) (rows : List Row) (st : Db × ImportAcc)
    (start : Nat)
    (hbuild : ∀ r ∈ rows, rowBuilds companyId r = true)
    (hvalid : ∀ r ∈ rows, rowPhone r ≠ "" → rowAccepted companyId r = true)
    (hdistinct : ((rows.filter (fun r => rowPhone r != "")).map rowPhone).Nodup)
    (hfresh : ∀ r ∈ rows, rowPhone r ≠ "" →
      ∀ l ∈ st.1.leads, ¬ (l.companyId = companyId ∧ l.phone = rowPhone r)) :
    (importRows companyId st start rows).2
      = ⟨st.2.created + (rows.filter (fun r => rowPhone r != "")).length,
          st.2.skipped + (rows.filter (fun r => rowPhone r == "")).length,
          st.2.errors,
          st.2.skippedRows ++ missingPhoneRows start rows⟩ ∧
    ∃ created, (importRows companyId st start rows).1.leads = st.1.leads ++ created ∧
      created.map (fun l => (l.companyId, l.phone))
        = (rows.filter (fun r => rowPhone r != "")).map (fun r => (companyId, rowPhone r)) := by
  induction rows generalizing st start with
  | nil => exact ⟨by simp [importRows, missingPhoneRows], [], by simp [importRows], rfl⟩
  | cons r rest ih =>
    have hrun : importRows companyId st start (r :: rest)
        = importRows companyId (importRow companyId st start r) (start + 1) rest := rfl
    rw [hrun]
    have hbuild2 : ∀ x ∈ rest, rowBuilds companyId x = true :=
      fun x hx => hbuild x (List.mem_cons_of_mem _ hx)
    have hvalid2 : ∀ x ∈ rest, rowPhone x ≠ "" → rowAccepted companyId x = true :=
      fun x hx => hvalid x (List.mem_cons_of_mem _ hx)
    by_cases hp : rowPhone r = ""
    · have hf1 : (r :: rest).filter (fun r => rowPhone r != "")
          = rest.filter (fun r => rowPhone r != "") :=
        List.filter_cons_of_neg (by simp [hp])
      have hf2 : (r :: rest).filter (fun r => rowPhone r == "")
          = r :: rest.filter (fun r => rowPhone r == "") :=
        List.filter_cons_of_pos (by simp [hp])
      rw [hf1] at hdistinct ⊢
      rw [hf2]
      have hstep := importRow_missing_phone companyId st start r
        (hbuild r (List.mem_cons_self _ _)) hp
      obtain ⟨hacc, created, hl, hmap⟩ := ih (importRow companyId st start r) (start + 1)
        hbuild2 hvalid2 hdistinct
        (by
          intro x hx hxp l hl
          rw [hstep] at hl
          exact hfresh x (List.mem_cons_of_mem _ hx) hxp l hl)
      refine ⟨?_, created, ?_, hmap⟩
      · rw [hacc, hstep]
        simp only [missingPhoneRows, hp, if_true, List.length_cons, List.append_assoc,
          ImportAcc.mk.injEq, and_true, true_and]
        omega
      · rw [hl, hstep]
    · have hf1 : (r :: rest).filter (fun r => rowPhone r != "")
          = r :: rest.filter (fun r => rowPhone r != "") :=
        List.filter_cons_of_pos (by simp [hp])
      have hf2 : (r :: rest).filter (fun r => rowPhone r == "")
          = rest.filter (fun r => rowPhone r == "") :=
        List.filter_cons_of_neg (by simp [hp])
      rw [hf1] at hdistinct ⊢
      rw [hf2]
      rw [List.map_cons, List.nodup_cons] at hdistinct
      obtain ⟨lead, hleads, hlc, hlp, hstep⟩ := importRow_creates companyId st start r
        (hvalid r (List.mem_cons_self _ _) hp) hp (hfresh r (List.mem_cons_self _ _) hp)
      obtain ⟨hacc, created, hl, hmap⟩ := ih (importRow companyId st start r) (start + 1)
        hbuild2 hvalid2 hdistinct.2
        (by
          intro x hx hxp l hl
          rw [hleads] at hl
          rcases List.mem_append.1 hl with hl | hl
          · exact hfresh x (List.mem_cons_of_mem _ hx) hxp l hl
          · rw [List.mem_singleton] at hl
            subst hl
            rintro ⟨-, hsame⟩
            apply hdistinct.1
            rw [← hlp, hsame]
            exact List.mem_map_of_mem _ (List.mem_filter.2 ⟨hx, by simpa using hxp⟩))
      refine ⟨?_, lead :: created, ?_, ?_⟩
      · rw [hacc, hstep]
        simp only [missingPhoneRows, hp, if_false, List.length_cons, List.nil_append,
          ImportAcc.mk.injEq, and_true, true_and]
        omega
      · rw [hl, hleads, List.append_assoc]
        rfl
      · rw [List.map_cons, List.map_cons, hmap, hlc, hlp]

/-! ## Properties of the bulk import -/

/-- C16: evaluation at a three-row import into an existing company whose rows 1 and 3
carry distinct new phones and valid fields, and whose row 2 has no phone but a number
in the column Location, as a spreadsheet yields it. Row 2 is not skipped with reason
Missing phone: `.trim()` is called on the number, the `TypeError` is caught by the
row, and the row is counted as an error with reason Unexpected error. A number in a
phone cell is converted with `String` first and is accepted. -/
theorem C16_phoneless_row_counted_as_error :
    ReachesLoop sampleDb pinCodeImport ⟨"tmp/upload-5", "three.xlsx"⟩ 1
        ⟨1, "Savan", some "page-1"⟩ pinCodeRows ∧
    (∀ r ∈ pinCodeRows, rowPhone r ≠ "" → rowAccepted 1 r = true) ∧
    ((pinCodeRows.filter (fun r => rowPhone r != "")).map rowPhone).Nodup ∧
    sampleDb.leads = [] ∧
    pinCodeRows[1]?.map rowPhone = some "" ∧
    (importCsv sampleDb pinCodeImport).2
      = some ⟨200, .importReport "Import completed for company Savan" ⟨2, 0, 1, 3⟩
          [⟨2, "Unexpected error", [("First Name", .str "Binu"), ("Location", .num 560001)]⟩]⟩ ∧
    rowPhone [("First Name", .str "Chitra"), ("phone", .num 901)] = "901" ∧
    rowAccepted 1 [("First Name", .str "Chitra"), ("phone", .num 901)] = true :=
  ⟨⟨rfl, rfl, rfl, Or.inr (Or.inl (by decide)), rfl⟩, by decide, by decide, rfl, by decide,
    by decide, by decide, by decide⟩

/-- The report of an import of valid rows: when the payload of every row builds (every
cell of a trimmed column holds text), the rows that carry a phone are accepted by the
model, and their
trimmed phones are pairwise distinct and not yet stored for the company, then the
request is answered 200 with created = the number of rows with a phone, skipped = the
number of rows without one, errors = 0, total = the number of rows, and skippedRows =
one entry per row without a phone, in order, with its 1-based row number and the
reason Missing phone; the leads grow by one lead of the company per row with a phone,
in order, with the phone of the row. -/
theorem importCsv_valid_rows (db : Db) (req : ImportReq) (file : UploadedFile)
    (companyId : ObjectId) (company : Company) (rows : List Row)
    (hreach : ReachesLoop db req file companyId company rows)
    (hbuild : ∀ r ∈ rows, rowBuilds companyId r = true)
    (hvalid : ∀ r ∈ rows, rowPhone r ≠ "" → rowAccepted companyId r = true)
    (hdistinct : ((rows.filter (fun r => rowPhone r != "")).map rowPhone).Nodup)
    (hfresh : ∀ r ∈ rows, rowPhone r ≠ "" →
      ∀ l ∈ db.leads, ¬ (l.companyId = companyId ∧ l.phone = rowPhone r)) :
    (importCsv db req).2
      = some ⟨200, .importReport ("Import completed for company " ++ company.companyName)
          ⟨(rows.filter (fun r => rowPhone r != "")).length,
            (rows.filter (fun r => rowPhone r == "")).length, 0, rows.length⟩
          (missingPhoneRows 0 rows)⟩ ∧
    ∃ created, (importCsv db req).1.leads = db.leads ++ created ∧
      created.map (fun l => (l.companyId, l.phone))
        = (rows.filter (fun r => rowPhone r != "")).map (fun r => (companyId, rowPhone r)) := by
  obtain ⟨hacc, created, hl, hmap⟩ :=
    importRows_valid companyId rows (importStart db companyId) 0 hbuild hvalid hdistinct hfresh
  rw [importCsv_loop db req file companyId company rows hreach]
  refine ⟨?_, created, ?_, hmap⟩
  · dsimp only
    rw [hacc]
    simp [importStart]
  · dsimp only
    rw [safeUnlink_leads, hl]
    rfl

theorem importCsv_valid_rows_example :
    ReachesLoop sampleDb threeRowImport ⟨"tmp/upload-2", "three.csv"⟩ 1
        ⟨1, "Savan", some "page-1"⟩ threeRows ∧
    (∀ r ∈ threeRows, rowBuilds 1 r = true) ∧
    (∀ r ∈ threeRows, rowPhone r ≠ "" → rowAccepted 1 r = true) ∧
    ((threeRows.filter (fun r => rowPhone r != "")).map rowPhone).Nodup ∧
    (∀ r ∈ threeRows, rowPhone r ≠ "" →
      ∀ l ∈ sampleDb.leads, ¬ (l.companyId = 1 ∧ l.phone = rowPhone r)) ∧
    (importCsv sampleDb threeRowImport).2
      = some ⟨200, .importReport "Import completed for company Savan" ⟨2, 1, 0, 3⟩
          [⟨2, "Missing phone",
            [("First Name", .str "Binu"), ("Email", .str "binu@example.com")]⟩]⟩ :=
  ⟨⟨rfl, rfl, rfl, Or.inl (by decide), rfl⟩, by decide, by decide, by decide,
    by simp [sampleDb],
    ((importCsv_valid_rows sampleDb threeRowImport ⟨"tmp/upload-2", "three.csv"⟩ 1
      ⟨1, "Savan", some "page-1"⟩ threeRows ⟨rfl, rfl, rfl, Or.inl (by decide), rfl⟩
      (by decide) (by decide) (by decide) (by simp [sampleDb])).1).trans (by decide)⟩

/-- C17: per-row isolation in importCsv. When the processing of row `r` (after the
rows `pre`, before the rows `post`) raises an exception `err`, no lead is written for
it, exactly one counter goes up by one (skipped for a duplicate key, errors otherwise)
and exactly one record with its 1-based row number, the reason and the row is
appended; the loop then runs over every row of `post`, each of which is counted, and
the request is answered 200 with the report. -/
theorem C17_row_isolation (db : Db) (req : ImportReq) (file : UploadedFile)
    (companyId : ObjectId) (company : Company) (pre post : List Row) (r : Row) (err : RowError)
    (hreach : ReachesLoop db req file companyId company (pre ++ r :: post))
    (hfail : rowError companyId (loopAfter db companyId pre).1 r = some err) :
    (importRow companyId (loopAfter db companyId pre) pre.length r).1.leads
      = (loopAfter db companyId pre).1.leads ∧
    (importRow companyId (loopAfter db companyId pre) pre.length r).2
      = (if err = .store .duplicateKey then
          { (loopAfter db companyId pre).2 with
            skipped := (loopAfter db companyId pre).2.skipped + 1
            skippedRows := (loopAfter db companyId pre).2.skippedRows
              ++ [⟨pre.length + 1, "Duplicate phone/email", r⟩] }
        else
          { (loopAfter db companyId pre).2 with
            errors := (loopAfter db companyId pre).2.errors + 1
            skippedRows := (loopAfter db companyId pre).2.skippedRows
              ++ [⟨pre.length + 1, "Unexpected error", r⟩] }) ∧
    loopAfter db companyId (pre ++ r :: post)
      = importRows companyId (importRow companyId (loopAfter db companyId pre) pre.length r)
          (pre.length + 1) post ∧
    (loopAfter db companyId (pre ++ r :: post)).2.created
        + (loopAfter db companyId (pre ++ r :: post)).2.skipped
        + (loopAfter db companyId (pre ++ r :: post)).2.errors
      = (importRow companyId (loopAfter db companyId pre) pre.length r).2.created
        + (importRow companyId (loopAfter db companyId pre) pre.length r).2.skipped
        + (importRow companyId (loopAfter db companyId pre) pre.length r).2.errors
        + post.length ∧
    (importCsv db req).2
      = some ⟨200, .importReport ("Import completed for company " ++ company.companyName)
          ⟨(loopAfter db companyId (pre ++ r :: post)).2.created,
            (loopAfter db companyId (pre ++ r :: post)).2.skipped,
            (loopAfter db companyId (pre ++ r :: post)).2.errors,
            (pre ++ r :: post).length⟩
          (loopAfter db companyId (pre ++ r :: post)).2.skippedRows⟩ := by
  have h := importRow_outcome companyId (loopAfter db companyId pre) pre.length r
  rw [hfail] at h
  refine ⟨h.1, ?_, loopAfter_snoc db companyId pre post r, ?_, ?_⟩
  · rw [h.2]
    rcases err with _ | e
    · rfl
    · cases e <;> rfl
  · rw [loopAfter_snoc]
    obtain ⟨_, -, hsum, -⟩ := importRows_report companyId post
      (importRow companyId (loopAfter db companyId pre) pre.length r) (pre.length + 1)
    exact hsum
  · rw [importCsv_loop db req file companyId company _ hreach]
    rfl

theorem C17_row_isolation_witness :
    ReachesLoop sampleDb sampleImport ⟨"tmp/upload-1", "leads.csv"⟩ 1 ⟨1, "Savan", some "page-1"⟩
      ([ [("First Name", .str "Asha"), ("Phone No", .str "900")],
          [("First Name", .str "Binu")],
          [("First Name", .str "Chitra"), ("phone", .num 901)] ]
        ++ [("First Name", .str "Dev"), ("Phone", .str " 900 ")]
          :: [ [("First Name", .str "Esha"), ("mobile", .str "902")],
              [("First Name", .str "Farid"), ("mobile", .str "903")] ]) ∧
    rowError 1
        (loopAfter sampleDb 1
          [ [("First Name", .str "Asha"), ("Phone No", .str "900")],
            [("First Name", .str "Binu")],
            [("First Name", .str "Chitra"), ("phone", .num 901)] ]).1
        [("First Name", .str "Dev"), ("Phone", .str " 900 ")]
      = some (.store .duplicateKey) ∧
    (importCsv sampleDb sampleImport).2
      = some ⟨200, .importReport "Import completed for company Savan" ⟨4, 2, 0, 6⟩
          [⟨2, "Missing phone", [("First Name", .str "Binu")]⟩,
            ⟨4, "Duplicate phone/email",
              [("First Name", .str "Dev"), ("Phone", .str " 900 ")]⟩]⟩ :=
  ⟨⟨rfl, rfl, rfl, Or.inl (by decide), rfl⟩, by decide,
    ((C17_row_isolation sampleDb sampleImport ⟨"tmp/upload-1", "leads.csv"⟩ 1
      ⟨1, "Savan", some "page-1"⟩
      [ [("First Name", .str "Asha"), ("Phone No", .str "900")],
        [("First Name", .str "Binu")],
        [("First Name", .str "Chitra"), ("phone", .num 901)] ]
      [ [("First Name", .str "Esha"), ("mobile", .str "902")],
        [("First Name", .str "Farid"), ("mobile", .str "903")] ]
      [("First Name", .str "Dev"), ("Phone", .str " 900 ")]
      (.store .duplicateKey)
      ⟨rfl, rfl, rfl, Or.inl (by decide), rfl⟩ (by decide)).2.2.2.2).trans (by decide)⟩

/-- C18: the report of a bulk import that reaches the row loop. The counters add up
to the total, which is the number of parsed rows; skippedRows has skipped + errors
entries, each the 1-based number and the data of a row of the file, in strictly
ascending order of row number; the leads grow by created; and a row has an entry in
skippedRows exactly when its turn of the loop wrote no lead. -/
theorem C18_report_invariants (db : Db) (req : ImportReq) (file : UploadedFile)
    (companyId : ObjectId) (company : Company) (rows : List Row)
    (hreach : ReachesLoop db req file companyId company rows) :
    ∃ message created skipped errors skippedRows,
      (importCsv db req).2
        = some ⟨200, .importReport message ⟨created, skipped, errors, rows.length⟩ skippedRows⟩ ∧
      created + skipped + errors = rows.length ∧
      skippedRows.length = skipped + errors ∧
      (importCsv db req).1.leads.length = db.leads.length + created ∧
      List.Sublist (skippedRows.map (fun x => (x.row, x.data))) (rows.enumFrom 1) ∧
      (skippedRows.map (fun x => x.row)).Pairwise (fun a b => a < b) ∧
      (∀ i r, rows[i]? = some r →
        (i + 1 ∈ skippedRows.map (fun x => x.row) ↔
          (importRow companyId (loopAfter db companyId (rows.take i)) i r).1.leads
            = (loopAfter db companyId (rows.take i)).1.leads)) := by
  obtain ⟨entries, hsk, hsum, hlen, hleads, hsub, -, hiff⟩ :=
    importRows_report companyId rows (importStart db companyId) 0
  have hstart : (importStart db companyId).2 = ⟨0, 0, 0, []⟩ := rfl
  have hsl : (importStart db companyId).1.leads = db.leads := rfl
  rw [hstart] at hsk hsum hlen hleads
  rw [hsl] at hleads
  simp only [List.nil_append, Nat.add_zero, Nat.zero_add] at hsk hsum hlen hleads hsub
  refine ⟨_, _, _, _, _, congrArg Prod.snd (importCsv_loop db req file companyId company rows hreach),
    hsum, ?_, ?_, ?_, ?_, ?_⟩
  · rw [hsk, hlen]
  · rw [importCsv_loop db req file companyId company rows hreach]
    simp only [safeUnlink_leads]
    exact hleads
  · rw [hsk]
    exact hsub
  · rw [hsk]
    have hp : ((entries.map (fun x => (x.row, x.data))).map Prod.fst).Pairwise
        (fun a b => a < b) := by
      refine List.Pairwise.sublist (hsub.map Prod.fst) ?_
      rw [List.enumFrom_map_fst]
      exact List.pairwise_lt_range' _ _
    rw [List.map_map] at hp
    exact hp
  · intro i r hi
    rw [hsk]
    have := hiff i r hi
    simp only [Nat.zero_add] at this
    exact this

theorem C18_report_invariants_witness :
    ReachesLoop sampleDb threeRowImport ⟨"tmp/upload-2", "three.csv"⟩ 1
        ⟨1, "Savan", some "page-1"⟩ threeRows ∧
      ∃ message created skipped errors skippedRows,
        (importCsv sampleDb threeRowImport).2
          = some ⟨200,
              .importReport message ⟨created, skipped, errors, threeRows.length⟩ skippedRows⟩ ∧
        created + skipped + errors = threeRows.length ∧
        skippedRows.length = skipped + errors ∧
        (importCsv sampleDb threeRowImport).1.leads.length = sampleDb.leads.length + created ∧
        List.Sublist (skippedRows.map (fun x => (x.row, x.data))) (threeRows.enumFrom 1) ∧
        (skippedRows.map (fun x => x.row)).Pairwise (fun a b => a < b) ∧
        (∀ i r, threeRows[i]? = some r →
          (i + 1 ∈ skippedRows.map (fun x => x.row) ↔
            (importRow 1 (loopAfter sampleDb 1 (threeRows.take i)) i r).1.leads
              = (loopAfter sampleDb 1 (threeRows.take i)).1.leads)) :=
  ⟨⟨rfl, rfl, rfl, Or.inl (by decide), rfl⟩,
    C18_report_invariants sampleDb threeRowImport ⟨"tmp/upload-2", "three.csv"⟩ 1
      ⟨1, "Savan", some "page-1"⟩ threeRows ⟨rfl, rfl, rfl, Or.inl (by decide), rfl⟩⟩

/-- C19: evaluation at a request whose `companyId` is not the text of an ObjectId, so
that it matches no company. The lookup of the company throws outside every `try`
block: the handler answers nothing, neither 400 nor 404. (Nothing is written and no
assignment query is made.) The request with a well-formed id that no company has is
answered 404. -/
theorem C19_malformed_company_unanswered :
    malformedImport.companyId = some (.malformed "not-an-id") ∧
    importCsv sampleDb malformedImport = (sampleDb, none) ∧
    (importCsv sampleDb unknownCompanyImport).2 = some ⟨404, .message "Company not found"⟩ :=
  ⟨rfl, rfl, rfl⟩

/-- C20: evaluation at the same kind of request. On the path where the lookup of the
company fails, the handler ends without invoking the removal of the uploaded file,
whereas the path of the empty lookup invokes it. -/
theorem C20_failing_lookup_keeps_file :
    malformedImport.file = some ⟨"tmp/upload-3", "leads.csv"⟩ ∧
    Effect.unlink "tmp/upload-3" ∉ (importCsv sampleDb malformedImport).1.trace ∧
    (importCsv sampleDb unknownCompanyImport).1.trace
      = [Effect.companyFindById 7, Effect.unlink "tmp/upload-4"] :=
  ⟨rfl, by decide, rfl⟩

/-! ## Lemmas on the partition by load -/

theorem assign_eq_chooseByLoad (users : List User) (leads : List Lead) (companyId : ObjectId) :
    assignLeadToSalesperson users leads companyId
      = if (findSalespersons users companyId).length = 0 then none
        else chooseByLoad (findSalespersons users companyId)
          (newMap (aggregateActiveCounts leads
            ((findSalespersons users companyId).map (fun s => s._id)))) := rfl

/-- On a roster that is not empty the partition and `pickLeast` select the first
member of least count. -/
theorem chooseByLoad_first_min (roster : List User) (m : CountMap) (hne : roster ≠ []) :
    ∃ pre sp post, roster = pre ++ sp :: post ∧ chooseByLoad roster m = some sp._id ∧
      (∀ x ∈ pre, getCount m sp._id < getCount m x._id) ∧
      (∀ x ∈ post, getCount m sp._id ≤ getCount m x._id) := by
  unfold chooseByLoad
  simp only [partitionByLoad_eq]
  by_cases hu : (entriesOf roster m).filter (fun e => decide (e.cnt < 10)) = []
  · have hall : ∀ s ∈ roster, 10 ≤ getCount m s._id := by
      intro s hs
      by_contra hlt
      have : (⟨s._id, getCount m s._id⟩ : Entry) ∈
          (entriesOf roster m).filter (fun e => decide (e.cnt < 10)) := by
        simp only [List.mem_filter, entriesOf, List.mem_map, decide_eq_true_eq]
        exact ⟨⟨s, hs, rfl⟩, lt_of_not_le hlt⟩
      rw [hu] at this
      simp at this
    have hothers : (entriesOf roster m).filter (fun e => !decide (e.cnt < 10))
        = entriesOf roster m := by
      rw [List.filter_eq_self]
      intro e he
      obtain ⟨s, hs, rfl⟩ := List.mem_map.1 he
      have := hall s hs
      simp only [Bool.not_eq_true', decide_eq_false_iff_not, not_lt]
      exact this
    have hne2 : entriesOf roster m ≠ [] := by
      unfold entriesOf
      simpa using hne
    obtain ⟨pre', e, post', hsplit, hhead, hpre, hpost⟩ := head_sort_split _ hne2
    have hsplit2 : (roster.map (fun sp : User => (⟨sp._id, getCount m sp._id⟩ : Entry))).filter
        (fun _ => true) = pre' ++ e :: post' := by
      rw [List.filter_eq_self.2 (fun _ _ => rfl)]
      exact hsplit
    obtain ⟨pre, sp, post, hl, hx, -, h1, h2⟩ :=
      filter_map_split (fun sp : User => (⟨sp._id, getCount m sp._id⟩ : Entry))
        (fun _ => true) roster pre' e post' hsplit2
    rw [List.filter_eq_self.2 (fun _ _ => rfl)] at h1 h2
    have hcnt : e.cnt = getCount m sp._id := by rw [← hx]
    have hlen : (entriesOf roster m).length ≠ 0 := by
      simpa [List.length_eq_zero] using hne2
    refine ⟨pre, sp, post, hl, ?_, ?_, ?_⟩
    · simp only [hu, hothers, List.length_nil, ne_eq, not_true_eq_false, if_false, hlen,
        not_false_eq_true, if_true, pickLeast, hhead, Option.map_some', ← hx]
    · intro x hxp
      have := hpre ⟨x._id, getCount m x._id⟩ (by rw [← h1]; exact List.mem_map_of_mem _ hxp)
      rw [hcnt] at this
      exact this
    · intro x hxp
      have := hpost ⟨x._id, getCount m x._id⟩ (by rw [← h2]; exact List.mem_map_of_mem _ hxp)
      rw [hcnt] at this
      exact this
  · obtain ⟨pre', e, post', hsplit, hhead, hpre, hpost⟩ := head_sort_split _ hu
    obtain ⟨pre, sp, post, hl, hx, hpe, h1, h2⟩ :=
      filter_map_split (fun sp : User => (⟨sp._id, getCount m sp._id⟩ : Entry))
        (fun e => decide (e.cnt < 10)) roster pre' e post' hsplit
    have hcnt : e.cnt = getCount m sp._id := by rw [← hx]
    have h10 : getCount m sp._id < 10 := by
      rw [← hcnt]
      simpa using hpe
    have hu' : ((entriesOf roster m).filter (fun e => decide (e.cnt < 10))).length ≠ 0 := by
      simpa [List.length_eq_zero] using hu
    refine ⟨pre, sp, post, hl, ?_, ?_, ?_⟩
    · simp only [ne_eq, hu', not_false_eq_true, if_true, pickLeast, hhead, Option.map_some',
        ← hx]
    · intro x hxp
      by_cases hlt : getCount m x._id < 10
      · have hm : (⟨x._id, getCount m x._id⟩ : Entry) ∈ pre' := by
          rw [← h1]
          simp only [List.mem_filter, List.mem_map, decide_eq_true_eq]
          exact ⟨⟨x, hxp, rfl⟩, hlt⟩
        have := hpre _ hm
        rw [hcnt] at this
        exact this
      · omega
    · intro x hxp
      by_cases hlt : getCount m x._id < 10
      · have hm : (⟨x._id, getCount m x._id⟩ : Entry) ∈ post' := by
          rw [← h2]
          simp only [List.mem_filter, List.mem_map, decide_eq_true_eq]
          exact ⟨⟨x, hxp, rfl⟩, hlt⟩
        have := hpost _ hm
        rw [hcnt] at this
        exact this
      · omega

/-- The simpler policy on a roster split at its first member of least count. -/
theorem firstOfLeastCount_split (m : CountMap) (pre post : List User) (sp : User)
    (hpre : ∀ x ∈ pre, getCount m sp._id < getCount m x._id)
    (hpost : ∀ x ∈ post, getCount m sp._id ≤ getCount m x._id) :
    firstOfLeastCount (pre ++ sp :: post) m = some sp._id := by
  have hmin : ((pre ++ sp :: post).map (fun s => getCount m s._id)).min?
      = some (getCount m sp._id) := by
    rw [List.min?_eq_some_iff']
    constructor
    · exact List.mem_map_of_mem (fun (s : User) => getCount m s._id) (by simp)
    · intro b hb
      obtain ⟨x, hx, rfl⟩ := List.mem_map.1 hb
      rcases List.mem_append.1 hx with hx | hx
      · exact Nat.le_of_lt (hpre x hx)
      · rcases List.mem_cons.1 hx with rfl | hx
        · exact Nat.le_refl _
        · exact hpost x hx
  have hfind : (pre ++ sp :: post).find? (fun s => getCount m s._id == getCount m sp._id)
      = some sp := by
    rw [List.find?_append]
    have hnone : pre.find? (fun s => getCount m s._id == getCount m sp._id) = none := by
      rw [List.find?_eq_none]
      intro x hx
      have := hpre x hx
      simp only [beq_iff_eq]
      omega
    rw [hnone, List.find?_cons_of_pos _ (by simp)]
    rfl
  unfold firstOfLeastCount
  rw [hmin]
  dsimp only
  rw [hfind]
  rfl

/-! ## Properties of the partition by load -/

/-- C27: the partition into under-ten and others never changes the outcome. For every
roster and every map of active counts, the partition followed by `pickLeast` returns
what the simpler policy returns: the first salesperson in roster order whose count is
the minimum over the whole roster, null for an empty roster; and so does
`assignLeadToSalesperson` on every store, for the roster and the counts it reads. -/
theorem C27_partition_never_changes_outcome (roster : List User) (countMap : CountMap)
    (users : List User) (leads : List Lead) (companyId : ObjectId) :
    chooseByLoad roster countMap = firstOfLeastCount roster countMap ∧
    assignLeadToSalesperson users leads companyId
      = firstOfLeastCount (findSalespersons users companyId)
          (newMap (aggregateActiveCounts leads
            ((findSalespersons users companyId).map (fun s => s._id)))) := by
  have key : ∀ (r : List User) (m : CountMap), chooseByLoad r m = firstOfLeastCount r m := by
    intro r m
    by_cases hne : r = []
    · subst hne
      rfl
    · obtain ⟨pre, sp, post, hl, hres, hpre, hpost⟩ := chooseByLoad_first_min r m hne
      rw [hres, hl, firstOfLeastCount_split m pre post sp hpre hpost]
  refine ⟨key _ _, ?_⟩
  rw [assign_eq_chooseByLoad]
  by_cases hlen : (findSalespersons users companyId).length = 0
  · rw [if_pos hlen, List.length_eq_zero.1 hlen]
    rfl
  · rw [if_neg hlen]
    exact key _ _

/-- C28: `normalizeSource` is idempotent: applying it to its own result gives the same
label, each of the six labels facebook, google, walk_in, agent, csv, manual mapping to
itself. -/
theorem C28_normalizeSource_idempotent (raw : JsVal) :
    normalizeSource (.str (normalizeSource raw)) = normalizeSource raw ∧
    [ "facebook", "google", "walk_in", "agent", "csv", "manual" ].map
        (fun label => normalizeSource (.str label))
      = [ "facebook", "google", "walk_in", "agent", "csv", "manual" ] := by
  refine ⟨?_, by decide⟩
  rcases normalizeSource_range raw with h | h | h | h | h | h <;> rw [h] <;> decide

/-! ## Lemmas on budgets of several parts -/

theorem multiChars_props : ∀ c ∈ multiChars,
    lowerChar c = [c] ∧ (!(c.toNat == 0x20B9 || c == ',')) = true ∧ c ≠ 'l' ∧ c ≠ 'c' := by
  decide

theorem digit_multiChars (c : Char) (h : c ∈ digitChars) : c ∈ multiChars :=
  List.mem_append_left _ h

theorem tailsText_mem (tails : List RangeTail)
    (hsep : ∀ t ∈ tails, t.sep = "-" ∨ t.sep = "–" ∨ (t.sep = "to" ∧ 1 ≤ t.before ∧ 1 ≤ t.after)) :
    ∀ c ∈ tailsText tails, c ∈ multiChars := by
  induction tails with
  | nil => intro c hc; simp [tailsText] at hc
  | cons t rest ih =>
    intro c hc
    simp only [tailsText, List.mem_append] at hc
    rcases hc with (((h | h) | h) | h) | h
    · rw [mem_blanks _ c h]; decide
    · rcases hsep t (List.mem_cons_self _ _) with hs | hs | ⟨hs, -, -⟩ <;> rw [hs] at h <;>
        revert c <;> decide
    · rw [mem_blanks _ c h]; decide
    · exact digit_multiChars c ((numeral_spec t.value).2.1 c h)
    · exact ih (fun x hx => hsep x (List.mem_cons_of_mem _ hx)) c h

/-- Trimming leaves something of a text that holds a character other than white
space. -/
theorem trimChars_ne_nil (L : List Char) (c : Char) (hc : c ∈ L)
    (hws : isJsWhitespace c = false) : trimChars L ≠ [] := by
  intro h
  unfold trimChars at h
  rw [List.reverse_eq_nil_iff, List.dropWhile_eq_nil_iff] at h
  have hall : ∀ x ∈ L.dropWhile isJsWhitespace, isJsWhitespace x = true :=
    fun x hx => h x (List.mem_reverse.2 hx)
  have hnil : L.dropWhile isJsWhitespace = [] := by
    cases hd : L.dropWhile isJsWhitespace with
    | nil => rfl
    | cons a t =>
      have h1 := head_dropWhile _ _ a t hd
      have h2 := hall a (by rw [hd]; simp)
      rw [h1] at h2
      cases h2
  rw [List.dropWhile_eq_nil_iff] at hnil
  have := hnil c hc
  rw [hws] at this
  cases this

/-- The split at one separator: the piece read so far ends before the separator, and
the split goes on after it with an empty piece. -/
theorem splitBudgetAux_sep (X tail : List Char) (a b : Nat) (sep : String)
    (prev : Option Char) (cur : List Char) (hX : ∀ c ∈ X, c ∈ partChars)
    (hsep : sep = "-" ∨ sep = "–" ∨ (sep = "to" ∧ 1 ≤ a ∧ 1 ≤ b)) :
    ∃ prev2, splitBudgetAux prev false (X ++ (blanks a ++ sep.data ++ blanks b ++ tail)) cur
      = (cur.reverse ++ X ++ blanks a) :: splitBudgetAux prev2 false (blanks b ++ tail) [] := by
  have hplain : ∀ (l : List Char), (∀ c ∈ l, c ∈ partChars) →
      ∀ c ∈ l, c ≠ '-' ∧ c.toNat ≠ 0x2013 ∧ c ≠ 't' ∧ c ≠ 'T' :=
    fun l hl c hc => ⟨(partChars_props c (hl c hc)).1, (partChars_props c (hl c hc)).2.1,
      (partChars_props c (hl c hc)).2.2.1, (partChars_props c (hl c hc)).2.2.2.1⟩
  have hXa : ∀ k, ∀ c ∈ X ++ blanks k, c ∈ partChars := by
    intro k c hc
    rcases List.mem_append.mp hc with h | h
    · exact hX c h
    · exact blanks_partChars k c h
  rcases hsep with h | h | ⟨h, ha, hb⟩
  · subst h
    have hT : X ++ (blanks a ++ "-".data ++ blanks b ++ tail)
        = (X ++ blanks a) ++ ('-' :: (blanks b ++ tail)) := by
      simp [List.append_assoc]
    obtain ⟨prev2, hp⟩ := splitBudgetAux_plain (X ++ blanks a) ('-' :: (blanks b ++ tail))
      prev cur (hplain _ (hXa a))
    refine ⟨some '-', ?_⟩
    rw [hT, hp, splitBudgetAux, if_pos (Or.inl rfl)]
    simp [List.append_assoc]
  · subst h
    have hT : X ++ (blanks a ++ "–".data ++ blanks b ++ tail)
        = (X ++ blanks a) ++ (Char.ofNat 0x2013 :: (blanks b ++ tail)) := by
      simp [List.append_assoc]
    obtain ⟨prev2, hp⟩ := splitBudgetAux_plain (X ++ blanks a)
      (Char.ofNat 0x2013 :: (blanks b ++ tail)) prev cur (hplain _ (hXa a))
    refine ⟨some (Char.ofNat 0x2013), ?_⟩
    rw [hT, hp, splitBudgetAux, if_pos (Or.inr (by decide))]
    simp [List.append_assoc]
  · subst h
    obtain ⟨a2, rfl⟩ : ∃ a2, a = a2 + 1 := ⟨a - 1, by omega⟩
    obtain ⟨b2, rfl⟩ : ∃ b2, b = b2 + 1 := ⟨b - 1, by omega⟩
    have hba : blanks (a2 + 1) = blanks a2 ++ [' '] := List.replicate_succ' a2 ' '
    have hbb : blanks (b2 + 1) = ' ' :: blanks b2 := List.replicate_succ ' ' b2
    have hT : X ++ (blanks (a2 + 1) ++ "to".data ++ blanks (b2 + 1) ++ tail)
        = (X ++ blanks a2) ++ (' ' :: 't' :: 'o' :: ' ' :: (blanks b2 ++ tail)) := by
      rw [hba, hbb]
      simp [List.append_assoc]
    obtain ⟨prev2, hp⟩ := splitBudgetAux_plain (X ++ blanks a2)
      (' ' :: 't' :: 'o' :: ' ' :: (blanks b2 ++ tail)) prev cur (hplain _ (hXa a2))
    refine ⟨some 'o', ?_⟩
    rw [hT, hp, splitBudgetAux, if_neg (by decide),
      matchesTo_false _ _ _ (by decide) (by decide)]
    simp only [Bool.false_eq_true, if_false]
    rw [splitBudgetAux, if_neg (by decide)]
    have hm : matchesTo (some ' ') 't' ('o' :: ' ' :: (blanks b2 ++ tail)) = true := by
      simp [matchesTo, isWordChar]
    rw [hm]
    simp only [if_true]
    rw [splitBudgetAux]
    simp [hba, hbb, List.append_assoc]

theorem piece_kept (L : List Char) (c : Char) (hc : c ∈ L) (hws : isJsWhitespace c = false) :
    (jsTrim ⟨L⟩ != "") = true := by
  rw [jsTrim_eq]
  simp only [bne_iff_ne, ne_eq]
  intro h
  exact trimChars_ne_nil L c hc hws (congrArg String.data h)

theorem filter_kept (q : String) (l : List String) (h : (q != "") = true) :
    (q :: l).filter (fun p => p != "") = q :: l.filter (fun p => p != "") :=
  List.filter_cons_of_pos h

theorem digit_partChars (c : Char) (h : c ∈ digitChars) : c ∈ partChars :=
  List.mem_append_left _ h

/-- The number of parts of a text of several parts: every separator adds one. -/
theorem parts_count (tails : List RangeTail)
    (hsep : ∀ t ∈ tails, t.sep = "-" ∨ t.sep = "–" ∨ (t.sep = "to" ∧ 1 ≤ t.before ∧ 1 ≤ t.after)) :
    ∀ (prev : Option Char) (cur X : List Char), (∀ c ∈ X, c ∈ partChars) →
      (∃ c ∈ cur.reverse ++ X, isJsWhitespace c = false) →
      (((splitBudgetAux prev false (X ++ tailsText tails) cur).map
        (fun cs => jsTrim ⟨cs⟩)).filter (fun p => p != "")).length = tails.length + 1 := by
  induction tails with
  | nil =>
    intro prev cur X hX ⟨c, hc, hws⟩
    obtain ⟨prev2, hp⟩ := splitBudgetAux_plain X [] prev cur
      (fun c hc => ⟨(partChars_props c (hX c hc)).1, (partChars_props c (hX c hc)).2.1,
        (partChars_props c (hX c hc)).2.2.1, (partChars_props c (hX c hc)).2.2.2.1⟩)
    simp only [tailsText]
    rw [hp, splitBudgetAux_end, List.reverse_append, List.reverse_reverse, List.map_cons,
      List.map_nil, filter_kept _ _ (piece_kept _ c hc hws)]
    rfl
  | cons t rest ih =>
    intro prev cur X hX ⟨c, hc, hws⟩
    have hsep2 : ∀ x ∈ rest, x.sep = "-" ∨ x.sep = "–" ∨
        (x.sep = "to" ∧ 1 ≤ x.before ∧ 1 ≤ x.after) :=
      fun x hx => hsep x (List.mem_cons_of_mem _ hx)
    obtain ⟨hne, hdig, -⟩ := numeral_spec t.value
    obtain ⟨d, ds, hd⟩ := List.exists_cons_of_ne_nil hne
    have hT : X ++ tailsText (t :: rest)
        = X ++ (blanks t.before ++ t.sep.data ++ blanks t.after
            ++ ((toString t.value).data ++ tailsText rest)) := by
      simp [tailsText, List.append_assoc]
    obtain ⟨prev2, hp⟩ := splitBudgetAux_sep X ((toString t.value).data ++ tailsText rest)
      t.before t.after t.sep prev cur hX (hsep t (List.mem_cons_self _ _))
    rw [hT, hp, List.map_cons,
      filter_kept _ _ (piece_kept _ c (List.mem_append_left _ hc) hws),
      List.length_cons, ← List.append_assoc]
    rw [ih hsep2 prev2 [] (blanks t.after ++ (toString t.value).data) ?_ ?_]
    · rfl
    · intro x hx
      rcases List.mem_append.1 hx with h | h
      · exact blanks_partChars _ x h
      · exact digit_partChars x (hdig x h)
    · refine ⟨d, ?_, (digit_props d (hdig d (by rw [hd]; simp))).1⟩
      rw [hd]
      simp

/-- The digits of a text of several parts. -/
theorem multiPart_filter (first : Nat) (tails : List RangeTail)
    (hsep : ∀ t ∈ tails, t.sep = "-" ∨ t.sep = "–" ∨ (t.sep = "to" ∧ 1 ≤ t.before ∧ 1 ≤ t.after)) :
    (multiPartText first tails).filter (fun c => c.isDigit || c == '.')
      = multiPartDigits first tails := by
  have hnum : ∀ n : Nat, (toString n).data.filter (fun c => c.isDigit || c == '.')
      = (toString n).data := by
    intro n
    rw [List.filter_eq_self]
    intro c hc
    exact (digit_props c ((numeral_spec n).2.1 c hc)).2.2.2.2.2.2.2.2.2.2.2.2
  have hblank : ∀ k : Nat, (blanks k).filter (fun c => c.isDigit || c == '.') = [] := by
    intro k
    rw [List.filter_eq_nil_iff]
    intro c hc
    rw [mem_blanks k c hc]
    decide
  have htails : (tailsText tails).filter (fun c => c.isDigit || c == '.')
      = tails.flatMap (fun t => (toString t.value).data) := by
    induction tails with
    | nil => rfl
    | cons t rest ih =>
      have hs : t.sep.data.filter (fun c => c.isDigit || c == '.') = [] := by
        rcases hsep t (List.mem_cons_self _ _) with hs | hs | ⟨hs, -, -⟩ <;> rw [hs] <;> decide
      simp only [tailsText, List.filter_append, hblank, hs, hnum, List.nil_append,
        List.flatMap_cons]
      rw [ih (fun x hx => hsep x (List.mem_cons_of_mem _ hx))]
  unfold multiPartText multiPartDigits
  rw [List.filter_append, hnum, htails]

theorem multiPartText_mem (first : Nat) (tails : List RangeTail)
    (hsep : ∀ t ∈ tails, t.sep = "-" ∨ t.sep = "–" ∨ (t.sep = "to" ∧ 1 ≤ t.before ∧ 1 ≤ t.after)) :
    ∀ c ∈ multiPartText first tails, c ∈ multiChars := by
  intro c hc
  rcases List.mem_append.1 hc with h | h
  · exact digit_multiChars c ((numeral_spec first).2.1 c h)
  · exact tailsText_mem tails hsep c h

/-- A text of several parts ends with a digit. -/
theorem tailsText_last (tails : List RangeTail) :
    ∀ (X : List Char) (b : Char) (m : List Char), X.reverse = b :: m →
      isJsWhitespace b = false →
      ∃ b2 m2, (X ++ tailsText tails).reverse = b2 :: m2 ∧ isJsWhitespace b2 = false := by
  induction tails with
  | nil =>
    intro X b m hX hb
    exact ⟨b, m, by simpa [tailsText] using hX, hb⟩
  | cons t rest ih =>
    intro X b m hX hb
    obtain ⟨hne, hdig, -⟩ := numeral_spec t.value
    have hr : (toString t.value).data.reverse ≠ [] := by simpa using hne
    obtain ⟨e, me, he⟩ := List.exists_cons_of_ne_nil hr
    have hews : isJsWhitespace e = false :=
      (digit_props e (hdig e (List.mem_reverse.1 (by rw [he]; simp)))).1
    have hT : X ++ tailsText (t :: rest)
        = (X ++ blanks t.before ++ t.sep.data ++ blanks t.after ++ (toString t.value).data)
          ++ tailsText rest := by
      simp [tailsText, List.append_assoc]
    rw [hT]
    refine ih _ e (me ++ (X ++ blanks t.before ++ t.sep.data ++ blanks t.after).reverse) ?_ hews
    rw [List.reverse_append, he]
    rfl

theorem not_infix_of_head_not_mem (k0 : Char) (kw T : List Char) (h : k0 ∉ T) :
    ¬ (k0 :: kw) <:+: T := by
  intro hin
  exact h (hin.subset (List.mem_cons_self _ _))

/-- The value that `toNumber` reads from a text of several parts: the number written by
the digits of all the parts, when that number is a double. -/
theorem toNumber_multiPart (first : Nat) (tails : List RangeTail)
    (hsep : ∀ t ∈ tails, t.sep = "-" ∨ t.sep = "–" ∨ (t.sep = "to" ∧ 1 ≤ t.before ∧ 1 ≤ t.after))
    (hclean : toLowerCase (jsTrim ⟨multiPartText first tails⟩) = ⟨multiPartText first tails⟩)
    (hnonempty : (⟨multiPartText first tails⟩ : String) ≠ "")
    (hexact : ExactInt (digitsToNat (multiPartDigits first tails))) :
    toNumber ⟨multiPartText first tails⟩
      = some (.fin false (digitsToNat (multiPartDigits first tails)) 0) := by
  obtain ⟨hne, hdig, -⟩ := numeral_spec first
  have hdne : multiPartDigits first tails ≠ [] := by
    unfold multiPartDigits
    intro h
    exact hne (List.append_eq_nil.1 h).1
  have hdd : ∀ c ∈ multiPartDigits first tails, c ∈ digitChars := by
    intro c hc
    rcases List.mem_append.1 hc with h | h
    · exact hdig c h
    · obtain ⟨t, -, ht⟩ := List.mem_flatMap.1 h
      exact (numeral_spec t.value).2.1 c ht
  have hmem := multiPartText_mem first tails hsep
  have hinc : ∀ (k0 : Char) (kw : List Char), (k0 = 'l' ∨ k0 = 'c') →
      includes ⟨multiPartText first tails⟩ ⟨k0 :: kw⟩ = false := by
    intro k0 kw hk
    unfold includes
    rw [decide_eq_false_iff_not]
    apply not_infix_of_head_not_mem
    intro hm
    have hp := multiChars_props k0 (hmem k0 hm)
    rcases hk with h | h
    · exact hp.2.2.1 h
    · exact hp.2.2.2 h
  have hlakh := hinc 'l' "akh".data (Or.inl rfl)
  have hcr := hinc 'c' "r".data (Or.inr rfl)
  have hcrore := hinc 'c' "rore".data (Or.inr rfl)
  unfold toNumber
  rw [if_neg hnonempty]
  dsimp only
  rw [hclean]
  dsimp only
  rw [multiPart_filter first tails hsep, parseFloat_digits _ hdne hdd,
    show (JsNum.fin false (digitsToNat (multiPartDigits first tails)) 0).toDouble
      = .fin false (digitsToNat (multiPartDigits first tails)) 0 from hexact]
  have hnum : (if (JsNum.fin false (digitsToNat (multiPartDigits first tails)) 0).truthy = true
      then JsNum.fin false (digitsToNat (multiPartDigits first tails)) 0
      else JsNum.fin false 0 0)
        = JsNum.fin false (digitsToNat (multiPartDigits first tails)) 0 := by
    by_cases h0 : digitsToNat (multiPartDigits first tails) = 0
    · rw [h0]; rfl
    · rw [if_pos (by simp [JsNum.truthy, h0])]
  rw [hnum]
  have e1 : (⟨'l' :: "akh".data⟩ : String) = "lakh" := rfl
  have e2 : (⟨'c' :: "r".data⟩ : String) = "cr" := rfl
  have e3 : (⟨'c' :: "rore".data⟩ : String) = "crore" := rfl
  rw [e1] at hlakh
  rw [e2] at hcr
  rw [e3] at hcrore
  rw [hlakh, hcr, hcrore]
  rfl

theorem match_not_two (x : BudgetRange) : ∀ (parts : List String), parts.length ≠ 2 →
    (match parts with
      | [a, b] => (⟨toNumber a, toNumber b⟩ : BudgetRange)
      | _ => x) = x := by
  intro parts hp
  match parts, hp with
  | [], _ => rfl
  | [_], _ => rfl
  | [_, _], hp => exact absurd rfl hp
  | _ :: _ :: _ :: _, _ => rfl

/-! ## Properties of budgets of several parts -/

/-- C30, as stated, fails: `0-0-0` splits into three parts, each the numeral of an
integer, and the digits of the parts read 000, the integer 0; `parseBudgetRange`
returns min = max = undefined, not 0. And `100000-200000-300001` gives min = max =
100000200000300000, the double nearest to the integer 100000200000300001 that the
digits of its parts write. -/
theorem C30_all_zero_parts_undefined :
    budgetParts (.str "0-0-0") = ["0", "0", "0"] ∧
    parseBudgetRange (.str "0-0-0") = ⟨none, none⟩ ∧
    parseBudgetRange (.str "0-0-0") ≠ ⟨some (.fin false 0 0), some (.fin false 0 0)⟩ ∧
    budgetParts (.str "100000-200000-300001") = ["100000", "200000", "300001"] ∧
    parseBudgetRange (.str "100000-200000-300001")
      = ⟨some (.fin false 100000200000300000 0), some (.fin false 100000200000300000 0)⟩ := by
  decide

/-- C30, amended: for a text of three or more parts joined by hyphens, en dashes or
the word `to` (blanks may surround a separator and must surround the word `to`), each
part the decimal numeral of an integer without a unit, `parseBudgetRange` does not
return the first two parts as a range: the text has as many parts as written, and,
when the integer written by the digits of all the parts, one after the other, is a
double (as every integer up to `2^53` is), the result is min = max = that integer when
it is not zero, and min = max = undefined when it is. -/
theorem C30_three_or_more_parts (first : Nat) (tails : List RangeTail)
    (hlen : 2 ≤ tails.length)
    (hsep : ∀ t ∈ tails,
      t.sep = "-" ∨ t.sep = "–" ∨ (t.sep = "to" ∧ 1 ≤ t.before ∧ 1 ≤ t.after))
    (hexact : ExactInt (digitsToNat (multiPartDigits first tails))) :
    (budgetParts (.str ⟨multiPartText first tails⟩)).length = tails.length + 1 ∧
    parseBudgetRange (.str ⟨multiPartText first tails⟩)
      = (if digitsToNat (multiPartDigits first tails) = 0 then ⟨none, none⟩
        else ⟨some (.fin false (digitsToNat (multiPartDigits first tails)) 0),
          some (.fin false (digitsToNat (multiPartDigits first tails)) 0)⟩) := by
  obtain ⟨hne, hdig, -⟩ := numeral_spec first
  obtain ⟨d, ds, hd⟩ := List.exists_cons_of_ne_nil hne
  have hdws : isJsWhitespace d = false := (digit_props d (hdig d (by rw [hd]; simp))).1
  have hr : (toString first).data.reverse ≠ [] := by simpa using hne
  obtain ⟨b, m, hb⟩ := List.exists_cons_of_ne_nil hr
  have hbws : isJsWhitespace b = false :=
    (digit_props b (hdig b (List.mem_reverse.1 (by rw [hb]; simp)))).1
  obtain ⟨b2, m2, hlast, hb2⟩ := tailsText_last tails (toString first).data b m hb hbws
  have hhead : multiPartText first tails = d :: (ds ++ tailsText tails) := by
    unfold multiPartText
    rw [hd]
    rfl
  have hmem := multiPartText_mem first tails hsep
  have hlow : toLowerCase (jsTrim ⟨multiPartText first tails⟩) = ⟨multiPartText first tails⟩ :=
    clean_id _ d b2 _ m2 hhead hdws hlast hb2 (fun c hc => (multiChars_props c (hmem c hc)).1)
  have hnonempty : (⟨multiPartText first tails⟩ : String) ≠ "" := string_ne_empty _ d _ hhead
  have hclean : budgetCleaned (.str ⟨multiPartText first tails⟩) = ⟨multiPartText first tails⟩ := by
    unfold budgetCleaned
    show toLowerCase (jsTrim ⟨(multiPartText first tails).filter _⟩) = _
    rw [List.filter_eq_self.2 (fun c hc => (multiChars_props c (hmem c hc)).2.1)]
    exact hlow
  have hcount : (budgetParts (.str ⟨multiPartText first tails⟩)).length = tails.length + 1 := by
    unfold budgetParts splitBudget
    rw [hclean, List.map_map]
    exact parts_count tails hsep none [] (toString first).data
      (fun c hc => digit_partChars c (hdig c hc)) ⟨d, by rw [hd]; simp, hdws⟩
  have htruthy : (!(JsVal.str ⟨multiPartText first tails⟩).truthy
      && JsVal.str ⟨multiPartText first tails⟩ != .num 0) = false := by
    simp [JsVal.truthy, hnonempty]
  refine ⟨hcount, ?_⟩
  rw [parseBudgetRange_eq, htruthy]
  simp only [Bool.false_eq_true, if_false]
  rw [match_not_two _ _ (by rw [hcount]; omega), hclean,
    toNumber_multiPart first tails hsep hlow hnonempty hexact]
  by_cases h0 : digitsToNat (multiPartDigits first tails) = 0
  · rw [if_pos h0, h0]
    rfl
  · rw [if_neg h0]
    have ht : (JsNum.fin false (digitsToNat (multiPartDigits first tails)) 0).truthy = true := by
      simp [JsNum.truthy, h0]
    simp [Option.filter, ht]

theorem C30_three_or_more_parts_witness :
    2 ≤ [(⟨0, "-", 0, 20⟩ : RangeTail), ⟨0, "-", 0, 30⟩].length ∧
    (∀ t ∈ [(⟨0, "-", 0, 20⟩ : RangeTail), ⟨0, "-", 0, 30⟩],
      t.sep = "-" ∨ t.sep = "–" ∨ (t.sep = "to" ∧ 1 ≤ t.before ∧ 1 ≤ t.after)) ∧
    ExactInt (digitsToNat (multiPartDigits 10 [⟨0, "-", 0, 20⟩, ⟨0, "-", 0, 30⟩])) ∧
    (⟨multiPartText 10 [⟨0, "-", 0, 20⟩, ⟨0, "-", 0, 30⟩]⟩ : String) = "10-20-30" ∧
    digitsToNat (multiPartDigits 10 [⟨0, "-", 0, 20⟩, ⟨0, "-", 0, 30⟩]) = 102030 ∧
    (budgetParts (.str ⟨multiPartText 10 [⟨0, "-", 0, 20⟩, ⟨0, "-", 0, 30⟩]⟩)).length = 2 + 1 ∧
    parseBudgetRange (.str ⟨multiPartText 10 [⟨0, "-", 0, 20⟩, ⟨0, "-", 0, 30⟩]⟩)
      = (if digitsToNat (multiPartDigits 10 [⟨0, "-", 0, 20⟩, ⟨0, "-", 0, 30⟩]) = 0
          then ⟨none, none⟩
        else ⟨some (.fin false
            (digitsToNat (multiPartDigits 10 [⟨0, "-", 0, 20⟩, ⟨0, "-", 0, 30⟩])) 0),
          some (.fin false
            (digitsToNat (multiPartDigits 10 [⟨0, "-", 0, 20⟩, ⟨0, "-", 0, 30⟩])) 0)⟩) :=
  ⟨by decide, by decide, by decide, by decide, by decide,
    C30_three_or_more_parts 10 [⟨0, "-", 0, 20⟩, ⟨0, "-", 0, 30⟩] (by decide) (by decide)
      (by decide)⟩

/-! ## Lemmas on the webhooks -/

/-- The two audit writes of `metaWebhook` pass neither `userId` nor `role`, which the
schema requires: the store rejects them. -/
theorem activityLogCreate_webhook (db : Db) (action : String) :
    activityLogCreate db (webhookLogDoc action)
      = ({ db with trace := db.trace ++ [Effect.activityLogCreate (webhookLogDoc action)] },
          .error .validation) := rfl

theorem metaCatch_eq (db : Db) :
    metaCatch db
      = ({ db with
            trace := db.trace ++ [Effect.activityLogCreate (webhookLogDoc "webhook:error")] },
          false) := rfl

theorem leadCreate_activityLogs (db : Db) (doc : LeadDoc) :
    (leadCreate db doc).1.activityLogs = db.activityLogs := by
  unfold leadCreate
  cases buildLead doc with
  | error e => rfl
  | ok lead =>
    dsimp only
    by_cases hv : violatesUniqueIndex db.leads lead = true
    · rw [if_pos hv]
    · rw [if_neg hv]

/-- What follows `Lead.create` in the body of the inner loop: whatever the outcome of
the write, an audit write fails and its exception leaves the loops. -/
theorem metaAfterCreate (d : Db) (doc : LeadDoc) :
    (match (leadCreate d doc).2 with
      | .error _ => metaCatch (leadCreate d doc).1
      | .ok _ =>
        match (activityLogCreate (leadCreate d doc).1
            (webhookLogDoc "webhook:lead_received")).2 with
        | .ok _ =>
          ((activityLogCreate (leadCreate d doc).1 (webhookLogDoc "webhook:lead_received")).1,
            true)
        | .error _ =>
          metaCatch (activityLogCreate (leadCreate d doc).1
            (webhookLogDoc "webhook:lead_received")).1).2 = false ∧
    (match (leadCreate d doc).2 with
      | .error _ => metaCatch (leadCreate d doc).1
      | .ok _ =>
        match (activityLogCreate (leadCreate d doc).1
            (webhookLogDoc "webhook:lead_received")).2 with
        | .ok _ =>
          ((activityLogCreate (leadCreate d doc).1 (webhookLogDoc "webhook:lead_received")).1,
            true)
        | .error _ =>
          metaCatch (activityLogCreate (leadCreate d doc).1
            (webhookLogDoc "webhook:lead_received")).1).1.activityLogs = d.activityLogs := by
  cases hcr : (leadCreate d doc).2 with
  | error e =>
    dsimp only
    rw [metaCatch_eq]
    exact ⟨rfl, leadCreate_activityLogs d doc⟩
  | ok lead =>
    dsimp only
    rw [activityLogCreate_webhook]
    dsimp only
    rw [metaCatch_eq]
    exact ⟨rfl, leadCreate_activityLogs d doc⟩

/-- Every change that carries a lead identifier ends with an exception that leaves the
loops, and no change writes an audit record. -/
theorem metaChange_outcome (graph : GraphApi) (company : Company) (db : Db)
    (change : MetaChange) :
    (change.leadgenId.truthy = true → (metaChange graph company db change).2 = false) ∧
    (metaChange graph company db change).1.activityLogs = db.activityLogs := by
  unfold metaChange
  by_cases hl : (!change.leadgenId.truthy) = true
  · rw [if_pos hl]
    refine ⟨fun h => ?_, rfl⟩
    rw [h] at hl
    cases hl
  · rw [if_neg hl]
    dsimp only
    cases hg : graph change.leadgenId.toJsString fallbackAccessToken with
    | error e =>
      dsimp only
      rw [metaCatch_eq]
      exact ⟨fun _ => rfl, rfl⟩
    | ok fieldData =>
      dsimp only
      have h := metaAfterCreate
        (assignCall
          { db with trace := db.trace ++
            [Effect.graphFetch change.leadgenId.toJsString fallbackAccessToken] }
          company._id).1
        (metaLeadDoc company (assignCall
          { db with trace := db.trace ++
            [Effect.graphFetch change.leadgenId.toJsString fallbackAccessToken] }
          company._id).2 (List.foldl extractField ⟨"—", "", "", ""⟩ fieldData) change.leadgenId)
      exact ⟨fun _ => h.1, h.2⟩

theorem metaChanges_activityLogs (graph : GraphApi) (company : Company)
    (changes : List MetaChange) (db : Db) :
    (metaChanges graph company db changes).1.activityLogs = db.activityLogs := by
  induction changes generalizing db with
  | nil => rfl
  | cons c rest ih =>
    unfold metaChanges
    have h := (metaChange_outcome graph company db c).2
    by_cases hs : (metaChange graph company db c).2 = true
    · simp only [hs, if_true]
      rw [ih, h]
    · simp only [hs, if_false]
      exact h

theorem metaEntries_activityLogs (graph : GraphApi) (entries : List MetaEntry) (db : Db) :
    (metaEntries graph db entries).1.activityLogs = db.activityLogs := by
  induction entries generalizing db with
  | nil => rfl
  | cons e rest ih =>
    unfold metaEntries
    by_cases hid : (!e.id.truthy) = true
    · simp only [hid, if_true]
      exact ih db
    · simp only [hid]
      cases hfound : (companyFindOne db e.id).2 with
      | none => exact ih _
      | some company =>
        simp only
        have h := metaChanges_activityLogs graph company e.changes (companyFindOne db e.id).1
        by_cases hs : (metaChanges graph company (companyFindOne db e.id).1 e.changes).2 = true
        · simp only [hs, if_true]
          exact (ih _).trans (h.trans rfl)
        · simp only [hs, if_false]
          exact h.trans rfl

/-- The Meta webhook never writes an audit record. -/
theorem metaWebhook_activityLogs (graph : GraphApi) (db : Db) (req : MetaReq) :
    (metaWebhook graph db req).1.activityLogs = db.activityLogs := by
  unfold metaWebhook
  by_cases hm : req.method = "GET"
  · simp only [hm, if_true]
    split <;> rfl
  · simp only [hm, if_false]
    cases he : req.entry with
    | none => rfl
    | some entries => exact metaEntries_activityLogs graph entries db

/-- Once a change with a lead identifier has been reached, the rest of its entry is
not processed: the loop over the changes is left at that change. -/
theorem metaChanges_stops (graph : GraphApi) (company : Company) (db : Db)
    (change : MetaChange) (rest : List MetaChange) (h : change.leadgenId.truthy = true) :
    metaChanges graph company db (change :: rest)
      = ((metaChange graph company db change).1, false) := by
  have hf := (metaChange_outcome graph company db change).1 h
  show (if (metaChange graph company db change).2 = true
      then metaChanges graph company (metaChange graph company db change).1 rest
      else ((metaChange graph company db change).1, false)) = _
  rw [hf]
  rfl

/-! ## Properties of the webhooks -/

/-- C21: every request on the Meta webhook other than a GET is answered 200, whatever
the payload and whatever fails inside: the body is not an array of entries, the page is
unknown, the platform fetch fails, the lead write fails, or the audit write fails and
its exception leaves the loops. -/
theorem C21_meta_post_always_200 (graph : GraphApi) (db : Db) (req : MetaReq)
    (hpost : req.method ≠ "GET") :
    (metaWebhook graph db req).2 = ⟨200, .statusText⟩ := by
  unfold metaWebhook
  rw [if_neg hpost]
  cases req.entry with
  | none => rfl
  | some entries => rfl

theorem C21_meta_post_always_200_witness :
    abortedBatch.method ≠ "GET" ∧
    (metaEntries sampleGraph sampleDb
      [⟨.str "page-1", [⟨.str "L0"⟩, ⟨.str "L1"⟩]⟩, ⟨.str "page-1", [⟨.str "L2"⟩]⟩]).2 = false ∧
    (metaWebhook sampleGraph sampleDb abortedBatch).2 = ⟨200, .statusText⟩ :=
  ⟨by decide, by decide,
    C21_meta_post_always_200 sampleGraph sampleDb abortedBatch (by decide)⟩

/-- C22: evaluation at a POST with two entries of a known page, where the platform
cannot fetch the lead of the first change. The audit write of the `catch` block is
rejected by the store and its exception leaves both loops: the second change of the
entry and the second entry are never fetched and no lead is stored, although each of
them alone creates a lead. -/
theorem C22_failed_change_aborts_batch :
    (metaWebhook sampleGraph sampleDb abortedBatch).1.trace
      = [Effect.companyFindOne "page-1", Effect.graphFetch "L0" fallbackAccessToken,
          Effect.activityLogCreate (webhookLogDoc "webhook:error")] ∧
    (metaWebhook sampleGraph sampleDb abortedBatch).1.leads = [] ∧
    (metaWebhook sampleGraph sampleDb
      (metaPost [⟨.str "page-1", [⟨.str "L1"⟩]⟩])).1.leads.map (fun l => l.externalRef)
        = [some "L1"] ∧
    (metaWebhook sampleGraph sampleDb
      (metaPost [⟨.str "page-1", [⟨.str "L2"⟩]⟩])).1.leads.map (fun l => l.externalRef)
        = [some "L2"] := by
  decide

/-- C24: evaluation at a POST with two entries of one change each, the first of an
unknown page, the second of the page of company 1, whose lead the platform returns
with a name and a new phone. The answer is 200 and exactly one lead is stored, for
company 1, with source facebook and the lead identifier as externalRef; but the write
of the audit record `webhook:lead_received` is attempted and rejected, and no audit
record is stored. -/
theorem C24_no_audit_record_written :
    (metaWebhook sampleGraph sampleDb twoEntryPost).2 = ⟨200, .statusText⟩ ∧
    (metaWebhook sampleGraph sampleDb twoEntryPost).1.leads.map
        (fun l => (l.companyId, l.firstName, l.phone, l.source, l.externalRef))
      = [(1, "Asha", "900", "facebook", some "L1")] ∧
    Effect.activityLogCreate (webhookLogDoc "webhook:lead_received")
      ∈ (metaWebhook sampleGraph sampleDb twoEntryPost).1.trace ∧
    (metaWebhook sampleGraph sampleDb twoEntryPost).1.activityLogs = [] := by
  decide

/-- C23: evaluation at a GET that carries the two parameters which the route documents,
`hub.verify_token` equal to the shared secret and `hub.challenge`, and no `hub.mode`:
it is answered 403, not 200 with the challenge. The same request with `hub.mode` set
to `subscribe` is answered 200 with the challenge. -/
theorem C23_token_without_mode_forbidden :
    (metaGet .undefined (.str VERIFY_TOKEN) (.str "challenge-1")).hubVerifyToken
      = .str VERIFY_TOKEN ∧
    (metaWebhook sampleGraph sampleDb
      (metaGet .undefined (.str VERIFY_TOKEN) (.str "challenge-1"))).2 = ⟨403, .statusText⟩ ∧
    (metaWebhook sampleGraph sampleDb
      (metaGet (.str "subscribe") (.str VERIFY_TOKEN) (.str "challenge-1"))).2
        = ⟨200, .sent (.str "challenge-1")⟩ := by
  decide

/-- The handshake as the code performs it: a GET on the Meta webhook is answered 200
with a body equal to `hub.challenge` if and only if `hub.mode` is `subscribe` and
`hub.verify_token` equals the shared secret; in every other case it is answered 403.
The database, its trace of calls included, is unchanged in either case. -/
theorem metaWebhook_handshake (graph : GraphApi) (db : Db) (req : MetaReq)
    (hget : req.method = "GET") :
    ((metaWebhook graph db req).2 = ⟨200, .sent req.hubChallenge⟩ ↔
      (req.hubMode = .str "subscribe" ∧ req.hubVerifyToken = .str VERIFY_TOKEN)) ∧
    (¬ (req.hubMode = .str "subscribe" ∧ req.hubVerifyToken = .str VERIFY_TOKEN) →
      (metaWebhook graph db req).2 = ⟨403, .statusText⟩) ∧
    (metaWebhook graph db req).1 = db := by
  unfold metaWebhook
  rw [if_pos hget]
  by_cases h : req.hubMode = .str "subscribe" ∧ req.hubVerifyToken = .str VERIFY_TOKEN
  · rw [if_pos h]
    exact ⟨⟨fun _ => h, fun _ => rfl⟩, fun hn => absurd h hn, rfl⟩
  · rw [if_neg h]
    refine ⟨⟨fun hres => ?_, fun hh => absurd hh h⟩, fun _ => rfl, rfl⟩
    have : (403 : Nat) = 200 := congrArg Response.status hres
    omega

/-- A field that is not `full_name`, and not a `first_name` with a value, leaves the
first name as it is. -/
theorem extractField_keeps_first (st : Extracted) (g : MetaField)
    (h1 : g.name ≠ "full_name")
    (h2 : g.name = "first_name" → g.values.head?.getD "" = "") :
    (extractField st g).firstName = st.firstName := by
  unfold extractField
  dsimp only
  rw [if_neg h1]
  by_cases hf : g.name = "first_name"
  · rw [if_pos hf, if_pos (h2 hf)]
    split_ifs <;> rfl
  · rw [if_neg hf]
    split_ifs <;> rfl

/-- A field that is not `full_name`, and not a `last_name` with a value, leaves the
last name as it is. -/
theorem extractField_keeps_last (st : Extracted) (g : MetaField)
    (h1 : g.name ≠ "full_name")
    (h2 : g.name = "last_name" → g.values.head?.getD "" = "") :
    (extractField st g).lastName = st.lastName := by
  unfold extractField
  dsimp only
  rw [if_neg h1]
  split_ifs <;> simp_all

theorem extractField_sets_first (st : Extracted) (f : MetaField)
    (hname : f.name = "first_name") (hv : f.values.head?.getD "" ≠ "") :
    (extractField st f).firstName = f.values.head?.getD "" := by
  unfold extractField
  dsimp only
  rw [if_neg (by rw [hname]; decide), if_pos hname, if_neg hv,
    if_neg (by rw [hname]; decide), if_neg (by rw [hname]; decide),
    if_neg (by rw [hname]; decide)]

theorem extractField_sets_last (st : Extracted) (f : MetaField)
    (hname : f.name = "last_name") (hv : f.values.head?.getD "" ≠ "") :
    (extractField st f).lastName = f.values.head?.getD "" := by
  unfold extractField
  dsimp only
  rw [if_neg (by rw [hname]; decide), if_neg (by rw [hname]; decide), if_pos hname,
    if_neg (by rw [hname]; decide), if_neg (by rw [hname]; decide)]
  dsimp only
  rw [if_neg hv]

theorem foldl_keeps_first (post : List MetaField) (st : Extracted)
    (h : ∀ g ∈ post, g.name ≠ "full_name" ∧
      (g.name = "first_name" → g.values.head?.getD "" = "")) :
    (post.foldl extractField st).firstName = st.firstName := by
  induction post generalizing st with
  | nil => rfl
  | cons g rest ih =>
    rw [List.foldl_cons, ih _ (fun x hx => h x (List.mem_cons_of_mem _ hx))]
    exact extractField_keeps_first st g (h g (List.mem_cons_self _ _)).1
      (h g (List.mem_cons_self _ _)).2

theorem foldl_keeps_last (post : List MetaField) (st : Extracted)
    (h : ∀ g ∈ post, g.name ≠ "full_name" ∧
      (g.name = "last_name" → g.values.head?.getD "" = "")) :
    (post.foldl extractField st).lastName = st.lastName := by
  induction post generalizing st with
  | nil => rfl
  | cons g rest ih =>
    rw [List.foldl_cons, ih _ (fun x hx => h x (List.mem_cons_of_mem _ hx))]
    exact extractField_keeps_last st g (h g (List.mem_cons_self _ _)).1
      (h g (List.mem_cons_self _ _)).2

/-- C25, as stated, fails: in a field list that holds `first_name` and `last_name` with
values and then a `full_name` field, the extracted names are the two halves of
`full_name`, not the values of the discrete fields. -/
theorem C25_full_name_overwrites_when_later :
    (extractFields [⟨"first_name", ["Asha"]⟩, ⟨"last_name", ["Rao"]⟩,
      ⟨"full_name", ["Binu Nair"]⟩]).firstName = "Binu" ∧
    (extractFields [⟨"first_name", ["Asha"]⟩, ⟨"last_name", ["Rao"]⟩,
      ⟨"full_name", ["Binu Nair"]⟩]).lastName = "Nair" ∧
    (extractFields [⟨"full_name", ["Binu Nair"]⟩, ⟨"first_name", ["Asha"]⟩,
      ⟨"last_name", ["Rao"]⟩]).firstName = "Asha" := by
  decide

/-- C25, amended: the fields are applied in the order of the list and the last one
wins. If the list holds a field `first_name` (resp. `last_name`) with a non-empty value
and no later field of the list is `full_name` or the same discrete field with a
non-empty value, then the extracted firstName (resp. lastName) is that value, whether or
not a `full_name` field stands before it. -/
theorem C25_discrete_name_when_last (pre post : List MetaField) (f : MetaField)
    (hv : f.values.head?.getD "" ≠ "")
    (hpost : ∀ g ∈ post, g.name ≠ "full_name" ∧
      (g.name = f.name → g.values.head?.getD "" = "")) :
    (f.name = "first_name" →
      (extractFields (pre ++ f :: post)).firstName = f.values.head?.getD "") ∧
    (f.name = "last_name" →
      (extractFields (pre ++ f :: post)).lastName = f.values.head?.getD "") := by
  unfold extractFields
  rw [List.foldl_append, List.foldl_cons]
  constructor
  · intro hname
    rw [foldl_keeps_first post _ (fun g hg => ⟨(hpost g hg).1, fun h => (hpost g hg).2
      (h.trans hname.symm)⟩)]
    exact extractField_sets_first _ f hname hv
  · intro hname
    rw [foldl_keeps_last post _ (fun g hg => ⟨(hpost g hg).1, fun h => (hpost g hg).2
      (h.trans hname.symm)⟩)]
    exact extractField_sets_last _ f hname hv

theorem C25_discrete_name_when_last_witness :
    (⟨"first_name", ["Asha"]⟩ : MetaField).values.head?.getD "" ≠ "" ∧
    (∀ g ∈ [(⟨"phone_number", ["900"]⟩ : MetaField), ⟨"last_name", ["Rao"]⟩],
      g.name ≠ "full_name" ∧ (g.name = "first_name" → g.values.head?.getD "" = "")) ∧
    (extractFields ([⟨"full_name", ["Binu Nair"]⟩] ++ ⟨"first_name", ["Asha"]⟩
      :: [⟨"phone_number", ["900"]⟩, ⟨"last_name", ["Rao"]⟩])).firstName = "Asha" :=
  ⟨by decide, by decide,
    (C25_discrete_name_when_last [⟨"full_name", ["Binu Nair"]⟩]
      [⟨"phone_number", ["900"]⟩, ⟨"last_name", ["Rao"]⟩] ⟨"first_name", ["Asha"]⟩
      (by decide) (by decide)).1 rfl⟩

theorem leadCreate_trace (db : Db) (doc : LeadDoc) :
    (leadCreate db doc).1.trace = db.trace ++ [Effect.leadCreate doc] := by
  unfold leadCreate
  cases buildLead doc with
  | error e => rfl
  | ok lead =>
    dsimp only
    by_cases hv : violatesUniqueIndex db.leads lead = true
    · rw [if_pos hv]
    · rw [if_neg hv]

/-- The calls that `googleWebhook` adds to the trace, by the outcome of its guards. -/
theorem googleWebhook_trace (db : Db) (req : GoogleReq) :
    (googleWebhook db req).1.trace
      = db.trace ++
        (if req.pageId.truthy = true then
          match (companyFindOne db req.pageId).2 with
          | none => [Effect.companyFindOne req.pageId.toJsString]
          | some company =>
            [Effect.companyFindOne req.pageId.toJsString, Effect.assignQuery company._id,
              Effect.leadCreate (googleLeadDoc company
                (assignLeadToSalesperson db.users db.leads company._id) req)]
        else []) := by
  unfold googleWebhook
  by_cases hp : req.pageId.truthy = true
  · rw [if_neg (by simp [hp]), if_pos hp]
    dsimp only
    cases hfound : (companyFindOne db req.pageId).2 with
    | none => rfl
    | some company =>
      dsimp only
      rw [leadCreate_trace]
      show (db.trace ++ [Effect.companyFindOne req.pageId.toJsString]
        ++ [Effect.assignQuery company._id]) ++ _ = _
      simp only [List.append_assoc, List.cons_append, List.nil_append]
      rfl
  · rw [if_pos (by simpa using hp), if_neg hp, List.append_nil]

/-- C26, as stated, fails: the empty page identifier (`?pageId=`) resolves to no
company, and so does an absent one, yet the request is answered 400 by the guard of
line 613, not 404. -/
theorem C26_empty_page_identifier_answered_400 :
    (companyFindOne sampleDb (googlePost (.str "")).pageId).2 = none ∧
    (googleWebhook sampleDb (googlePost (.str ""))).2 = ⟨400, .message "pageId is required"⟩ ∧
    (companyFindOne sampleDb (googlePost .undefined).pageId).2 = none ∧
    (googleWebhook sampleDb (googlePost .undefined)).2
      = ⟨400, .message "pageId is required"⟩ := by
  decide

/-- C26, amended: a request on the Google webhook whose page identifier is present (not
empty) and resolves to no company is answered 404; it leaves the leads as they were
and adds only the company lookup to the trace of calls: no assignment query, no lead
write. A lead is submitted to the store by a request only when its page identifier
resolves to a company, and then with the companyId of that company, source google and
the submission identifier as externalRef; when the identifier resolves, that lead is
submitted. A request whose page identifier is absent or empty is answered 400 and
leaves the database, its trace of calls included, as it was. -/
theorem C26_google_company_resolution (db : Db) (req : GoogleReq) :
    (req.pageId.truthy = true → (companyFindOne db req.pageId).2 = none →
      (googleWebhook db req).2 = ⟨404, .message "Company not found for pageId"⟩ ∧
      (googleWebhook db req).1.leads = db.leads ∧
      (googleWebhook db req).1.trace
        = db.trace ++ [Effect.companyFindOne req.pageId.toJsString]) ∧
    (∀ pre doc post,
      (googleWebhook db req).1.trace = db.trace ++ (pre ++ Effect.leadCreate doc :: post) →
      ∃ company, req.pageId.truthy = true ∧
        (companyFindOne db req.pageId).2 = some company ∧
        doc.companyId = some company._id ∧ doc.source = some "google" ∧
        doc.externalRef = req.submissionId) ∧
    (∀ company, req.pageId.truthy = true →
      (companyFindOne db req.pageId).2 = some company →
      Effect.leadCreate (googleLeadDoc company
          (assignLeadToSalesperson db.users db.leads company._id) req)
        ∈ (googleWebhook db req).1.trace) ∧
    (req.pageId.truthy = false →
      googleWebhook db req = (db, ⟨400, .message "pageId is required"⟩)) := by
  have htrace := googleWebhook_trace db req
  refine ⟨?_, ?_, ?_, ?_⟩
  · intro hp hnone
    rw [hp, hnone] at htrace
    refine ⟨?_, ?_, htrace⟩
    · unfold googleWebhook
      rw [if_neg (by simp [hp])]
      dsimp only
      rw [hnone]
    · unfold googleWebhook
      rw [if_neg (by simp [hp])]
      dsimp only
      rw [hnone]
      rfl
  · intro pre doc post hdoc
    rw [htrace] at hdoc
    have hadd := List.append_cancel_left hdoc
    by_cases hp : req.pageId.truthy = true
    · rw [if_pos hp] at hadd
      cases hfound : (companyFindOne db req.pageId).2 with
      | none =>
        rw [hfound] at hadd
        dsimp only at hadd
        have hmem : Effect.leadCreate doc ∈ [Effect.companyFindOne req.pageId.toJsString] := by
          rw [hadd]
          simp
        simp at hmem
      | some company =>
        rw [hfound] at hadd
        dsimp only at hadd
        have hmem : Effect.leadCreate doc ∈
            [Effect.companyFindOne req.pageId.toJsString, Effect.assignQuery company._id,
              Effect.leadCreate (googleLeadDoc company
                (assignLeadToSalesperson db.users db.leads company._id) req)] := by
          rw [hadd]
          simp
        simp only [List.mem_cons, List.mem_singleton, List.not_mem_nil, or_false,
          Effect.leadCreate.injEq] at hmem
        have hd : doc = googleLeadDoc company
            (assignLeadToSalesperson db.users db.leads company._id) req := by
          rcases hmem with h | h | h
          · cases h
          · cases h
          · exact h
        refine ⟨company, hp, rfl, ?_, ?_, ?_⟩ <;> rw [hd] <;> rfl
    · rw [if_neg hp] at hadd
      have hmem : Effect.leadCreate doc ∈ ([] : List Effect) := by
        rw [hadd]
        simp
      simp at hmem
  · intro company hp hfound
    rw [htrace, if_pos hp, hfound]
    simp
  · intro hp
    unfold googleWebhook
    rw [if_pos (by simp [hp])]

theorem C26_google_company_resolution_witness :
    (googlePost (.str "page-9")).pageId.truthy = true ∧
    (companyFindOne sampleDb (googlePost (.str "page-9")).pageId).2 = none ∧
    (googleWebhook sampleDb (googlePost (.str "page-9"))).2
      = ⟨404, .message "Company not found for pageId"⟩ ∧
    (googleWebhook sampleDb (googlePost (.str "page-9"))).1.trace
      = [Effect.companyFindOne "page-9"] ∧
    (googleWebhook sampleDb (googlePost (.str "page-1"))).1.leads.map
        (fun l => (l.companyId, l.source, l.externalRef))
      = [(1, "google", some "S1")] :=
  ⟨rfl, rfl,
    ((C26_google_company_resolution sampleDb (googlePost (.str "page-9"))).1 rfl rfl).1,
    ((C26_google_company_resolution sampleDb (googlePost (.str "page-9"))).1 rfl rfl).2.2,
    by decide⟩

/-! ## Properties of the manual create -/

/-- C29: evaluation at a manual-create request whose phone is made of blanks. The
guard of line 62 tests the phone before it is trimmed, so the request is not answered
400: the assignment query is made and a lead with the empty phone is submitted to
`Lead.create`, which rejects it; the answer is 500 and nothing is stored. The
bulk import trims the phone before it tests it and skips such a row. -/
theorem C29_blank_phone_reaches_store :
    (createLead sampleDb ⟨sampleBody (.str "Asha") (.str "   ") .undefined (some 1), none⟩).2
      = ⟨500, .message "Server error"⟩ ∧
    (createLeadDoc ⟨sampleBody (.str "Asha") (.str "   ") .undefined (some 1), none⟩ 1
      (some 11)).phone = .str "" ∧
    (createLead sampleDb
        ⟨sampleBody (.str "Asha") (.str "   ") .undefined (some 1), none⟩).1.trace
      = [Effect.assignQuery 1,
          Effect.leadCreate (createLeadDoc
            ⟨sampleBody (.str "Asha") (.str "   ") .undefined (some 1), none⟩ 1 (some 11))] ∧
    (createLead sampleDb
        ⟨sampleBody (.str "Asha") (.str "   ") .undefined (some 1), none⟩).1.leads = [] ∧
    (createLead sampleDb ⟨sampleBody (.str "  ") (.str "98") .undefined (some 1), none⟩).2
      = ⟨500, .message "Server error"⟩ ∧
    (importCsv sampleDb blankPhoneImport).2
      = some ⟨200, .importReport "Import completed for company Savan" ⟨0, 1, 0, 1⟩
          [⟨1, "Missing phone", [("First Name", .str "Asha"), ("Phone No", .str "   ")]⟩]⟩ := by
  decide

end Savan
